import Mathlib

/-!
# SmolDB — formal model of the storage engine, index manager and collection layer

This file gives a shallow embedding, in Lean, of the parts of the SmolDB
repository that the verified claims are about:

* the binary codec helpers of `src/utils.ts` (little-endian integers, CRC-32,
  index-value serialization, deep equality),
* the slab allocator of `src/constants.ts` (`selectSlabSize`),
* the storage engine of `src/storage.ts` (slot format, write / update /
  delete / writeMany / compact, free list, header accounting),
* the index manager of `src/index-manager.ts` (primary and secondary indexes,
  counted query execution), and
* the collection coordinator of `src/collection.ts` (CRUD plus the optional
  read cache).

Files are modelled as lists of byte values (`List Nat`, each element `< 256`
for every byte the engine itself writes); positional file writes
(`FileHandle.write` at an offset) are modelled by `writeAt`, which
zero-extends the file exactly as a POSIX positional write does.  Machine
integers are modelled as `Nat` with explicit `% 2 ^ 32` / `% 2 ^ 64`
truncation where `DataView.setUint32` / `setBigUint64` truncate.  Fallible
operations return `Except`.
-/

namespace SmolDB

/-! ## Little-endian integer codec (`writeUint32` / `readUint32` etc. of `src/utils.ts`) -/

/-- The four little-endian bytes stored by `writeUint32` (`DataView.setUint32`
truncates the value mod 2^32). -/
def u32Bytes (v : Nat) : List Nat :=
  [v % 256, v / 256 % 256, v / 65536 % 256, v / 16777216 % 256]

/-- The eight little-endian bytes stored by `writeUint64`. -/
def u64Bytes (v : Nat) : List Nat :=
  [v % 256, v / 256 % 256, v / 65536 % 256, v / 16777216 % 256,
   v / 4294967296 % 256, v / 1099511627776 % 256,
   v / 281474976710656 % 256, v / 72057594037927936 % 256]

/-- `readUint32`: little-endian decode of the four bytes at `off`.
Out-of-range bytes read as zero (reads issued by the engine are always in
range). -/
def readU32 (l : List Nat) (off : Nat) : Nat :=
  l.getD off 0 + 256 * l.getD (off + 1) 0 + 65536 * l.getD (off + 2) 0 +
    16777216 * l.getD (off + 3) 0

/-! ## Positional file writes

`FileHandle.write(data, 0, data.length, offset)` overwrites `data.length`
bytes at `offset`, zero-extending the file first if `offset` is past the end
(POSIX positional-write semantics, see `StorageEngine.writeAtOffset`). -/

/-- The file contents after a positional write of `d` at byte offset `off`. -/
def writeAt (f : List Nat) (off : Nat) (d : List Nat) : List Nat :=
  let g := f ++ List.replicate (off + d.length - f.length) 0
  g.take off ++ d ++ g.drop (off + d.length)

/-- `length` bytes read at `offset` (short reads return fewer bytes). -/
def slice (l : List Nat) (off len : Nat) : List Nat :=
  (l.drop off).take len

/-! ## CRC-32 (`crc32` of `src/utils.ts`)

IEEE polynomial `0xEDB88320`, reflected, table-driven; initial register
`0xFFFFFFFF`, final XOR `0xFFFFFFFF`. -/

/-- One entry of the 256-entry lookup table built at module load:
eight rounds of `crc = crc & 1 ? (crc >>> 1) ^ 0xedb88320 : crc >>> 1`. -/
def crcTableEntry (i : Nat) : Nat :=
  (List.range 8).foldl (fun c _ => if c % 2 = 1 then (c / 2) ^^^ 0xedb88320 else c / 2) i

/-- One step of the CRC loop: `crc = CRC32_TABLE[(crc ^ data[i]) & 0xff] ^ (crc >>> 8)`. -/
def crcByteStep (c b : Nat) : Nat :=
  crcTableEntry ((c ^^^ b) &&& 255) ^^^ (c >>> 8)

/-- `crc32(data)`: fold the byte step from `0xffffffff`, then final XOR. -/
def crc32 (data : List Nat) : Nat :=
  (data.foldl crcByteStep 0xffffffff) ^^^ 0xffffffff

/-! ## Constants and slab selection (`src/constants.ts`) -/

def SLOT_HEADER_SIZE : Nat := 16

def DATA_HEADER_SIZE : Nat := 64

def DATA_FILE_MAGIC : Nat := 0x4c4f4d53

def FORMAT_VERSION : Nat := 1

/-- `SlotFlags.ACTIVE = 1 << 0`. -/
def FLAG_ACTIVE : Nat := 1

/-- `SlotFlags.BLOB = 1 << 1`. -/
def FLAG_BLOB : Nat := 2

/-- `selectSlabSize`: smallest bucket of 1024 / 8192 / 65536 that holds
`dataLength + 16`, else the next 4096-aligned size.  (`Math.ceil(t / 4096) *
4096` is exact for every representable length, modelled by Nat ceiling
division.)  -/
def selectSlabSize (dataLength : Nat) : Nat :=
  if dataLength + SLOT_HEADER_SIZE ≤ 1024 then 1024
  else if dataLength + SLOT_HEADER_SIZE ≤ 8192 then 8192
  else if dataLength + SLOT_HEADER_SIZE ≤ 65536 then 65536
  else ((dataLength + SLOT_HEADER_SIZE + 4095) / 4096) * 4096

/-- The slab size classes declared in §4.2 of the spec (TINY, SMALL, MEDIUM). -/
def slabClasses : List Nat := [1024, 8192, 65536]

/-- Spec-side description of the required slab ("the smallest of 1024, 8192,
65536 that is ≥ n + 16, falling through to ceil((n+16)/4096)*4096"). -/
def specRequiredSlab (n : Nat) : Nat :=
  match (slabClasses.filter (fun c => n + SLOT_HEADER_SIZE ≤ c)).min? with
  | some c => c
  | none => ((n + SLOT_HEADER_SIZE + 4095) / 4096) * 4096

/-- A size that `selectSlabSize` can produce. -/
def SlabClass (s : Nat) : Prop :=
  s = 1024 ∨ s = 8192 ∨ s = 65536 ∨ (65536 < s ∧ s % 4096 = 0)

structure FreeSlot where
  offset : Nat
  slabSize : Nat
  deriving DecidableEq, Repr

structure SlabAllocation where
  offset : Nat
  slabSize : Nat
  isReused : Bool
  deriving DecidableEq, Repr

/-- The free-list scan of `StorageEngine.allocateSlot`: first entry with
`slabSize ≥ required` (JS `Set` iterates in insertion order), removed from
the list. -/
def takeFirstFit (required : Nat) : List FreeSlot → Option (FreeSlot × List FreeSlot)
  | [] => none
  | fs :: rest =>
    if required ≤ fs.slabSize then some (fs, rest)
    else (takeFirstFit required rest).map (fun p => (p.1, fs :: p.2))

/-- `StorageEngine.allocateSlot` given the free list and `nextSlotOffset`;
returns the allocation and the updated free list. -/
def allocateSlot (freeList : List FreeSlot) (nextSlotOffset : Nat)
    (dataLength : Nat) : SlabAllocation × List FreeSlot :=
  match takeFirstFit (selectSlabSize dataLength) freeList with
  | some (fs, rest) =>
    ({ offset := fs.offset, slabSize := fs.slabSize, isReused := true }, rest)
  | none =>
    ({ offset := nextSlotOffset, slabSize := selectSlabSize dataLength,
       isReused := false }, freeList)

/-! ## Slot format and read path (`StorageEngine.writeSlot` / `readSlot`) -/

/-- Structured stand-ins for `CorruptedDataError` (first three constructors)
and `ChecksumMismatchError` (last constructor) as thrown by the read path. -/
inductive ReadErr where
  | eofWhileReadingSlot (offset : Nat)
  | slotNotActive (offset : Nat)
  | dataLengthMismatch (expected got : Nat) (offset : Nat)
  | checksumMismatch (expected actual : Nat) (offset : Nat)
  deriving DecidableEq, Repr

/-- The slot buffer built by `writeSlot`: 16-byte header (`flags`,
`dataLength`, `slabSize`, `crc32`, all little-endian u32) followed by the
payload and zero padding up to `slabSize`. -/
def slotBuffer (data : List Nat) (slabSize : Nat) (isBlob : Bool) : List Nat :=
  u32Bytes (FLAG_ACTIVE ||| (if isBlob then FLAG_BLOB else 0)) ++
    u32Bytes data.length ++ u32Bytes slabSize ++ u32Bytes (crc32 data) ++
    data ++ List.replicate (slabSize - SLOT_HEADER_SIZE - data.length) 0

/-- `writeSlot`: build the slot buffer and write it positionally at `offset`. -/
def writeSlot (file : List Nat) (offset : Nat) (data : List Nat)
    (slabSize : Nat) (isBlob : Bool) : List Nat :=
  writeAt file offset (slotBuffer data slabSize isBlob)

/-- Validation performed by `StorageEngine.readSlot` on the
`SLOT_HEADER_SIZE + length` bytes read at a slot offset: short read, ACTIVE
flag, `dataLength` match, CRC of the payload. -/
def validateSlot (slotBytes : List Nat) (length offset : Nat) :
    Except ReadErr (List Nat) :=
  if slotBytes.length < SLOT_HEADER_SIZE + length then
    .error (.eofWhileReadingSlot offset)
  else if readU32 slotBytes 0 &&& FLAG_ACTIVE = 0 then
    .error (.slotNotActive offset)
  else if readU32 slotBytes 4 ≠ length then
    .error (.dataLengthMismatch length (readU32 slotBytes 4) offset)
  else if crc32 (slice slotBytes SLOT_HEADER_SIZE length) ≠ readU32 slotBytes 12 then
    .error (.checksumMismatch (readU32 slotBytes 12)
      (crc32 (slice slotBytes SLOT_HEADER_SIZE length)) offset)
  else
    .ok (slice slotBytes SLOT_HEADER_SIZE length)

/-- `StorageEngine.readSlot`: read `SLOT_HEADER_SIZE + length` bytes at
`offset` and validate them. -/
def readSlot (file : List Nat) (offset length : Nat) : Except ReadErr (List Nat) :=
  validateSlot (slice file offset (SLOT_HEADER_SIZE + length)) length offset

/-- The 16-byte header of a freshly written slot. -/
def slotHeaderBytes (dataLength slabSize : Nat) (checksum : Nat) (isBlob : Bool) :
    List Nat :=
  u32Bytes (FLAG_ACTIVE ||| (if isBlob then FLAG_BLOB else 0)) ++
    u32Bytes dataLength ++ u32Bytes slabSize ++ u32Bytes checksum

/-! ## JS values, deep equality, index-value serialization (`src/utils.ts`) -/

inductive JSVal where
  | nullV
  | undefinedV
  | boolV (b : Bool)
  | numV (n : Int)
  | nanV
  | infV (pos : Bool)
  | strV (s : String)
  | arrV (xs : List JSVal)
  | objV (kvs : List (String × JSVal))

open JSVal

def jsTypeof : JSVal → String
  | nullV => "object"
  | undefinedV => "undefined"
  | boolV _ => "boolean"
  | numV _ => "number"
  | nanV => "number"
  | infV _ => "number"
  | strV _ => "string"
  | arrV _ => "object"
  | objV _ => "object"

def jsStrictEq : JSVal → JSVal → Bool
  | nullV, nullV => true
  | undefinedV, undefinedV => true
  | boolV a, boolV b => a == b
  | numV a, numV b => a == b
  | infV a, infV b => a == b
  | strV a, strV b => a == b
  | _, _ => false

def lookupKV : List (String × JSVal) → String → Option JSVal
  | [], _ => none
  | (k, v) :: rest, key => if k = key then some v else lookupKV rest key

mutual
def deepEqual (a b : JSVal) : Bool :=
  if jsStrictEq a b then true
  else
    match a, b with
    | nullV, _ => false
    | _, nullV => false
    | arrV xs, arrV ys => (xs.length == ys.length) && deepEqualList xs ys
    | arrV _, objV _ => false
    | objV _, arrV _ => false
    | objV axs, objV bys => (axs.length == bys.length) && deepEqualObj axs bys
    | a', b' => if jsTypeof a' ≠ jsTypeof b' then false else false
def deepEqualList : List JSVal → List JSVal → Bool
  | [], [] => true
  | x :: xs, y :: ys => deepEqual x y && deepEqualList xs ys
  | _, _ => false
def deepEqualObj : List (String × JSVal) → List (String × JSVal) → Bool
  | [], _ => true
  | (k, v) :: rest, bys =>
    match lookupKV bys k with
    | some w => deepEqual v w && deepEqualObj rest bys
    | none => false
end

def digitChar (d : Nat) : Char := Char.ofNat (48 + d)

/-- Little-endian decimal digits with explicit fuel (kernel-computable). -/
def decDigitsAux : Nat → Nat → List Nat
  | 0, _ => []
  | _ + 1, 0 => []
  | fuel + 1, m => (m % 10) :: decDigitsAux fuel (m / 10)

/-- Big-endian decimal digit list; `[0]` for zero. -/
def decDigits (m : Nat) : List Nat :=
  if m = 0 then [0] else (decDigitsAux m m).reverse

def natStr (m : Nat) : String := String.mk ((decDigits m).map digitChar)

/-- The 16 significant digits kept after rounding (half away from zero), for
integers of more than 16 decimal digits; used by `toExponential15`. -/
def roundedTo16 (m : Nat) : Nat :=
  if 10 ^ ((decDigits m).length - 16) ≤ 2 * (m % 10 ^ ((decDigits m).length - 16)) then
    m / 10 ^ ((decDigits m).length - 16) + 1
  else
    m / 10 ^ ((decDigits m).length - 16)

/-- `Number.prototype.toExponential(15)` on a non-negative integer:
16 significant digits `d.ddddddddddddddde+K`, rounding half away from zero
when the integer has more than 16 digits. -/
def toExponential15 (m : Nat) : String :=
  if (decDigits m).length ≤ 16 then
    String.mk (digitChar ((decDigits m).headD 0) :: '.' ::
      (((decDigits m).tail ++
        List.replicate (16 - (decDigits m).length) 0).map digitChar) ++
      ('e' :: '+' :: (decDigits ((decDigits m).length - 1)).map digitChar))
  else if (decDigits (roundedTo16 m)).length = 17 then
    String.mk (digitChar 1 :: '.' :: (List.replicate 15 (digitChar 0)) ++
      ('e' :: '+' :: (decDigits (decDigits m).length).map digitChar))
  else
    String.mk (digitChar ((decDigits (roundedTo16 m)).headD 0) :: '.' ::
      ((decDigits (roundedTo16 m)).tail.map digitChar) ++
      ('e' :: '+' :: (decDigits ((decDigits m).length - 1)).map digitChar))

-- sanity: matches JS (1).toExponential(15) = "1.000000000000000e+0"

def escapeChar (c : Char) : List Char :=
  if c = '"' then ['\\', '"']
  else if c = '\\' then ['\\', '\\']
  else if c = '\n' then ['\\', 'n']
  else if c = '\t' then ['\\', 't']
  else if c = '\r' then ['\\', 'r']
  else if c.toNat = 8 then ['\\', 'b']
  else if c.toNat = 12 then ['\\', 'f']
  else if c.toNat < 32 then
    '\\' :: 'u' :: '0' :: '0' ::
      [Char.ofNat (if c.toNat / 16 < 10 then 48 + c.toNat / 16 else 87 + c.toNat / 16),
       Char.ofNat (if c.toNat % 16 < 10 then 48 + c.toNat % 16 else 87 + c.toNat % 16)]
  else [c]

def jsonQuote (s : String) : String :=
  String.mk ('"' :: (s.data.flatMap escapeChar) ++ ['"'])

def intToString (n : Int) : String :=
  if n < 0 then "-" ++ natStr n.natAbs else natStr n.natAbs

mutual
def jsonStringify : JSVal → String
  | nullV => "null"
  | undefinedV => "null"
  | nanV => "null"
  | infV _ => "null"
  | boolV b => cond b "true" "false"
  | numV n => intToString n
  | strV s => jsonQuote s
  | arrV xs => "[" ++ String.intercalate "," (jsonStringifyList xs) ++ "]"
  | objV kvs => "\x7b" ++ String.intercalate "," (jsonStringifyObj kvs) ++ "\x7d"
def jsonStringifyList : List JSVal → List String
  | [] => []
  | x :: xs => jsonStringify x :: jsonStringifyList xs
def jsonStringifyObj : List (String × JSVal) → List String
  | [] => []
  | (k, undefinedV) :: rest => jsonStringifyObj rest
  | (k, v) :: rest => (jsonQuote k ++ ":" ++ jsonStringify v) :: jsonStringifyObj rest
end

def serializeIndexValue : JSVal → String
  | nullV => "\x00null"
  | undefinedV => "\x00undefined"
  | boolV b => "\x01" ++ (cond b "1" "0")
  | nanV => "\x02nan"
  | infV pos => cond pos "\x02+inf" "\x02-inf"
  | numV n => "\x02" ++ (if 0 ≤ n then "+" else "-") ++ toExponential15 n.natAbs
  | strV s => "\x03" ++ s
  | arrV xs => "\x04" ++ jsonStringify (arrV xs)
  | objV kvs => "\x04" ++ jsonStringify (objV kvs)

/-- Scalar values on which the serialize/deepEqual equivalence is claimed:
no arrays/objects, no NaN, numbers within 16 significant decimal digits. -/
def ScalarOk : JSVal → Prop
  | nullV => True
  | undefinedV => True
  | boolV _ => True
  | numV n => n.natAbs < 10 ^ 16
  | nanV => False
  | infV _ => True
  | strV _ => True
  | arrV _ => False
  | objV _ => False

def serTag : JSVal → Char
  | nullV => '\x00'
  | undefinedV => '\x00'
  | boolV _ => '\x01'
  | numV _ => '\x02'
  | nanV => '\x02'
  | infV _ => '\x02'
  | strV _ => '\x03'
  | arrV _ => '\x04'
  | objV _ => '\x04'

/-! ## UTF-8 encoding (`encodeString` in `src/utils.ts`)

`TextEncoder.encode` on a well-formed string is standard UTF-8.  Lean's
`Char` ranges over Unicode scalar values, so the four-byte-class encoder
below is exactly what `TextEncoder` produces (lone surrogates, which Lean
strings cannot represent, are out of scope). -/

/-- UTF-8 bytes of one scalar value. -/
def utf8Char (n : Nat) : List Nat :=
  if n < 128 then [n]
  else if n < 2048 then [192 + n / 64, 128 + n % 64]
  else if n < 65536 then [224 + n / 4096, 128 + n / 64 % 64, 128 + n % 64]
  else [240 + n / 262144, 128 + n / 4096 % 64, 128 + n / 64 % 64, 128 + n % 64]

/-- `encodeString`: UTF-8 bytes of a string. -/
def encodeString (s : String) : List Nat :=
  s.data.flatMap (fun c => utf8Char c.toNat)

/-- The byte encoding of a document: `encodeString(JSON.stringify(data))`,
computed by `writeUnlocked`/`updateUnlocked`/`writeMany` before storing. -/
def encodeDoc (d : JSVal) : List Nat :=
  encodeString (jsonStringify d)

/-! ## Association-list helpers

JavaScript `Map`s (and the string-keyed record objects) are modelled as
association lists in insertion order: `Map.set` of an existing key keeps its
position, `Map.set` of a new key appends, `Map.delete` removes the entry.
Keys are unique in every map the engine builds. -/

def getAssoc {α β : Type} [DecidableEq α] : List (α × β) → α → Option β
  | [], _ => none
  | kv :: rest, key => if kv.1 = key then some kv.2 else getAssoc rest key

def setAssoc {α β : Type} [DecidableEq α] : List (α × β) → α → β → List (α × β)
  | [], key, val => [(key, val)]
  | kv :: rest, key, val =>
    if kv.1 = key then (kv.1, val) :: rest else kv :: setAssoc rest key val

def delAssoc {α β : Type} [DecidableEq α] : List (α × β) → α → List (α × β)
  | [], _ => []
  | kv :: rest, key => if kv.1 = key then rest else kv :: delAssoc rest key

/-! ## Storage-engine state (`src/storage.ts`)

The data file is a byte list, positional writes go through `writeAt`.  The
blob directory is a map from file name to contents.  `refMap` is the ghost
model of `JSON.parse` applied to blob-reference slots: it records, per slot
offset, the `BlobReference` whose JSON encoding was last written there
(`readBlobReference` = `readSlot` + `JSON.parse`; the parse result is
determined by the bytes, which the engine only ever writes via
`writeBlobReferenceSlot`/`updateBlobReferenceUnlocked`). -/

/-- `BlobReference` from `src/types.ts`. -/
structure BlobRef where
  path : String
  size : Nat
  checksum : Nat
  deriving DecidableEq, Repr

/-- `JSON.stringify` of a `BlobReference` object (property order `path`,
`size`, `checksum` as in `writeBlobFile`), UTF-8 encoded. -/
def renderBlobRef (r : BlobRef) : List Nat :=
  encodeString (jsonStringify (.objV
    [("path", .strV r.path), ("size", .numV (r.size : Int)),
     ("checksum", .numV (r.checksum : Int))]))

/-- `DocumentLocation` from `src/types.ts`. -/
structure DocumentLocation where
  offset : Nat
  length : Nat
  slabSize : Nat
  isBlob : Bool
  deriving DecidableEq, Repr

/-- `DataFileHeader`.  `liveDataSize` and `documentCount` are JS numbers
that the code increments and decrements, so they are modelled as `Int`. -/
structure DataFileHeader where
  magic : Nat
  version : Nat
  fileSize : Nat
  liveDataSize : Int
  documentCount : Int
  nextSlotOffset : Nat
  deriving DecidableEq, Repr

/-- `setBigUint64` stores the value mod `2^64` (two's complement for
negative inputs). -/
def u64IntBytes (v : Int) : List Nat :=
  u64Bytes ((v % (18446744073709551616 : Int)).toNat)

/-- The 64 header bytes written by `writeHeader` (fields at offsets 0, 4, 8,
16, 24, 32; bytes 40-63 stay zero). -/
def headerBytes (h : DataFileHeader) : List Nat :=
  u32Bytes h.magic ++ u32Bytes h.version ++ u64Bytes h.fileSize ++
    u64IntBytes h.liveDataSize ++ u64IntBytes h.documentCount ++
    u64Bytes h.nextSlotOffset ++ List.replicate 24 0

/-- In-memory state of a `StorageEngine`. -/
structure StorageState where
  file : List Nat
  header : DataFileHeader
  freeList : List FreeSlot
  blobFiles : List (String × List Nat)
  refMap : List (Nat × BlobRef)
  blobThreshold : Nat
  batchDepth : Nat
  headerDirty : Bool
  deriving DecidableEq, Repr

/-- `writeHeader`: positional write of the header bytes at offset 0. -/
def writeHeader (s : StorageState) : StorageState :=
  { s with file := writeAt s.file 0 (headerBytes s.header) }

def markMetadataDirty (s : StorageState) : StorageState :=
  { s with headerDirty := true }

def flushMetadata (s : StorageState) : StorageState :=
  if s.headerDirty then { writeHeader s with headerDirty := false } else s

def flushIfNotBatching (s : StorageState) : StorageState :=
  if s.batchDepth = 0 then flushMetadata s else s

/-- `markSlotFree`: read the 16-byte slot header at `offset` (EOF if short),
clear the ACTIVE bit (`flags & ~SlotFlags.ACTIVE`, a 32-bit operation) and
write back the first 4 bytes. -/
def markSlotFree (file : List Nat) (offset : Nat) : Except ReadErr (List Nat) :=
  if file.length < offset + SLOT_HEADER_SIZE then
    .error (.eofWhileReadingSlot offset)
  else
    .ok (writeAt file offset
      (u32Bytes (readU32 (slice file offset SLOT_HEADER_SIZE) 0 &&& 4294967294)))

/-- Errors surfaced by the storage/collection layer. -/
inductive DBErr where
  | duplicateId (id : String)
  | documentNotFound (id : String)
  | readErr (e : ReadErr)
  | blobChecksumMismatch (expected actual : Nat)
  | blobFileMissing (path : String)
  | jsonParseFail
  deriving DecidableEq, Repr

/-- `readBlobReference`: read the reference slot, then `JSON.parse` the
bytes (modelled by the `refMap` ghost map, see above). -/
def readBlobReference (s : StorageState) (offset length : Nat) :
    Except DBErr BlobRef :=
  match readSlot s.file offset length with
  | .error e => .error (.readErr e)
  | .ok _ =>
    match getAssoc s.refMap offset with
    | some ref => .ok ref
    | none => .error .jsonParseFail

/-- `writeBlobFile`: overwrite `blobPath/path` and return the reference. -/
def writeBlobFile (s : StorageState) (path : String) (data : List Nat) :
    StorageState × BlobRef :=
  ({ s with blobFiles := setAssoc s.blobFiles path data },
   { path := path, size := data.length, checksum := crc32 data })

/-- `deleteBlob`: remove the blob file if it exists. -/
def deleteBlob (s : StorageState) (path : String) : StorageState :=
  { s with blobFiles := delAssoc s.blobFiles path }

/-- The `allocateSlot` + `writeSlot`(isBlob=false) + header-advance sequence
shared by `writeUnlocked` and the relocation branches of `updateUnlocked`. -/
def allocWriteInline (s : StorageState) (data : List Nat) :
    StorageState × DocumentLocation :=
  let a := allocateSlot s.freeList s.header.nextSlotOffset data.length
  ({ s with
      freeList := a.2,
      file := writeSlot s.file a.1.offset data a.1.slabSize false,
      header :=
        if a.1.isReused then s.header
        else { s.header with
               nextSlotOffset := a.1.offset + a.1.slabSize,
               fileSize := a.1.offset + a.1.slabSize } },
   ⟨a.1.offset, data.length, a.1.slabSize, false⟩)

/-- `writeBlobReferenceSlot`: allocate, write the reference slot
(isBlob=true), advance the header for fresh allocations, and record the
parse of the written bytes in the ghost `refMap`. -/
def writeBlobReferenceSlot (s : StorageState) (ref : BlobRef) :
    StorageState × DocumentLocation :=
  let refBytes := renderBlobRef ref
  let a := allocateSlot s.freeList s.header.nextSlotOffset refBytes.length
  ({ s with
      freeList := a.2,
      file := writeSlot s.file a.1.offset refBytes a.1.slabSize true,
      refMap := setAssoc s.refMap a.1.offset ref,
      header :=
        if a.1.isReused then s.header
        else { s.header with
               nextSlotOffset := a.1.offset + a.1.slabSize,
               fileSize := a.1.offset + a.1.slabSize } },
   ⟨a.1.offset, refBytes.length, a.1.slabSize, true⟩)

/-- `writeBlobForInsertUnlocked`. -/
def writeBlobForInsertUnlocked (s : StorageState) (id : String)
    (data : List Nat) : StorageState × DocumentLocation :=
  let w := writeBlobFile s (id ++ ".blob") data
  let r := writeBlobReferenceSlot w.1 w.2
  (flushIfNotBatching (markMetadataDirty
    { r.1 with header := { r.1.header with
        documentCount := r.1.header.documentCount + 1,
        liveDataSize := r.1.header.liveDataSize + (w.2.size : Int) } }), r.2)

/-- `writeBlobForUpdateUnlocked` (caller adjusts `liveDataSize`). -/
def writeBlobForUpdateUnlocked (s : StorageState) (id : String)
    (data : List Nat) : StorageState × DocumentLocation :=
  let w := writeBlobFile s (id ++ ".blob") data
  writeBlobReferenceSlot w.1 w.2

/-- `writeUnlocked`: blob path above the threshold, otherwise allocate and
write an inline slot, then bump counters and flush when not batching. -/
def writeUnlocked (s : StorageState) (id : String) (jsonBytes : List Nat) :
    StorageState × DocumentLocation :=
  if jsonBytes.length > s.blobThreshold then
    writeBlobForInsertUnlocked s id jsonBytes
  else
    let r := allocWriteInline s jsonBytes
    (flushIfNotBatching (markMetadataDirty
      { r.1 with header := { r.1.header with
          documentCount := r.1.header.documentCount + 1,
          liveDataSize := r.1.header.liveDataSize + (jsonBytes.length : Int) } }),
     r.2)

/-- `updateBlobReferenceUnlocked`: overwrite the blob file, then rewrite the
reference slot in place if it fits, otherwise free it and relocate.
`markSlotFree` can fail, in which case the blob-file write has already
happened (the thrown exception leaves the partial mutation behind). -/
def updateBlobReferenceUnlocked (s : StorageState) (id : String)
    (data : List Nat) (old : DocumentLocation) :
    StorageState × Except DBErr DocumentLocation :=
  let w := writeBlobFile s (id ++ ".blob") data
  let refBytes := renderBlobRef w.2
  if refBytes.length + SLOT_HEADER_SIZE ≤ old.slabSize then
    ({ w.1 with
        file := writeSlot w.1.file old.offset refBytes old.slabSize true,
        refMap := setAssoc w.1.refMap old.offset w.2 },
     .ok ⟨old.offset, refBytes.length, old.slabSize, true⟩)
  else
    match markSlotFree w.1.file old.offset with
    | .error e => (w.1, .error (.readErr e))
    | .ok f1 =>
      let s1 := { w.1 with
                  file := f1,
                  freeList := w.1.freeList ++ [⟨old.offset, old.slabSize⟩] }
      let r := writeBlobReferenceSlot s1 w.2
      (r.1, .ok r.2)

/-- `updateUnlocked`: dispatch on old-location kind and new-encoding size.
Where `markSlotFree` throws, the state mutated so far is kept and the error
is surfaced (JS exceptions leave partial mutations behind). -/
def updateUnlocked (s : StorageState) (id : String) (jsonBytes : List Nat)
    (old : DocumentLocation) : StorageState × Except DBErr DocumentLocation :=
  if old.isBlob then
    match readBlobReference s old.offset old.length with
    | .error e => (s, .error e)
    | .ok oldRef =>
      if jsonBytes.length > s.blobThreshold then
        -- blob -> blob
        let r := updateBlobReferenceUnlocked s id jsonBytes old
        match r.2 with
        | .error e => (r.1, .error e)
        | .ok newLoc =>
          (flushIfNotBatching (markMetadataDirty
            { r.1 with header := { r.1.header with
                liveDataSize := r.1.header.liveDataSize +
                  (jsonBytes.length : Int) - (oldRef.size : Int) } }),
           .ok newLoc)
      else
        -- blob -> inline
        let s0 := deleteBlob s oldRef.path
        match markSlotFree s0.file old.offset with
        | .error e => (s0, .error (.readErr e))
        | .ok f1 =>
          let s1 := { s0 with
                      file := f1,
                      freeList := s0.freeList ++ [⟨old.offset, old.slabSize⟩] }
          let r := allocWriteInline s1 jsonBytes
          (flushIfNotBatching (markMetadataDirty
            { r.1 with header := { r.1.header with
                liveDataSize := r.1.header.liveDataSize +
                  (jsonBytes.length : Int) - (oldRef.size : Int) } }),
           .ok r.2)
  else
    if jsonBytes.length > s.blobThreshold then
      -- inline -> blob
      match markSlotFree s.file old.offset with
      | .error e => (s, .error (.readErr e))
      | .ok f1 =>
        let s1 := { s with
                    file := f1,
                    freeList := s.freeList ++ [⟨old.offset, old.slabSize⟩] }
        let r := writeBlobForUpdateUnlocked s1 id jsonBytes
        (flushIfNotBatching (markMetadataDirty
          { r.1 with header := { r.1.header with
              liveDataSize := r.1.header.liveDataSize +
                (jsonBytes.length : Int) - (old.length : Int) } }),
         .ok r.2)
    else if jsonBytes.length + SLOT_HEADER_SIZE ≤ old.slabSize then
      -- inline -> inline, fits: in-place rewrite
      (flushIfNotBatching (markMetadataDirty
        { s with
            file := writeSlot s.file old.offset jsonBytes old.slabSize false,
            header := { s.header with
              liveDataSize := s.header.liveDataSize +
                (jsonBytes.length : Int) - (old.length : Int) } }),
       .ok ⟨old.offset, jsonBytes.length, old.slabSize, false⟩)
    else
      -- inline -> inline, does not fit: relocate
      match markSlotFree s.file old.offset with
      | .error e => (s, .error (.readErr e))
      | .ok f1 =>
        let s1 := { s with
                    file := f1,
                    freeList := s.freeList ++ [⟨old.offset, old.slabSize⟩] }
        let r := allocWriteInline s1 jsonBytes
        (flushIfNotBatching (markMetadataDirty
          { r.1 with header := { r.1.header with
              liveDataSize := r.1.header.liveDataSize +
                (jsonBytes.length : Int) - (old.length : Int) } }),
         .ok r.2)

/-- Tail of `deleteUnlocked` after the `liveDataSize` adjustment: clear the
ACTIVE bit, add the slot to the free list, decrement the document count. -/
def finishDelete (s : StorageState) (loc : DocumentLocation) :
    StorageState × Option DBErr :=
  match markSlotFree s.file loc.offset with
  | .error e => (s, some (.readErr e))
  | .ok f1 =>
    (flushIfNotBatching (markMetadataDirty
      { s with
          file := f1,
          freeList := s.freeList ++ [⟨loc.offset, loc.slabSize⟩],
          header := { s.header with
            documentCount := s.header.documentCount - 1 } }), none)

/-- `deleteUnlocked`. -/
def deleteUnlocked (s : StorageState) (loc : DocumentLocation) :
    StorageState × Option DBErr :=
  if loc.isBlob then
    match readBlobReference s loc.offset loc.length with
    | .error e => (s, some e)
    | .ok ref =>
      finishDelete
        { deleteBlob s ref.path with
            header := { s.header with
              liveDataSize := s.header.liveDataSize - (ref.size : Int) } } loc
  else
    finishDelete
      { s with header := { s.header with
          liveDataSize := s.header.liveDataSize - (loc.length : Int) } } loc

/-- The slot buffers, locations and totals accumulated by the `writeMany`
fast-path loop, starting at offset `next`. -/
structure WMB where
  bufs : List (List Nat)
  locs : List DocumentLocation
  totalBytes : Nat
  totalLive : Nat

def writeManyBuild (next : Nat) : List (String × List Nat) → WMB
  | [] => ⟨[], [], 0, 0⟩
  | item :: rest =>
    let slab := selectSlabSize item.2.length
    let r := writeManyBuild (next + slab) rest
    ⟨slotBuffer item.2 slab false :: r.bufs,
     ⟨next, item.2.length, slab, false⟩ :: r.locs,
     slab + r.totalBytes, item.2.length + r.totalLive⟩

/-- The `writeMany` fallback loop: one `writeUnlocked` per item. -/
def writeManyFallback (s : StorageState) :
    List (String × List Nat) → StorageState × List DocumentLocation
  | [] => (s, [])
  | item :: rest =>
    let r := writeUnlocked s item.1 item.2
    let r2 := writeManyFallback r.1 rest
    (r2.1, r.2 :: r2.2)

/-- `writeMany`: if any document exceeds the blob threshold, fall back to
per-item `writeUnlocked` inside a batch scope; otherwise build all slot
buffers and append them in one contiguous positional write. -/
def writeMany (s : StorageState) (items : List (String × List Nat)) :
    StorageState × List DocumentLocation :=
  if items.isEmpty then (s, [])
  else if items.any (fun it => it.2.length > s.blobThreshold) then
    let r := writeManyFallback
      { s with batchDepth := s.batchDepth + 1 } items
    let s1 : StorageState := { r.1 with batchDepth := r.1.batchDepth - 1 }
    (if s1.batchDepth = 0 then flushMetadata s1 else s1, r.2)
  else
    let start := s.header.nextSlotOffset
    let b := writeManyBuild start items
    (flushIfNotBatching (markMetadataDirty
      { s with
          file := writeAt s.file start b.bufs.flatten,
          header := { s.header with
            nextSlotOffset := start + b.totalBytes,
            fileSize := start + b.totalBytes,
            documentCount := s.header.documentCount + items.length,
            liveDataSize := s.header.liveDataSize + (b.totalLive : Int) } }),
     b.locs)

/-- The fresh header of `createNewFile`/`reset`. -/
def initialHeader : DataFileHeader :=
  ⟨DATA_FILE_MAGIC, FORMAT_VERSION, DATA_HEADER_SIZE, 0, 0, DATA_HEADER_SIZE⟩

/-- `StorageEngine.reset`: truncate to zero, reinstall a fresh header,
clear the free list (blob files are the caller's concern). -/
def storageReset (s : StorageState) : StorageState :=
  { s with
      file := writeAt [] 0 (headerBytes initialHeader),
      header := initialHeader,
      freeList := [],
      headerDirty := false }

/-- Per-entry accumulation of `compact`'s rebuild loop, starting at
`newOffset`: slot buffers, new locations, total slab bytes, live-data total
and the rebuilt `refMap` entries for blob-reference slots. -/
structure CompactBuild where
  bufs : List (List Nat)
  locs : List (String × DocumentLocation)
  totalBytes : Nat
  totalLive : Nat
  refs : List (Nat × BlobRef)

def compactBuild (st : StorageState) (newOffset : Nat) :
    List (String × DocumentLocation) → Except DBErr CompactBuild
  | [] => .ok ⟨[], [], 0, 0, []⟩
  | entry :: rest =>
    match readSlot st.file entry.2.offset entry.2.length with
    | .error e => .error (.readErr e)
    | .ok data =>
      let newSlab := selectSlabSize data.length
      match
        (if entry.2.isBlob then
          match getAssoc st.refMap entry.2.offset with
          | some ref => .ok (ref.size, [(newOffset, ref)])
          | none => .error DBErr.jsonParseFail
        else
          .ok (data.length, []) :
            Except DBErr (Nat × List (Nat × BlobRef))) with
      | .error e => .error e
      | .ok lv =>
        match compactBuild st (newOffset + newSlab) rest with
        | .error e => .error e
        | .ok r =>
          .ok ⟨slotBuffer data newSlab entry.2.isBlob :: r.bufs,
               (entry.1, ⟨newOffset, data.length, newSlab, entry.2.isBlob⟩) :: r.locs,
               newSlab + r.totalBytes, lv.1 + r.totalLive, lv.2 ++ r.refs⟩

/-- `StorageEngine.compact`: rebuild a packed file (header + one slot per
live document in index order), swap it in, reset header and free list.
Returns the new state, `bytesFreed` and the new locations.  A read failure
aborts before any mutation. -/
def compactS (st : StorageState) (index : List (String × DocumentLocation)) :
    Except DBErr (StorageState × Int × List (String × DocumentLocation)) :=
  match compactBuild st DATA_HEADER_SIZE index with
  | .error e => .error e
  | .ok b =>
    let newOffset := DATA_HEADER_SIZE + b.totalBytes
    let hdr : DataFileHeader :=
      ⟨DATA_FILE_MAGIC, FORMAT_VERSION, newOffset, (b.totalLive : Int),
       (index.length : Int), newOffset⟩
    .ok ({ st with
            file := headerBytes hdr ++ b.bufs.flatten,
            header := hdr,
            freeList := [],
            refMap := b.refs },
         (st.header.fileSize : Int) - (newOffset : Int), b.locs)

/-! ## Index manager (`src/unnamed/part_003`, class `IndexManager`)

`primaryIndex : Map<id, DocumentLocation>`, `secondaryIndexes :
Map<fieldPath, Map<serializedValue, Set<id>>>`.  JS `Set`s of ids are lists
in insertion order without duplicates. -/

/-- `getNestedValue` (`src/utils.ts`): walk a dot-separated path.  Array
elements are reachable through their canonical decimal index; other array
properties (such as `length`) and prototype-inherited properties are out of
scope of the model and read as `undefined`. -/
def walkPath : JSVal → List String → JSVal
  | cur, [] => cur
  | cur, p :: rest =>
    match cur with
    | .nullV => .undefinedV
    | .undefinedV => .undefinedV
    | .objV kvs => walkPath ((lookupKV kvs p).getD .undefinedV) rest
    | .arrV xs =>
      walkPath
        (match (List.range xs.length).find? (fun i => natStr i = p) with
         | some i => xs.getD i .undefinedV
         | none => .undefinedV) rest
    | _ => .undefinedV

def getNestedValue (d : JSVal) (path : String) : JSVal :=
  walkPath d (path.splitOn ".")

/-- `matchesFilter`: every filter entry must `deepEqual` the document value
at its path. -/
def matchesFilter (doc : JSVal) (filter : List (String × JSVal)) : Bool :=
  filter.all (fun kv => deepEqual (getNestedValue doc kv.1) kv.2)

/-- `Set.add`: append if absent (keeps the original position otherwise). -/
def addIdSet (ids : List String) (id : String) : List String :=
  if ids.contains id then ids else ids ++ [id]

/-- Add `id` under serialized value `ser` in one field's value map. -/
def secFieldAdd (vm : List (String × List String)) (ser id : String) :
    List (String × List String) :=
  match getAssoc vm ser with
  | some ids => setAssoc vm ser (addIdSet ids id)
  | none => vm ++ [(ser, [id])]

/-- Remove `id` under serialized value `ser`; drop the posting list when it
becomes empty. -/
def secFieldRemove (vm : List (String × List String)) (ser id : String) :
    List (String × List String) :=
  match getAssoc vm ser with
  | some ids =>
    if (ids.filter (fun x => x ≠ id)).isEmpty then delAssoc vm ser
    else setAssoc vm ser (ids.filter (fun x => x ≠ id))
  | none => vm

structure IndexManagerState where
  primaryIndex : List (String × DocumentLocation)
  secondaryIndexes : List (String × List (String × List String))
  deriving DecidableEq, Repr

/-- `IndexManager.addDocument`. -/
def addDocument (im : IndexManagerState) (id : String)
    (loc : DocumentLocation) (d : JSVal) : IndexManagerState :=
  { primaryIndex := setAssoc im.primaryIndex id loc,
    secondaryIndexes := im.secondaryIndexes.map (fun fi =>
      let value := getNestedValue d fi.1
      if jsTypeof value = "undefined" then fi
      else (fi.1, secFieldAdd fi.2 (serializeIndexValue value) id)) }

/-- `IndexManager.updateDocument` (old data always supplied by callers). -/
def updateDocument (im : IndexManagerState) (id : String)
    (loc : DocumentLocation) (newData oldData : JSVal) : IndexManagerState :=
  { primaryIndex := setAssoc im.primaryIndex id loc,
    secondaryIndexes := im.secondaryIndexes.map (fun fi =>
      let vm1 :=
        (let oldValue := getNestedValue oldData fi.1
         if jsTypeof oldValue = "undefined" then fi.2
         else secFieldRemove fi.2 (serializeIndexValue oldValue) id)
      let newValue := getNestedValue newData fi.1
      if jsTypeof newValue = "undefined" then (fi.1, vm1)
      else (fi.1, secFieldAdd vm1 (serializeIndexValue newValue) id)) }

/-- `IndexManager.updateLocation` (after compaction). -/
def updateLocation (im : IndexManagerState) (id : String)
    (loc : DocumentLocation) : IndexManagerState :=
  { im with primaryIndex := setAssoc im.primaryIndex id loc }

/-- `IndexManager.removeDocument` (data always supplied by callers). -/
def removeDocument (im : IndexManagerState) (id : String) (d : JSVal) :
    IndexManagerState :=
  { primaryIndex := delAssoc im.primaryIndex id,
    secondaryIndexes := im.secondaryIndexes.map (fun fi =>
      let value := getNestedValue d fi.1
      if jsTypeof value = "undefined" then fi
      else (fi.1, secFieldRemove fi.2 (serializeIndexValue value) id)) }

/-! ### Query models with read counting (claim C7)

`queryIds` and `count` take a `reader` callback (the collection passes
`readWithCache`, which goes to `storage.read` on every call when the LRU
cache is disabled, the default).  The models below return the result
together with the number of `reader` invocations, i.e. the number of
document reads. -/

/-- The index-probing loop over the filter entries: returns `none` on the
early `return []` (an indexed field whose value has no posting list),
otherwise the candidate set (or `none` for "not constrained yet") and the
`fullyCoveredByIndexes` flag. -/
def coveredLoop (sec : List (String × List (String × List String))) :
    List (String × JSVal) → Option (List String) → Bool →
      Option (Option (List String) × Bool)
  | [], cand, covered => some (cand, covered)
  | kv :: rest, cand, covered =>
    match getAssoc sec kv.1 with
    | some fieldIndex =>
      match getAssoc fieldIndex (serializeIndexValue kv.2) with
      | some matching =>
        coveredLoop sec rest
          (match cand with
           | none => some matching
           | some c => some (c.filter (fun id => matching.contains id)))
          covered
      | none => none
    | none => coveredLoop sec rest cand false

/-- The fetch-and-filter scan of `queryIds`: one document read per
candidate id present in the primary index. -/
def scanIdsAux (im : IndexManagerState) (filter : List (String × JSVal))
    (reader : String → DocumentLocation → JSVal) :
    List String → List String × Nat
  | [] => ([], 0)
  | id :: rest =>
    match getAssoc im.primaryIndex id with
    | none => scanIdsAux im filter reader rest
    | some loc =>
      let r := scanIdsAux im filter reader rest
      (if matchesFilter (reader id loc) filter then id :: r.1 else r.1,
       r.2 + 1)

/-- `IndexManager.queryIds`, instrumented with the document-read count. -/
def queryIdsCounted (im : IndexManagerState)
    (filter : List (String × JSVal))
    (reader : String → DocumentLocation → JSVal) : List String × Nat :=
  match coveredLoop im.secondaryIndexes filter none true with
  | none => ([], 0)
  | some (some c, true) => (c, 0)
  | some (some c, false) => scanIdsAux im filter reader c
  | some (none, _) => scanIdsAux im filter reader (im.primaryIndex.map Prod.fst)

/-- The counting scan of `IndexManager.count`. -/
def countScanAux (im : IndexManagerState) (filter : List (String × JSVal))
    (reader : String → DocumentLocation → JSVal) : List String → Nat × Nat
  | [] => (0, 0)
  | id :: rest =>
    match getAssoc im.primaryIndex id with
    | none => countScanAux im filter reader rest
    | some loc =>
      let r := countScanAux im filter reader rest
      ((if matchesFilter (reader id loc) filter then 1 else 0) + r.1, r.2 + 1)

/-- `IndexManager.count`, instrumented with the document-read count. -/
def countCounted (im : IndexManagerState) (filter : List (String × JSVal))
    (reader : String → DocumentLocation → JSVal) : Nat × Nat :=
  match coveredLoop im.secondaryIndexes filter none true with
  | none => (0, 0)
  | some (some c, true) => (c.length, 0)
  | some (some c, false) => countScanAux im filter reader c
  | some (none, _) => countScanAux im filter reader (im.primaryIndex.map Prod.fst)

/-- `Collection.count`: empty filters short-circuit to the index size,
others delegate to `IndexManager.count`. -/
def collCountReads (im : IndexManagerState) (filter : List (String × JSVal))
    (reader : String → DocumentLocation → JSVal) : Nat × Nat :=
  if filter.isEmpty then (im.primaryIndex.length, 0)
  else countCounted im filter reader

/-- `Collection.findIds` delegates directly to `IndexManager.queryIds`. -/
def collFindIdsReads (im : IndexManagerState)
    (filter : List (String × JSVal))
    (reader : String → DocumentLocation → JSVal) : List String × Nat :=
  queryIdsCounted im filter reader

/-! ## Collection (`src/collection.ts`)

`parseMap` is the ghost model of `JSON.parse` on document bytes: it is the
(partial) graph of the parse function, keyed by the byte string, extended
whenever the collection serializes a document — recording that
`JSON.parse(JSON.stringify(d))` is `d` (stable JSON round-trip, spec
assumption P1).  `cache` is the LRU map (`null` in JS when `cacheSize = 0`,
modelled as the empty list that `cacheSet` leaves untouched). -/

structure CollState where
  storage : StorageState
  im : IndexManagerState
  cache : List (String × JSVal)
  cacheSize : Nat
  parseMap : List (List Nat × JSVal)

/-- `JSON.parse` of document bytes (ghost graph lookup). -/
def parseDoc (pm : List (List Nat × JSVal)) (bytes : List Nat) :
    Option JSVal :=
  getAssoc pm bytes

/-- `StorageEngine.read`: blob locations go through the reference slot, the
blob file and its checksum; inline locations through `readSlot` + parse. -/
def storageRead (s : StorageState) (pm : List (List Nat × JSVal))
    (loc : DocumentLocation) : Except DBErr JSVal :=
  if loc.isBlob then
    match readBlobReference s loc.offset loc.length with
    | .error e => .error e
    | .ok ref =>
      match getAssoc s.blobFiles ref.path with
      | none => .error (.blobFileMissing ref.path)
      | some bb =>
        if crc32 bb ≠ ref.checksum then
          .error (.blobChecksumMismatch ref.checksum (crc32 bb))
        else
          match parseDoc pm bb with
          | some d => .ok d
          | none => .error .jsonParseFail
  else
    match readSlot s.file loc.offset loc.length with
    | .error e => .error (.readErr e)
    | .ok bytes =>
      match parseDoc pm bytes with
      | some d => .ok d
      | none => .error .jsonParseFail

/-- `cacheSet`: delete + append (move to most-recent), then evict the
oldest entry if over capacity.  No-op when the cache is disabled. -/
def cacheSet (cacheSize : Nat) (cache : List (String × JSVal))
    (id : String) (d : JSVal) : List (String × JSVal) :=
  if cacheSize = 0 then cache
  else
    if cacheSize < (delAssoc cache id ++ [(id, d)]).length then
      (delAssoc cache id ++ [(id, d)]).drop 1
    else delAssoc cache id ++ [(id, d)]

/-- `cacheGet`: on a hit the entry moves to most-recent position. -/
def cacheGetR (cache : List (String × JSVal)) (id : String) :
    Option JSVal × List (String × JSVal) :=
  match getAssoc cache id with
  | none => (none, cache)
  | some v => (some v, delAssoc cache id ++ [(id, v)])

def cacheDelete (cache : List (String × JSVal)) (id : String) :
    List (String × JSVal) :=
  delAssoc cache id

/-- Record the `JSON.parse` graph entry for a document about to be
serialized and stored. -/
def recordParse (c : CollState) (d : JSVal) : CollState :=
  { c with parseMap := setAssoc c.parseMap (encodeDoc d) d }

/-- The body of `Collection.insert` after the duplicate check (also the
else-branch of `upsert`, which is the same code without the check). -/
def insertBody (c : CollState) (id : String) (d : JSVal) : CollState :=
  let c0 := recordParse c d
  let r := writeUnlocked c0.storage id (encodeDoc d)
  { c0 with
      storage := r.1,
      im := addDocument c0.im id r.2 d,
      cache := cacheSet c0.cacheSize c0.cache id d }

/-- `Collection.insert`. -/
def collInsert (c : CollState) (id : String) (d : JSVal) :
    CollState × Option DBErr :=
  if (getAssoc c.im.primaryIndex id).isSome then (c, some (.duplicateId id))
  else (insertBody c id d, none)

/-- The shared update body: read the old document (for secondary-index
maintenance), update storage, update index and cache.  Errors keep the
partial storage mutation, as thrown exceptions do. -/
def updateBody (c : CollState) (id : String) (d : JSVal)
    (oldLoc : DocumentLocation) : CollState × Option DBErr :=
  match storageRead c.storage c.parseMap oldLoc with
  | .error e => (c, some e)
  | .ok oldData =>
    let c0 := recordParse c d
    let r := updateUnlocked c0.storage id (encodeDoc d) oldLoc
    match r.2 with
    | .error e => ({ c0 with storage := r.1 }, some e)
    | .ok newLoc =>
      ({ c0 with
          storage := r.1,
          im := updateDocument c0.im id newLoc d oldData,
          cache := cacheSet c0.cacheSize c0.cache id d }, none)

/-- `Collection.update`. -/
def collUpdate (c : CollState) (id : String) (d : JSVal) :
    CollState × Option DBErr :=
  match getAssoc c.im.primaryIndex id with
  | none => (c, some (.documentNotFound id))
  | some oldLoc => updateBody c id d oldLoc

/-- `Collection.upsert`. -/
def collUpsert (c : CollState) (id : String) (d : JSVal) :
    CollState × Option DBErr :=
  match getAssoc c.im.primaryIndex id with
  | some oldLoc => updateBody c id d oldLoc
  | none => (insertBody c id d, none)

/-- `Collection.delete`: `false` for a missing id, otherwise read the data
for index cleanup, free the slot, update index and cache. -/
def collDelete (c : CollState) (id : String) : CollState × Except DBErr Bool :=
  match getAssoc c.im.primaryIndex id with
  | none => (c, .ok false)
  | some loc =>
    match storageRead c.storage c.parseMap loc with
    | .error e => (c, .error e)
    | .ok data =>
      match deleteUnlocked c.storage loc with
      | (s1, some e) => ({ c with storage := s1 }, .error e)
      | (s1, none) =>
        ({ c with
            storage := s1,
            im := removeDocument c.im id data,
            cache := cacheDelete c.cache id }, .ok true)

/-- `Collection.get`: cache hit (refreshing recency), else primary-index
lookup and storage read, caching the result. -/
def collGet (c : CollState) (id : String) :
    CollState × Except DBErr (Option JSVal) :=
  match cacheGetR c.cache id with
  | (some v, cache1) => ({ c with cache := cache1 }, .ok (some v))
  | (none, _) =>
    match getAssoc c.im.primaryIndex id with
    | none => (c, .ok none)
    | some loc =>
      match storageRead c.storage c.parseMap loc with
      | .error e => (c, .error e)
      | .ok doc =>
        ({ c with cache := cacheSet c.cacheSize c.cache id doc },
         .ok (some doc))

/-- `Collection.insertMany`: duplicate check against the existing index,
then `writeMany` and per-item index/cache updates. -/
def collInsertMany (c : CollState) (items : List (String × JSVal)) :
    CollState × Option DBErr :=
  if items.isEmpty then (c, none)
  else
    match items.find? (fun it => (getAssoc c.im.primaryIndex it.1).isSome) with
    | some it => (c, some (.duplicateId it.1))
    | none =>
      let c0 := items.foldl (fun acc it => recordParse acc it.2) c
      let r := writeMany c0.storage (items.map (fun it => (it.1, encodeDoc it.2)))
      ((items.zip r.2).foldl
        (fun acc p =>
          { acc with
              im := addDocument acc.im p.1.1 p.2 p.1.2,
              cache := cacheSet acc.cacheSize acc.cache p.1.1 p.1.2 })
        { c0 with storage := r.1 }, none)

/-- The mutation kinds available inside `Collection.batch`. -/
inductive BatchOp where
  | insertB (id : String) (d : JSVal)
  | updateB (id : String) (d : JSVal)
  | upsertB (id : String) (d : JSVal)
  | deleteB (id : String)

/-- One batched mutation (the closure bodies in `Collection.batch` are the
same code as the public methods; `flushIfNotBatching` is a no-op while the
batch depth is raised). -/
def applyBatchOp (c : CollState) : BatchOp → CollState × Option DBErr
  | .insertB id d => collInsert c id d
  | .updateB id d => collUpdate c id d
  | .upsertB id d => collUpsert c id d
  | .deleteB id =>
    match collDelete c id with
    | (c1, .ok _) => (c1, none)
    | (c1, .error e) => (c1, some e)

/-- Run batched mutations in order; the first error aborts the rest (the
exception propagates out of the callback). -/
def batchRun (c : CollState) : List BatchOp → CollState × Option DBErr
  | [] => (c, none)
  | op :: rest =>
    match applyBatchOp c op with
    | (c1, none) => batchRun c1 rest
    | (c1, some e) => (c1, some e)

/-- `Collection.batch` via `StorageEngine.batch`: raise the batch depth,
run the callback, lower it and flush once at depth zero (also on error). -/
def collBatch (c : CollState) (ops : List BatchOp) :
    CollState × Option DBErr :=
  let r := batchRun
    { c with storage := { c.storage with batchDepth := c.storage.batchDepth + 1 } }
    ops
  let s1 : StorageState :=
    { r.1.storage with batchDepth := r.1.storage.batchDepth - 1 }
  ({ r.1 with storage := if s1.batchDepth = 0 then flushMetadata s1 else s1 },
   r.2)

/-- `Collection.reset`: delete this collection's blob files, reset storage,
clear the index and the cache. -/
def collReset (c : CollState) : CollState :=
  { c with
      storage := storageReset { c.storage with blobFiles := [] },
      im := ⟨[], []⟩,
      cache := [] }

/-- `Collection.compact`: run storage compaction over the primary index and
install the new locations. -/
def collCompact (c : CollState) : Except DBErr (CollState × Int) :=
  match compactS c.storage c.im.primaryIndex with
  | .error e => .error e
  | .ok r =>
    .ok ({ c with
            storage := r.1,
            im := r.2.2.foldl (fun im e => updateLocation im e.1 e.2) c.im },
         r.2.1)

/-- Public collection operations: the reachable collection states are the
results of sequences of these, starting from a fresh collection. -/
inductive COp where
  | insertOp (id : String) (d : JSVal)
  | updateOp (id : String) (d : JSVal)
  | upsertOp (id : String) (d : JSVal)
  | deleteOp (id : String)
  | getOp (id : String)
  | insertManyOp (items : List (String × JSVal))
  | batchOp (ops : List BatchOp)
  | resetOp
  | compactOp

/-- Apply one public operation; a thrown error leaves the (possibly
partially mutated) state behind, and the application continues. -/
def applyCOp (c : CollState) : COp → CollState
  | .insertOp id d => (collInsert c id d).1
  | .updateOp id d => (collUpdate c id d).1
  | .upsertOp id d => (collUpsert c id d).1
  | .deleteOp id => (collDelete c id).1
  | .getOp id => (collGet c id).1
  | .insertManyOp items => (collInsertMany c items).1
  | .batchOp ops => (collBatch c ops).1
  | .resetOp => collReset c
  | .compactOp =>
    match collCompact c with
    | .ok r => r.1
    | .error _ => c

def applyOps (c : CollState) (l : List COp) : CollState :=
  l.foldl applyCOp c

/-- A freshly initialized collection (`createNewFile` wrote the header). -/
def initialColl (blobThreshold cacheSize : Nat) : CollState :=
  { storage :=
      { file := writeAt [] 0 (headerBytes initialHeader),
        header := initialHeader,
        freeList := [],
        blobFiles := [],
        refMap := [],
        blobThreshold := blobThreshold,
        batchDepth := 0,
        headerDirty := false },
    im := ⟨[], []⟩,
    cache := [],
    cacheSize := cacheSize,
    parseMap := [] }

/-! ## Header monotonicity (claim C9)

`fileSize` is only ever assigned the (new) `nextSlotOffset`, and
`nextSlotOffset` only ever advances, so along the write path both are
non-decreasing.  `SubInv` is the header sub-invariant `fileSize =
nextSlotOffset` that makes the `fileSize` assignments non-shrinking. -/

def SubInv (s : StorageState) : Prop :=
  s.header.fileSize = s.header.nextSlotOffset

/-- One storage transition preserves `SubInv` and never shrinks `fileSize`
or `nextSlotOffset`. -/
def MonoStep (s t : StorageState) : Prop :=
  SubInv s →
    SubInv t ∧ s.header.fileSize ≤ t.header.fileSize ∧
      s.header.nextSlotOffset ≤ t.header.nextSlotOffset

/-- The write-path operations of claim C9: insert, update, delete, batch
and `insertMany` (`writeMany`); no compact or reset. -/
def WritePathOp : COp → Prop
  | .insertOp _ _ => True
  | .updateOp _ _ => True
  | .deleteOp _ => True
  | .insertManyOp _ => True
  | .batchOp _ => True
  | _ => False

/-! ## The slot-tiling invariant (claim C4)

`Tiling s slabs` says the data file is the 64-byte header region followed
by the slot records `slabs` laid end to end, with `nextSlotOffset` at the
end of the last slab and `fileSize = nextSlotOffset`.  `GoodSlab` records
that a slab is at least a slot header long and advertises its own size in
the `slabSize` field (mod `2^32`, the width of the field). -/

def slabLens (slabs : List (List Nat)) : List Nat := slabs.map List.length

def boundaryAt (slabs : List (List Nat)) (i : Nat) : Nat :=
  DATA_HEADER_SIZE + ((slabLens slabs).take i).sum

def GoodSlab (b : List Nat) : Prop :=
  SLOT_HEADER_SIZE ≤ b.length ∧ readU32 b 8 = b.length % 4294967296

def ValidBoundary (slabs : List (List Nat)) (off sz : Nat) : Prop :=
  ∃ i, ∃ hi : i < slabs.length, off = boundaryAt slabs i ∧
    (slabs.get ⟨i, hi⟩).length = sz

def Tiling (s : StorageState) (slabs : List (List Nat)) : Prop :=
  (∃ h, s.file = h ++ slabs.flatten ∧ h.length = DATA_HEADER_SIZE) ∧
  (∀ b ∈ slabs, GoodSlab b) ∧
  s.header.nextSlotOffset = DATA_HEADER_SIZE + (slabLens slabs).sum ∧
  s.header.fileSize = s.header.nextSlotOffset

def FreeOK (s : StorageState) (slabs : List (List Nat)) : Prop :=
  ∀ fs ∈ s.freeList, ValidBoundary slabs fs.offset fs.slabSize

/-! ### Bundled tiling steps -/

/-- `TileStep slabs t slabs'`: the state `t` is tiled by `slabs'`, its free
list is boundary-valid, and every boundary of the original tiling `slabs`
is still a boundary of `slabs'`. -/
def TileStep (slabs : List (List Nat)) (t : StorageState)
    (slabs' : List (List Nat)) : Prop :=
  Tiling t slabs' ∧ FreeOK t slabs' ∧
  ∀ off sz, ValidBoundary slabs off sz → ValidBoundary slabs' off sz

/-- A document location sits at a valid slab boundary and its payload
(plus slot header) fits in the slab. -/
def LocOK (slabs : List (List Nat)) (loc : DocumentLocation) : Prop :=
  ValidBoundary slabs loc.offset loc.slabSize ∧
  loc.length + SLOT_HEADER_SIZE ≤ loc.slabSize

/-! ### The collection-level tiling invariant -/

/-- Every primary-index location is a valid, fitting slot of `slabs`. -/
def PrimOK (slabs : List (List Nat))
    (prim : List (String × DocumentLocation)) : Prop :=
  ∀ p ∈ prim, LocOK slabs p.2

/-- Claim C4's invariant: the data file is tiled by slot records, the free
list and every primary-index location sit at slab boundaries. -/
def StInv (c : CollState) : Prop :=
  ∃ slabs, Tiling c.storage slabs ∧ FreeOK c.storage slabs ∧
    PrimOK slabs c.im.primaryIndex

/-! ### Error classification: the upsert path never reports
`DuplicateId` or `DocumentNotFound` -/

/-- The I/O-side errors: everything except the two index-lookup errors. -/
def IsIoErr : DBErr → Prop
  | .duplicateId _ => False
  | .documentNotFound _ => False
  | _ => True

/-! ## Theorems -/

@[simp] theorem u32Bytes_length (v : Nat) : (u32Bytes v).length = 4 := rfl

@[simp] theorem u64Bytes_length (v : Nat) : (u64Bytes v).length = 8 := rfl

theorem u32Bytes_mem_lt {v x : Nat} (h : x ∈ u32Bytes v) : x < 256 := by
  simp only [u32Bytes, List.mem_cons, List.not_mem_nil, or_false] at h
  rcases h with h | h | h | h <;> subst h <;> exact Nat.mod_lt _ (by norm_num)

theorem u64Bytes_mem_lt {v x : Nat} (h : x ∈ u64Bytes v) : x < 256 := by
  simp only [u64Bytes, List.mem_cons, List.not_mem_nil, or_false] at h
  rcases h with h | h | h | h | h | h | h | h <;> subst h <;>
    exact Nat.mod_lt _ (by norm_num)

theorem readU32_u32Bytes (v : Nat) (rest : List Nat) :
    readU32 (u32Bytes v ++ rest) 0 = v % 4294967296 := by
  have hr : readU32 (u32Bytes v ++ rest) 0 =
      v % 256 + 256 * (v / 256 % 256) + 65536 * (v / 65536 % 256) +
        16777216 * (v / 16777216 % 256) := rfl
  rw [hr]
  have h1 : v % 65536 = v % 256 + 256 * (v / 256 % 256) := by
    have := @Nat.mod_mul 256 256 v; norm_num at this; exact this
  have h2 : v % 16777216 = v % 65536 + 65536 * (v / 65536 % 256) := by
    have := @Nat.mod_mul 65536 256 v; norm_num at this; exact this
  have h3 : v % 4294967296 = v % 16777216 + 16777216 * (v / 16777216 % 256) := by
    have := @Nat.mod_mul 16777216 256 v; norm_num at this; exact this
  omega

theorem readU32_lt (l : List Nat) (off : Nat) (h : ∀ x ∈ l, x < 256) :
    readU32 l off < 4294967296 := by
  have g : ∀ i, l.getD i 0 < 256 := by
    intro i
    rcases Nat.lt_or_ge i l.length with hi | hi
    · rw [List.getD_eq_getElem?_getD, List.getElem?_eq_getElem hi]
      exact h _ (List.getElem_mem hi)
    · simp [List.getD_eq_getElem?_getD, List.getElem?_eq_none hi]
  have g0 := g off; have g1 := g (off + 1); have g2 := g (off + 2); have g3 := g (off + 3)
  simp only [readU32]; omega

theorem writeAt_of_le {f : List Nat} {off : Nat} (d : List Nat)
    (h : off + d.length ≤ f.length) :
    writeAt f off d = f.take off ++ d ++ f.drop (off + d.length) := by
  simp [writeAt, Nat.sub_eq_zero_of_le h]

theorem writeAt_append (f d : List Nat) : writeAt f f.length d = f ++ d := by
  simp [writeAt, List.take_append_eq_append_take, List.drop_append_eq_append_drop,
    List.drop_replicate]

theorem length_writeAt_of_le {f : List Nat} {off : Nat} {d : List Nat}
    (h : off + d.length ≤ f.length) :
    (writeAt f off d).length = f.length := by
  rw [writeAt_of_le d h]
  simp only [List.length_append, List.length_take, List.length_drop]
  omega

theorem writeAt_inside {X Y Z d : List Nat} {δ : Nat}
    (h : δ + d.length ≤ Y.length) :
    writeAt (X ++ Y ++ Z) (X.length + δ) d = X ++ writeAt Y δ d ++ Z := by
  have hle : X.length + δ + d.length ≤ (X ++ Y ++ Z).length := by
    simp only [List.length_append]; omega
  rw [writeAt_of_le d hle, writeAt_of_le d h]
  rw [List.append_assoc X Y Z, List.take_append δ,
    show X.length + δ + d.length = X.length + (δ + d.length) by omega,
    List.drop_append (δ + d.length),
    List.take_append_of_le_length (by omega : δ ≤ Y.length),
    List.drop_append_of_le_length h]
  simp [List.append_assoc]

theorem mem_writeAt {f : List Nat} {off : Nat} {d : List Nat} {x : Nat}
    (hx : x ∈ writeAt f off d) : x ∈ f ∨ x ∈ d ∨ x = 0 := by
  simp only [writeAt, List.mem_append] at hx
  rcases hx with (h | h) | h
  · rcases List.mem_append.1 (List.mem_of_mem_take h) with h' | h'
    · exact Or.inl h'
    · exact Or.inr (Or.inr (List.eq_of_mem_replicate h'))
  · exact Or.inr (Or.inl h)
  · rcases List.mem_append.1 (List.mem_of_mem_drop h) with h' | h'
    · exact Or.inl h'
    · exact Or.inr (Or.inr (List.eq_of_mem_replicate h'))

set_option maxRecDepth 2048 in
theorem crcTableEntry_lt : ∀ i, i < 256 → crcTableEntry i < 4294967296 := by decide

set_option maxRecDepth 8192 in
theorem crcTop_nodup :
    ((List.range 256).map (fun i => crcTableEntry i >>> 24)).Nodup := by decide

theorem crcTableEntry_top_inj {i j : Nat} (hi : i < 256) (hj : j < 256)
    (h : crcTableEntry i >>> 24 = crcTableEntry j >>> 24) : i = j :=
  List.inj_on_of_nodup_map crcTop_nodup (List.mem_range.2 hi) (List.mem_range.2 hj) h

theorem xor_shiftRight_distrib (x y k : Nat) :
    (x ^^^ y) >>> k = (x >>> k) ^^^ (y >>> k) := by
  apply Nat.eq_of_testBit_eq
  intro i
  simp [Nat.testBit_shiftRight, Nat.testBit_xor]

theorem xor_mod_two_pow (x y k : Nat) :
    (x ^^^ y) % 2 ^ k = (x % 2 ^ k) ^^^ (y % 2 ^ k) := by
  apply Nat.eq_of_testBit_eq
  intro i
  simp only [Nat.testBit_mod_two_pow, Nat.testBit_xor]
  by_cases h : i < k <;> simp [h]

theorem xor_left_cancel {a x y : Nat} (h : a ^^^ x = a ^^^ y) : x = y := by
  have := congrArg (fun z => a ^^^ z) h
  simpa [← Nat.xor_assoc] using this

theorem xor_right_cancel {a x y : Nat} (h : x ^^^ a = y ^^^ a) : x = y := by
  have := congrArg (fun z => z ^^^ a) h
  simpa [Nat.xor_assoc] using this

theorem and_255_lt (x : Nat) : x &&& 255 < 256 :=
  Nat.lt_succ_of_le Nat.and_le_right

theorem crcByteStep_lt {c : Nat} (b : Nat) (hc : c < 4294967296) :
    crcByteStep c b < 4294967296 := by
  have h1 : crcTableEntry ((c ^^^ b) &&& 255) < 4294967296 :=
    crcTableEntry_lt _ (and_255_lt _)
  have h2 : c >>> 8 < 4294967296 := by
    rw [Nat.shiftRight_eq_div_pow]
    exact lt_of_le_of_lt (Nat.div_le_self _ _) hc
  have := Nat.xor_lt_two_pow (n := 32) (by norm_num at h1 ⊢; exact h1)
    (by norm_num at h2 ⊢; exact h2)
  norm_num at this; exact this

theorem crcByteStep_inj_byte {c b1 b2 : Nat} (hb1 : b1 < 256) (hb2 : b2 < 256)
    (h : crcByteStep c b1 = crcByteStep c b2) : b1 = b2 := by
  have ht : crcTableEntry ((c ^^^ b1) &&& 255) = crcTableEntry ((c ^^^ b2) &&& 255) :=
    xor_right_cancel h
  have hi : (c ^^^ b1) &&& 255 = (c ^^^ b2) &&& 255 :=
    crcTableEntry_top_inj (and_255_lt _) (and_255_lt _) (by rw [ht])
  have hmod : (c % 256) ^^^ (b1 % 256) = (c % 256) ^^^ (b2 % 256) := by
    have e1 := Nat.and_pow_two_sub_one_eq_mod (c ^^^ b1) 8
    have e2 := Nat.and_pow_two_sub_one_eq_mod (c ^^^ b2) 8
    norm_num at e1 e2
    rw [e1, e2] at hi
    have x1 := xor_mod_two_pow c b1 8
    have x2 := xor_mod_two_pow c b2 8
    norm_num at x1 x2
    rw [x1, x2] at hi
    exact hi
  have := xor_left_cancel hmod
  rwa [Nat.mod_eq_of_lt hb1, Nat.mod_eq_of_lt hb2] at this

theorem crcByteStep_inj_state {c1 c2 b : Nat} (h1 : c1 < 4294967296)
    (h2 : c2 < 4294967296) (h : crcByteStep c1 b = crcByteStep c2 b) : c1 = c2 := by
  have hsh : ∀ c : Nat, c < 4294967296 → c >>> 8 >>> 24 = 0 := by
    intro c hc
    simp only [Nat.shiftRight_eq_div_pow, Nat.div_div_eq_div_mul]
    exact Nat.div_eq_of_lt (by norm_num; omega)
  have htop := congrArg (fun z => z >>> 24) h
  simp only [crcByteStep, xor_shiftRight_distrib, hsh c1 h1, hsh c2 h2,
    Nat.xor_zero] at htop
  have hi : (c1 ^^^ b) &&& 255 = (c2 ^^^ b) &&& 255 :=
    crcTableEntry_top_inj (and_255_lt _) (and_255_lt _) htop
  have hT : crcTableEntry ((c1 ^^^ b) &&& 255) = crcTableEntry ((c2 ^^^ b) &&& 255) := by
    rw [hi]
  have hhigh : c1 >>> 8 = c2 >>> 8 := by
    have hx := h
    simp only [crcByteStep, hT] at hx
    exact xor_left_cancel hx
  have hlow : c1 % 256 = c2 % 256 := by
    have e1 := Nat.and_pow_two_sub_one_eq_mod (c1 ^^^ b) 8
    have e2 := Nat.and_pow_two_sub_one_eq_mod (c2 ^^^ b) 8
    norm_num at e1 e2
    rw [e1, e2] at hi
    have x1 := xor_mod_two_pow c1 b 8
    have x2 := xor_mod_two_pow c2 b 8
    norm_num at x1 x2
    rw [x1, x2] at hi
    exact xor_right_cancel hi
  have d1 : c1 = 256 * (c1 >>> 8) + c1 % 256 := by
    rw [Nat.shiftRight_eq_div_pow]; norm_num; omega
  have d2 : c2 = 256 * (c2 >>> 8) + c2 % 256 := by
    rw [Nat.shiftRight_eq_div_pow]; norm_num; omega
  omega

theorem crcFold_lt {c : Nat} (l : List Nat) (hc : c < 4294967296) :
    l.foldl crcByteStep c < 4294967296 := by
  induction l generalizing c with
  | nil => exact hc
  | cons b rest ih => exact ih (crcByteStep_lt b hc)

theorem crcFold_inj {l : List Nat} :
    ∀ {c1 c2 : Nat}, c1 < 4294967296 → c2 < 4294967296 →
      l.foldl crcByteStep c1 = l.foldl crcByteStep c2 → c1 = c2 := by
  induction l with
  | nil => intro c1 c2 _ _ h; exact h
  | cons b rest ih =>
    intro c1 c2 h1 h2 h
    exact crcByteStep_inj_state h1 h2
      (ih (crcByteStep_lt b h1) (crcByteStep_lt b h2) h)

/-- CRC-32 detects every single-byte change: replacing one byte of the input
with a different value changes the checksum. -/
theorem crc32_single_byte_ne {pre post : List Nat} {x y : Nat}
    (hx : x < 256) (hy : y < 256) (hne : x ≠ y) :
    crc32 (pre ++ x :: post) ≠ crc32 (pre ++ y :: post) := by
  intro h
  unfold crc32 at h
  have hfold := xor_right_cancel h
  rw [List.foldl_append, List.foldl_append] at hfold
  simp only [List.foldl_cons] at hfold
  have hs : pre.foldl crcByteStep 0xffffffff < 4294967296 :=
    crcFold_lt pre (by norm_num)
  have hstep := crcFold_inj (crcByteStep_lt _ hs) (crcByteStep_lt _ hs) hfold
  exact hne (crcByteStep_inj_byte hx hy hstep)

theorem crc32_lt (data : List Nat) : crc32 data < 4294967296 := by
  unfold crc32
  have h := crcFold_lt data (c := 0xffffffff) (by norm_num)
  have := Nat.xor_lt_two_pow (n := 32) (x := data.foldl crcByteStep 0xffffffff)
    (y := 0xffffffff) (by norm_num at h ⊢; exact h) (by norm_num)
  norm_num at this; exact this

theorem selectSlabSize_ge (n : Nat) : n + SLOT_HEADER_SIZE ≤ selectSlabSize n := by
  have h1 := Nat.div_add_mod (n + 16 + 4095) 4096
  have h2 : (n + 16 + 4095) % 4096 < 4096 := Nat.mod_lt _ (by norm_num)
  unfold selectSlabSize SLOT_HEADER_SIZE
  repeat' split
  all_goals omega

theorem selectSlabSize_class (n : Nat) : SlabClass (selectSlabSize n) := by
  have h1 := Nat.div_add_mod (n + 16 + 4095) 4096
  have h2 : (n + 16 + 4095) % 4096 < 4096 := Nat.mod_lt _ (by norm_num)
  have h3 : ((n + 16 + 4095) / 4096 * 4096) % 4096 = 0 := Nat.mul_mod_left _ _
  unfold selectSlabSize SlabClass SLOT_HEADER_SIZE
  repeat' split
  · exact Or.inl rfl
  · exact Or.inr (Or.inl rfl)
  · exact Or.inr (Or.inr (Or.inl rfl))
  · exact Or.inr (Or.inr (Or.inr ⟨by omega, h3⟩))

/-- Compaction can only keep or shrink a slab: if a payload fits (with its
header) inside an existing slab class, the freshly selected slab is no
larger. -/
theorem selectSlabSize_le_of_class {n m : Nat} (hm : SlabClass m)
    (h : n + SLOT_HEADER_SIZE ≤ m) : selectSlabSize n ≤ m := by
  unfold SLOT_HEADER_SIZE at h
  unfold SlabClass at hm
  have hbig : 65536 < m → m % 4096 = 0 → selectSlabSize n ≤ m := by
    intro hgt hmod
    obtain ⟨q, rfl⟩ : ∃ q, m = 4096 * q :=
      ⟨m / 4096, by have := Nat.div_add_mod m 4096; omega⟩
    have hdiv : (n + 16 + 4095) / 4096 ≤ q := by
      have hle : n + 16 + 4095 ≤ 4096 * q + 4095 := by omega
      have := Nat.div_le_div_right (c := 4096) hle
      rwa [Nat.mul_add_div (by norm_num), show (4095 : Nat) / 4096 = 0 from rfl,
        Nat.add_zero] at this
    unfold selectSlabSize SLOT_HEADER_SIZE
    repeat' split
    all_goals omega
  rcases hm with rfl | rfl | rfl | ⟨hgt, hmod⟩
  · unfold selectSlabSize SLOT_HEADER_SIZE
    repeat' split
    all_goals omega
  · unfold selectSlabSize SLOT_HEADER_SIZE
    repeat' split
    all_goals omega
  · unfold selectSlabSize SLOT_HEADER_SIZE
    repeat' split
    all_goals omega
  · exact hbig hgt hmod

theorem selectSlabSize_mono {a b : Nat} (h : a ≤ b) :
    selectSlabSize a ≤ selectSlabSize b := by
  have hc := selectSlabSize_class b
  exact selectSlabSize_le_of_class hc (le_trans (by omega) (selectSlabSize_ge b))

theorem selectSlabSize_eq_spec (n : Nat) : selectSlabSize n = specRequiredSlab n := by
  unfold selectSlabSize specRequiredSlab slabClasses SLOT_HEADER_SIZE
  by_cases h1 : n + 16 ≤ 1024
  · have hf : List.filter (fun c => decide (n + 16 ≤ c)) [1024, 8192, 65536] =
        [1024, 8192, 65536] := by
      simp [h1, (by omega : n + 16 ≤ 8192), (by omega : n + 16 ≤ 65536)]
    rw [if_pos h1, hf]
    rfl
  · by_cases h2 : n + 16 ≤ 8192
    · have hf : List.filter (fun c => decide (n + 16 ≤ c)) [1024, 8192, 65536] =
          [8192, 65536] := by
        simp [h1, h2, (by omega : n + 16 ≤ 65536)]
      rw [if_neg h1, if_pos h2, hf]
      rfl
    · by_cases h3 : n + 16 ≤ 65536
      · have hf : List.filter (fun c => decide (n + 16 ≤ c)) [1024, 8192, 65536] =
            [65536] := by
          simp [h1, h2, h3]
        rw [if_neg h1, if_neg h2, if_pos h3, hf]
        rfl
      · have hf : List.filter (fun c => decide (n + 16 ≤ c)) [1024, 8192, 65536] =
            [] := by
          simp [h1, h2, h3]
        rw [if_neg h1, if_neg h2, if_neg h3, hf]
        rfl

theorem takeFirstFit_eq_findIdx (required : Nat) (l : List FreeSlot) :
    takeFirstFit required l =
      (l.findIdx? (fun fs => required ≤ fs.slabSize)).map
        (fun k => (l.getD k ⟨0, 0⟩, l.eraseIdx k)) := by
  induction l with
  | nil => rfl
  | cons fs rest ih =>
    by_cases h : required ≤ fs.slabSize
    · simp [takeFirstFit, h, List.findIdx?_cons, List.eraseIdx]
    · simp only [takeFirstFit]
      rw [if_neg h, ih, List.findIdx?_cons, if_neg (by simpa using h), List.findIdx?_succ]
      cases hfi : rest.findIdx? (fun fs => decide (required ≤ fs.slabSize)) with
      | none => simp [hfi]
      | some k =>
        simp [hfi, List.eraseIdx_cons_succ, List.getD_cons_succ]

theorem slotBuffer_length {data : List Nat} {slab : Nat} (blob : Bool)
    (h : data.length + SLOT_HEADER_SIZE ≤ slab) :
    (slotBuffer data slab blob).length = slab := by
  simp only [slotBuffer, List.length_append, u32Bytes_length, List.length_replicate,
    SLOT_HEADER_SIZE] at *
  omega

theorem slotBuffer_mem_lt {data : List Nat} {slab : Nat} {blob : Bool} {x : Nat}
    (hd : ∀ y ∈ data, y < 256) (hx : x ∈ slotBuffer data slab blob) : x < 256 := by
  simp only [slotBuffer, List.mem_append] at hx
  rcases hx with ((((h | h) | h) | h) | h) | h
  · exact u32Bytes_mem_lt h
  · exact u32Bytes_mem_lt h
  · exact u32Bytes_mem_lt h
  · exact u32Bytes_mem_lt h
  · exact hd _ h
  · rw [List.eq_of_mem_replicate h]; norm_num

theorem readU32_append_right (pre l : List Nat) (k : Nat) :
    readU32 (pre ++ l) (pre.length + k) = readU32 l k := by
  unfold readU32
  rw [show pre.length + k + 1 = pre.length + (k + 1) by omega,
    show pre.length + k + 2 = pre.length + (k + 2) by omega,
    show pre.length + k + 3 = pre.length + (k + 3) by omega,
    List.getD_append_right _ _ _ _ (by omega), List.getD_append_right _ _ _ _ (by omega),
    List.getD_append_right _ _ _ _ (by omega), List.getD_append_right _ _ _ _ (by omega),
    Nat.add_sub_cancel_left, Nat.add_sub_cancel_left, Nat.add_sub_cancel_left,
    Nat.add_sub_cancel_left]

theorem slotBuffer_decomp (data : List Nat) (slab : Nat) (blob : Bool) :
    slotBuffer data slab blob =
      slotHeaderBytes data.length slab (crc32 data) blob ++ data ++
        List.replicate (slab - SLOT_HEADER_SIZE - data.length) 0 := by
  simp [slotBuffer, slotHeaderBytes, List.append_assoc]

theorem slotHeaderBytes_length (a b c : Nat) (blob : Bool) :
    (slotHeaderBytes a b c blob).length = 16 := by
  simp [slotHeaderBytes]

/-- Evaluation of `validateSlot` on a 16-byte header followed by exactly the
expected number of payload bytes. -/
theorem validateSlot_eval (hdr payload : List Nat) (off : Nat)
    (h16 : hdr.length = 16) :
    validateSlot (hdr ++ payload) payload.length off =
      (if readU32 hdr 0 &&& FLAG_ACTIVE = 0 then
        .error (.slotNotActive off)
      else if readU32 hdr 4 ≠ payload.length then
        .error (.dataLengthMismatch payload.length (readU32 hdr 4) off)
      else if crc32 payload ≠ readU32 hdr 12 then
        .error (.checksumMismatch (readU32 hdr 12) (crc32 payload) off)
      else .ok payload) := by
  have hlen : ¬ (hdr ++ payload).length < SLOT_HEADER_SIZE + payload.length := by
    simp only [List.length_append, h16, SLOT_HEADER_SIZE]; omega
  have hr0 : readU32 (hdr ++ payload) 0 = readU32 hdr 0 := by
    unfold readU32
    rw [List.getD_append _ _ _ _ (by omega), List.getD_append _ _ _ _ (by omega),
      List.getD_append _ _ _ _ (by omega), List.getD_append _ _ _ _ (by omega)]
  have hr4 : readU32 (hdr ++ payload) 4 = readU32 hdr 4 := by
    unfold readU32
    rw [List.getD_append _ _ _ _ (by omega), List.getD_append _ _ _ _ (by omega),
      List.getD_append _ _ _ _ (by omega), List.getD_append _ _ _ _ (by omega)]
  have hr12 : readU32 (hdr ++ payload) 12 = readU32 hdr 12 := by
    unfold readU32
    rw [List.getD_append _ _ _ _ (by omega), List.getD_append _ _ _ _ (by omega),
      List.getD_append _ _ _ _ (by omega), List.getD_append _ _ _ _ (by omega)]
  have hdata : slice (hdr ++ payload) SLOT_HEADER_SIZE payload.length = payload := by
    unfold slice SLOT_HEADER_SIZE
    rw [show (16 : Nat) = hdr.length + 0 by omega, List.drop_append 0]
    simp
  unfold validateSlot
  rw [if_neg hlen]
  simp only [hr0, hr4, hr12, hdata]

theorem readU32_slotHeaderBytes_0 (a b c : Nat) (blob : Bool) :
    readU32 (slotHeaderBytes a b c blob) 0 =
      (FLAG_ACTIVE ||| (if blob then FLAG_BLOB else 0)) % 4294967296 := by
  unfold slotHeaderBytes
  rw [List.append_assoc, List.append_assoc, readU32_u32Bytes]

theorem readU32_slotHeaderBytes_4 (a b c : Nat) (blob : Bool) :
    readU32 (slotHeaderBytes a b c blob) 4 = a % 4294967296 := by
  unfold slotHeaderBytes
  rw [List.append_assoc, List.append_assoc,
    show (4 : Nat) = (u32Bytes (FLAG_ACTIVE ||| (if blob then FLAG_BLOB else 0))).length + 0
      by simp, readU32_append_right, readU32_u32Bytes]

theorem readU32_slotHeaderBytes_8 (a b c : Nat) (blob : Bool) :
    readU32 (slotHeaderBytes a b c blob) 8 = b % 4294967296 := by
  unfold slotHeaderBytes
  rw [List.append_assoc, List.append_assoc,
    show (8 : Nat) = (u32Bytes (FLAG_ACTIVE ||| (if blob then FLAG_BLOB else 0))).length + 4
      by simp, readU32_append_right,
    show (4 : Nat) = (u32Bytes a).length + 0 by simp, readU32_append_right,
    readU32_u32Bytes]

theorem readU32_slotHeaderBytes_12 (a b c : Nat) (blob : Bool) :
    readU32 (slotHeaderBytes a b c blob) 12 = c % 4294967296 := by
  unfold slotHeaderBytes
  rw [List.append_assoc, List.append_assoc,
    show (12 : Nat) = (u32Bytes (FLAG_ACTIVE ||| (if blob then FLAG_BLOB else 0))).length + 8
      by simp, readU32_append_right,
    show (8 : Nat) = (u32Bytes a).length + 4 by simp, readU32_append_right,
    show (4 : Nat) = (u32Bytes b).length + 0 by simp, readU32_append_right,
    show u32Bytes c = u32Bytes c ++ [] by simp, readU32_u32Bytes]

/-- Reading back a freshly written slot succeeds and returns the payload. -/
theorem validateSlot_slotBuffer {data : List Nat} {slab : Nat} (blob : Bool)
    (off : Nat)
    (hlen : data.length < 4294967296) :
    validateSlot ((slotBuffer data slab blob).take (SLOT_HEADER_SIZE + data.length))
      data.length off = .ok data := by
  have hdec : (slotBuffer data slab blob).take (SLOT_HEADER_SIZE + data.length) =
      slotHeaderBytes data.length slab (crc32 data) blob ++ data := by
    rw [slotBuffer_decomp,
      show SLOT_HEADER_SIZE + data.length =
        (slotHeaderBytes data.length slab (crc32 data) blob ++ data).length by
          simp [slotHeaderBytes_length]; rfl,
      List.take_append_of_le_length (le_refl _), List.take_of_length_le (le_refl _)]
  rw [hdec, validateSlot_eval _ _ _ (slotHeaderBytes_length _ _ _ _)]
  rw [readU32_slotHeaderBytes_0, readU32_slotHeaderBytes_4, readU32_slotHeaderBytes_12]
  rw [if_neg (by cases blob <;> decide), Nat.mod_eq_of_lt hlen, if_neg (by omega),
    Nat.mod_eq_of_lt (crc32_lt data), if_neg (by omega)]

theorem set_append_mid {A m B : List Nat} {i b : Nat} (hi : i < m.length) :
    (A ++ m ++ B).set (A.length + i) b = A ++ m.set i b ++ B := by
  rw [List.append_assoc, List.set_append_right _ _ (by omega),
    Nat.add_sub_cancel_left,
    show (m ++ B).set i b = m.set i b ++ B by
      rw [List.set_append]; rw [if_pos hi],
    List.append_assoc]

/-- A single changed byte in a little-endian u32 field changes its decoded
value. -/
theorem readU32_set_ne {v j b : Nat} (hj : j < 4)
    (hne : b ≠ (u32Bytes v).getD j 0) (rest : List Nat) :
    readU32 ((u32Bytes v).set j b ++ rest) 0 ≠ v % 4294967296 := by
  have h0 : v % 256 < 256 := Nat.mod_lt _ (by norm_num)
  have h1 : v / 256 % 256 < 256 := Nat.mod_lt _ (by norm_num)
  have h2 : v / 65536 % 256 < 256 := Nat.mod_lt _ (by norm_num)
  have h3 : v / 16777216 % 256 < 256 := Nat.mod_lt _ (by norm_num)
  have hv := readU32_u32Bytes v rest
  interval_cases j
  all_goals
    simp only [u32Bytes, List.getD_cons_zero, List.getD_cons_succ, List.set] at hne hv ⊢
  all_goals
    have hr : ∀ w x y z : Nat, readU32 ([w, x, y, z] ++ rest) 0 =
        w + 256 * x + 65536 * y + 16777216 * z := fun w x y z => by
      unfold readU32
      rw [List.getD_append _ _ _ _ (by simp), List.getD_append _ _ _ _ (by simp),
        List.getD_append _ _ _ _ (by simp), List.getD_append _ _ _ _ (by simp)]
      rfl
  all_goals rw [hr] at hv ⊢
  all_goals omega

theorem list_eq_take_cons_drop {l : List Nat} {j : Nat} (h : j < l.length) :
    l = l.take j ++ l.getD j 0 :: l.drop (j + 1) := by
  conv_lhs => rw [← List.take_append_drop j l]
  rw [List.getD_eq_getElem?_getD, List.getElem?_eq_getElem h,
    show (some l[j]).getD 0 = l[j] from rfl, List.getElem_cons_drop]

theorem slotBuffer_getD_field4 {data : List Nat} {slab i : Nat} {blob : Bool}
    (h4 : 4 ≤ i) (h8 : i < 8) :
    (slotBuffer data slab blob).getD i 0 = (u32Bytes data.length).getD (i - 4) 0 := by
  unfold slotBuffer
  rw [List.append_assoc, List.append_assoc, List.append_assoc, List.append_assoc,
    List.getD_append_right _ _ _ _ (by simp; omega)]
  rw [List.getD_append _ _ _ _ (by simp; omega)]
  congr 1

theorem slotBuffer_getD_field12 {data : List Nat} {slab i : Nat} {blob : Bool}
    (h12 : 12 ≤ i) (h16 : i < 16) :
    (slotBuffer data slab blob).getD i 0 = (u32Bytes (crc32 data)).getD (i - 12) 0 := by
  unfold slotBuffer
  rw [List.append_assoc, List.append_assoc, List.append_assoc, List.append_assoc,
    List.getD_append_right _ _ _ _ (by simp; omega),
    List.getD_append_right _ _ _ _ (by simp; omega),
    List.getD_append_right _ _ _ _ (by simp; omega)]
  rw [List.getD_append _ _ _ _ (by simp; omega)]
  congr 1

theorem slotBuffer_getD_payload {data : List Nat} {slab i : Nat} {blob : Bool}
    (h16 : 16 ≤ i) (hlt : i < 16 + data.length) :
    (slotBuffer data slab blob).getD i 0 = data.getD (i - 16) 0 := by
  unfold slotBuffer
  rw [List.append_assoc, List.append_assoc, List.append_assoc, List.append_assoc,
    List.getD_append_right _ _ _ _ (by simp; omega),
    List.getD_append_right _ _ _ _ (by simp; omega),
    List.getD_append_right _ _ _ _ (by simp; omega),
    List.getD_append_right _ _ _ _ (by simp; omega)]
  rw [List.getD_append _ _ _ _ (by simp; omega)]
  congr 1

theorem slice_at_mid {A X B : List Nat} {n : Nat} (h : n ≤ X.length) :
    slice (A ++ X ++ B) A.length n = X.take n := by
  unfold slice
  rw [List.append_assoc, show A.length = A.length + 0 by omega, List.drop_append 0,
    List.drop_zero]
  exact List.take_append_of_le_length h

/-- Reading a slot that sits whole inside the file returns its payload. -/
theorem readSlot_at {A B data : List Nat} {slab : Nat} (blob : Bool)
    (hfit : data.length + SLOT_HEADER_SIZE ≤ slab)
    (hlen : data.length < 4294967296) :
    readSlot (A ++ slotBuffer data slab blob ++ B) A.length data.length =
      Except.ok data := by
  unfold readSlot
  rw [slice_at_mid (by rw [slotBuffer_length blob hfit]
                       unfold SLOT_HEADER_SIZE at hfit ⊢; omega)]
  exact validateSlot_slotBuffer blob A.length hlen

theorem set_in_first {X Y : List Nat} {i : Nat} (b : Nat) (h : i < X.length) :
    (X ++ Y).set i b = X.set i b ++ Y := by
  rw [List.set_append, if_pos h]

theorem take_header_payload {hdr data pad : List Nat} (h16 : hdr.length = 16) :
    ((hdr ++ data) ++ pad).take (16 + data.length) = hdr ++ data := by
  rw [List.take_append_of_le_length (by simp [h16]),
    List.take_of_length_le (by simp [h16])]

theorem hdrSet48_decomp {a s c i b : Nat} (blob : Bool) (h4 : 4 ≤ i) (h8 : i < 8) :
    (slotHeaderBytes a s c blob).set i b =
      u32Bytes (FLAG_ACTIVE ||| (if blob then FLAG_BLOB else 0)) ++
        ((u32Bytes a).set (i - 4) b ++ (u32Bytes s ++ u32Bytes c)) := by
  unfold slotHeaderBytes
  rw [List.append_assoc, List.append_assoc,
    List.set_append_right _ _ (by simp; omega)]
  congr 1
  rw [show i - (u32Bytes (FLAG_ACTIVE ||| (if blob then FLAG_BLOB else 0))).length = i - 4
      by simp]
  exact set_in_first b (by simp; omega)

theorem hdrSet1216_decomp {a s c i b : Nat} (blob : Bool) (h12 : 12 ≤ i) (h16 : i < 16) :
    (slotHeaderBytes a s c blob).set i b =
      u32Bytes (FLAG_ACTIVE ||| (if blob then FLAG_BLOB else 0)) ++
        (u32Bytes a ++ (u32Bytes s ++ (u32Bytes c).set (i - 12) b)) := by
  unfold slotHeaderBytes
  rw [List.append_assoc, List.append_assoc,
    List.set_append_right _ _ (by simp; omega)]
  congr 1
  rw [List.set_append_right _ _ (by simp; omega)]
  congr 1
  rw [List.set_append_right _ _ (by simp; omega)]
  simp
  rw [show i - 4 - 4 - 4 = i - 12 by omega]

theorem hdrSet_length {a s c : Nat} (blob : Bool) (i b : Nat) :
    ((slotHeaderBytes a s c blob).set i b).length = 16 := by
  rw [List.length_set, slotHeaderBytes_length]

/-- A single byte changed in the `dataLength` field (bytes 4–7), the `crc32`
field (bytes 12–15), or the payload of a stored slot makes the next
`readSlot` of that location fail. -/
theorem readSlot_set_detected (front B data : List Nat) {slab i b : Nat} (blob : Bool)
    (hd : ∀ x ∈ data, x < 256)
    (hfit : data.length + SLOT_HEADER_SIZE ≤ slab)
    (hlen : data.length < 4294967296) (hb : b < 256)
    (hi : (4 ≤ i ∧ i < 8) ∨ (12 ≤ i ∧ i < 16 + data.length))
    (hne : b ≠ (slotBuffer data slab blob).getD i 0) :
    ∃ e, readSlot ((front ++ slotBuffer data slab blob ++ B).set (front.length + i) b)
      front.length data.length = Except.error e := by
  have hSBlen : (slotBuffer data slab blob).length = slab := slotBuffer_length blob hfit
  have h16 : SLOT_HEADER_SIZE = 16 := rfl
  have hiSB : i < (slotBuffer data slab blob).length := by
    rw [hSBlen]; rcases hi with ⟨_, h⟩ | ⟨_, h⟩ <;> omega
  rw [set_append_mid hiSB]
  unfold readSlot
  rw [slice_at_mid (by rw [List.length_set, hSBlen]; omega)]
  rw [h16]
  have hflags : ∀ blob' : Bool,
      ¬((FLAG_ACTIVE ||| (if blob' then FLAG_BLOB else 0)) % 4294967296 &&&
        FLAG_ACTIVE = 0) := by
    intro blob'; cases blob' <;> decide
  rcases hi with ⟨h4, h8⟩ | ⟨h12, hlt⟩
  · -- a byte of the dataLength field changed
    have hshape : (slotBuffer data slab blob).set i b =
        ((slotHeaderBytes data.length slab (crc32 data) blob).set i b ++ data) ++
          List.replicate (slab - SLOT_HEADER_SIZE - data.length) 0 := by
      rw [slotBuffer_decomp,
        set_in_first b (by rw [List.length_append, slotHeaderBytes_length]; omega)]
      congr 1
      exact set_in_first b (by rw [slotHeaderBytes_length]; omega)
    rw [hshape, take_header_payload (hdrSet_length blob i b),
      validateSlot_eval _ _ _ (hdrSet_length blob i b), hdrSet48_decomp blob h4 h8]
    rw [readU32_u32Bytes]
    rw [if_neg (hflags blob)]
    have hr4eq := readU32_append_right
      (u32Bytes (FLAG_ACTIVE ||| (if blob then FLAG_BLOB else 0)))
      ((u32Bytes data.length).set (i - 4) b ++ (u32Bytes slab ++ u32Bytes (crc32 data))) 0
    norm_num at hr4eq
    rw [hr4eq]
    have hne' : b ≠ (u32Bytes data.length).getD (i - 4) 0 := by
      rwa [slotBuffer_getD_field4 h4 h8] at hne
    have hneval := readU32_set_ne (v := data.length) (by omega : i - 4 < 4) hne'
      (u32Bytes slab ++ u32Bytes (crc32 data))
    rw [Nat.mod_eq_of_lt hlen] at hneval
    rw [if_pos hneval]
    exact ⟨_, rfl⟩
  · by_cases hc : i < 16
    · -- a byte of the crc32 field changed
      have hshape : (slotBuffer data slab blob).set i b =
          ((slotHeaderBytes data.length slab (crc32 data) blob).set i b ++ data) ++
            List.replicate (slab - SLOT_HEADER_SIZE - data.length) 0 := by
        rw [slotBuffer_decomp,
          set_in_first b (by rw [List.length_append, slotHeaderBytes_length]; omega)]
        congr 1
        exact set_in_first b (by rw [slotHeaderBytes_length]; omega)
      rw [hshape, take_header_payload (hdrSet_length blob i b),
        validateSlot_eval _ _ _ (hdrSet_length blob i b), hdrSet1216_decomp blob h12 hc]
      rw [readU32_u32Bytes]
      rw [if_neg (hflags blob)]
      have hr4eq := readU32_append_right
        (u32Bytes (FLAG_ACTIVE ||| (if blob then FLAG_BLOB else 0)))
        (u32Bytes data.length ++ (u32Bytes slab ++ (u32Bytes (crc32 data)).set (i - 12) b)) 0
      norm_num at hr4eq
      rw [hr4eq, readU32_u32Bytes, Nat.mod_eq_of_lt hlen]
      rw [if_neg (by omega)]
      have h12a := readU32_append_right
        (u32Bytes (FLAG_ACTIVE ||| (if blob then FLAG_BLOB else 0)))
        (u32Bytes data.length ++ (u32Bytes slab ++ (u32Bytes (crc32 data)).set (i - 12) b)) 8
      have h12b := readU32_append_right (u32Bytes data.length)
        (u32Bytes slab ++ (u32Bytes (crc32 data)).set (i - 12) b) 4
      have h12c := readU32_append_right (u32Bytes slab)
        ((u32Bytes (crc32 data)).set (i - 12) b) 0
      norm_num at h12a h12b h12c
      rw [h12a, h12b, h12c]
      have hne' : b ≠ (u32Bytes (crc32 data)).getD (i - 12) 0 := by
        rwa [slotBuffer_getD_field12 h12 hc] at hne
      have hneval := readU32_set_ne (v := crc32 data) (by omega : i - 12 < 4) hne' []
      rw [List.append_nil, Nat.mod_eq_of_lt (crc32_lt data)] at hneval
      rw [if_pos (by omega)]
      exact ⟨_, rfl⟩
    · -- a payload byte changed
      have hj : i - 16 < data.length := by omega
      have hshape : (slotBuffer data slab blob).set i b =
          ((slotHeaderBytes data.length slab (crc32 data) blob) ++
            data.set (i - 16) b) ++
            List.replicate (slab - SLOT_HEADER_SIZE - data.length) 0 := by
        rw [slotBuffer_decomp,
          set_in_first b (by rw [List.length_append, slotHeaderBytes_length]; omega)]
        congr 1
        rw [List.set_append_right _ _ (by rw [slotHeaderBytes_length]; omega),
          slotHeaderBytes_length]
      rw [hshape]
      have hlset : data.length = (data.set (i - 16) b).length := (List.length_set _ _ _).symm
      rw [show (16 : Nat) + data.length = 16 + (data.set (i - 16) b).length by
            rw [← hlset]]
      rw [take_header_payload (slotHeaderBytes_length _ _ _ _)]
      rw [show validateSlot
            (slotHeaderBytes data.length slab (crc32 data) blob ++ data.set (i - 16) b)
            data.length front.length =
          validateSlot
            (slotHeaderBytes data.length slab (crc32 data) blob ++ data.set (i - 16) b)
            (data.set (i - 16) b).length front.length by rw [← hlset]]
      rw [validateSlot_eval _ _ _ (slotHeaderBytes_length _ _ _ _)]
      rw [readU32_slotHeaderBytes_0]
      rw [if_neg (hflags blob)]
      rw [readU32_slotHeaderBytes_4, Nat.mod_eq_of_lt hlen]
      rw [if_neg (by rw [← hlset]; omega)]
      rw [readU32_slotHeaderBytes_12, Nat.mod_eq_of_lt (crc32_lt data)]
      have hmem : data.getD (i - 16) 0 ∈ data := by
        rw [List.getD_eq_getElem?_getD, List.getElem?_eq_getElem hj,
          show (some data[i - 16]).getD 0 = data[i - 16] from rfl]
        exact List.getElem_mem hj
      have hne' : b ≠ data.getD (i - 16) 0 := by
        rwa [slotBuffer_getD_payload (by omega) (by omega)] at hne
      have hnecrc : crc32 (data.set (i - 16) b) ≠ crc32 data := by
        rw [List.set_eq_take_append_cons_drop, if_pos hj]
        conv_rhs => rw [list_eq_take_cons_drop hj]
        exact crc32_single_byte_ne hb (hd _ hmem) hne'
      rw [if_pos hnecrc]
      exact ⟨_, rfl⟩

/-- C1 (counterexample): the claim "flipping ANY single byte of the slot
header or payload makes the next read fail" is false.  For a live slot with
payload `[97]` at offset 64 (slab 1024), changing header byte 8 (the low
byte of the `slabSize` field) from 0 to 1, or header byte 1 (a high byte of
the `flags` field) from 0 to 1, leaves `readSlot` succeeding. -/
theorem claim_C1_counterexample :
    ((slotBuffer [97] 1024 false).getD 8 0 = 0 ∧
      readSlot ((List.replicate 64 0 ++ slotBuffer [97] 1024 false).set (64 + 8) 1) 64 1 =
        Except.ok [97]) ∧
    ((slotBuffer [97] 1024 false).getD 1 0 = 0 ∧
      readSlot ((List.replicate 64 0 ++ slotBuffer [97] 1024 false).set (64 + 1) 1) 64 1 =
        Except.ok [97]) := by
  exact ⟨⟨rfl, rfl⟩, ⟨rfl, rfl⟩⟩

/-- C1 (amended): flipping a single byte of a stored slot's `dataLength`
field (bytes 4–7 of the slot header), of its `crc32` field (bytes 12–15), or
of its payload (bytes 16 … 16+dataLength-1) causes the next read of that
location to fail with `ChecksumMismatch` or `CorruptedData` (the only error
kinds `readSlot` produces); flips confined to the `slabSize` field or to
high `flags` bytes may go undetected (see the counterexample). -/
theorem claim_C1_amended (front B data : List Nat) (slab i b : Nat) (blob : Bool)
    (hd : ∀ x ∈ data, x < 256)
    (hfit : data.length + SLOT_HEADER_SIZE ≤ slab)
    (hlen : data.length < 4294967296) (hb : b < 256)
    (hi : (4 ≤ i ∧ i < 8) ∨ (12 ≤ i ∧ i < 16 + data.length))
    (hne : b ≠ (slotBuffer data slab blob).getD i 0) :
    ∃ e, readSlot ((front ++ slotBuffer data slab blob ++ B).set (front.length + i) b)
      front.length data.length = Except.error e :=
  readSlot_set_detected front B data blob hd hfit hlen hb hi hne

theorem claim_C1_amended_witness :
    (∀ x ∈ [97], x < 256) ∧ ([97] : List Nat).length + SLOT_HEADER_SIZE ≤ 1024 ∧
    ([97] : List Nat).length < 4294967296 ∧ (98 : Nat) < 256 ∧
    ((4 ≤ 16 ∧ 16 < 8) ∨ (12 ≤ 16 ∧ 16 < 16 + ([97] : List Nat).length)) ∧
    98 ≠ (slotBuffer [97] 1024 false).getD 16 0 ∧
    (∃ e, readSlot ((List.replicate 64 0 ++ slotBuffer [97] 1024 false ++
        ([] : List Nat)).set ((List.replicate 64 (0 : Nat)).length + 16) 98)
      (List.replicate 64 (0 : Nat)).length ([97] : List Nat).length =
        Except.error e) := by
  refine ⟨by decide, by decide, by decide, by decide, by decide, by decide, ?_⟩
  exact claim_C1_amended (List.replicate 64 0) [] [97] 1024 16 98 false
    (by decide) (by decide) (by decide) (by decide) (by decide) (by decide)

/-- C6: the required slab size is the smallest of 1024/8192/65536 that is
`≥ n + 16`, falling through to `ceil((n+16)/4096)*4096`; allocation scans the
free list (in order) for the first entry with `slabSize ≥ required`, removes
it and returns its offset with the entry's original slab size (reused),
otherwise returns `nextSlotOffset` with exactly the required size (not
reused). -/
theorem claim_C6 (n next : Nat) (freeList : List FreeSlot) :
    selectSlabSize n = specRequiredSlab n ∧
    (match freeList.findIdx? (fun fs => selectSlabSize n ≤ fs.slabSize) with
     | some k =>
        allocateSlot freeList next n =
          ({ offset := (freeList.getD k ⟨0, 0⟩).offset,
             slabSize := (freeList.getD k ⟨0, 0⟩).slabSize, isReused := true },
           freeList.eraseIdx k)
     | none =>
        allocateSlot freeList next n =
          ({ offset := next, slabSize := selectSlabSize n, isReused := false },
           freeList)) := by
  refine ⟨selectSlabSize_eq_spec n, ?_⟩
  unfold allocateSlot
  rw [takeFirstFit_eq_findIdx]
  cases hfi : freeList.findIdx? (fun fs => selectSlabSize n ≤ fs.slabSize) with
  | none => simp [hfi]
  | some k => simp [hfi]

theorem decDigitsAux_eq_digits : ∀ fuel m, m ≤ fuel → decDigitsAux fuel m = Nat.digits 10 m := by
  intro fuel
  induction fuel with
  | zero => intro m hm; interval_cases m; simp [decDigitsAux]
  | succ f ih =>
    intro m hm
    cases m with
    | zero => simp [decDigitsAux]
    | succ m' =>
      rw [show decDigitsAux (f + 1) (m' + 1) =
          ((m' + 1) % 10) :: decDigitsAux f ((m' + 1) / 10) from rfl,
        ih _ (by omega : (m' + 1) / 10 ≤ f),
        Nat.digits_def' (by norm_num : 1 < 10) (Nat.succ_pos m')]

theorem decDigits_eq (m : Nat) :
    decDigits m = if m = 0 then [0] else (Nat.digits 10 m).reverse := by
  unfold decDigits
  rw [decDigitsAux_eq_digits m m (le_refl m)]

theorem char_toNat_ofNat (n : Nat) (h : n < 55296) : (Char.ofNat n).toNat = n := by
  simp only [Char.ofNat, Nat.isValidChar]
  rw [dif_pos (Or.inl h)]
  show (Char.ofNatAux n _).toNat = n
  rfl

theorem digitChar_inj {d e : Nat} (hd : d < 10) (he : e < 10)
    (h : digitChar d = digitChar e) : d = e := by
  have := congrArg Char.toNat h
  unfold digitChar at this
  rw [char_toNat_ofNat _ (by omega), char_toNat_ofNat _ (by omega)] at this
  omega

theorem decDigits_ne_nil (m : Nat) : decDigits m ≠ [] := by
  rw [decDigits_eq]
  split
  · simp
  · simp [Nat.digits_ne_nil_iff_ne_zero, *]

theorem decDigits_lt (m : Nat) : ∀ d ∈ decDigits m, d < 10 := by
  rw [decDigits_eq]
  split
  · intro d hd; simp at hd; omega
  · intro d hd
    rw [List.mem_reverse] at hd
    exact Nat.digits_lt_base (by norm_num) hd

theorem decDigits_inj {m m' : Nat} (h : decDigits m = decDigits m') : m = m' := by
  rw [decDigits_eq, decDigits_eq] at h
  by_cases h0 : m = 0 <;> by_cases h0' : m' = 0
  · omega
  · rw [if_pos h0, if_neg h0'] at h
    have hz : Nat.digits 10 m' = [0] := by
      have := congrArg List.reverse h
      simpa using this.symm
    have := congrArg (Nat.ofDigits 10) hz
    rw [Nat.ofDigits_digits] at this
    simp [Nat.ofDigits] at this
    omega
  · rw [if_neg h0, if_pos h0'] at h
    have hz : Nat.digits 10 m = [0] := by
      have := congrArg List.reverse h
      simpa using this
    have := congrArg (Nat.ofDigits 10) hz
    rw [Nat.ofDigits_digits] at this
    simp [Nat.ofDigits] at this
    omega
  · rw [if_neg h0, if_neg h0'] at h
    have hdig : Nat.digits 10 m = Nat.digits 10 m' := by
      have := congrArg List.reverse h
      simpa using this
    have := congrArg (Nat.ofDigits 10) hdig
    rwa [Nat.ofDigits_digits, Nat.ofDigits_digits] at this

theorem decDigits_length_le16 {m : Nat} (hm : m < 10 ^ 16) :
    (decDigits m).length ≤ 16 := by
  rw [decDigits_eq]
  split
  · simp
  · rw [List.length_reverse]
    by_contra hc
    have h17 : 17 ≤ (Nat.digits 10 m).length := by omega
    have hle := Nat.base_pow_length_digits_le 10 m (by norm_num) (by assumption)
    have hpow : (10 : Nat) ^ 17 ≤ 10 ^ (Nat.digits 10 m).length :=
      Nat.pow_le_pow_right (by norm_num) h17
    have : (10 : Nat) ^ 17 ≤ 10 * m := le_trans hpow hle
    norm_num at this hm
    omega

theorem mapDigitChar_inj : ∀ {l1 l2 : List Nat}, (∀ d ∈ l1, d < 10) →
    (∀ d ∈ l2, d < 10) → l1.map digitChar = l2.map digitChar → l1 = l2 := by
  intro l1
  induction l1 with
  | nil => intro l2 _ _ h; cases l2 <;> simp_all
  | cons d rest ih =>
    intro l2 h1 h2 h
    cases l2 with
    | nil => simp at h
    | cons e rest2 =>
      simp only [List.map_cons, List.cons.injEq] at h
      have hd := digitChar_inj (h1 d (by simp)) (h2 e (by simp)) h.1
      have := ih (fun x hx => h1 x (by simp [hx])) (fun x hx => h2 x (by simp [hx])) h.2
      simp [hd, this]

theorem ne_nil_headD_tail {l : List Nat} (h : l ≠ []) : l = l.headD 0 :: l.tail := by
  cases l with
  | nil => exact absurd rfl h
  | cons a t => rfl

theorem decDigits_headD_lt (m : Nat) : (decDigits m).headD 0 < 10 := by
  have hne := decDigits_ne_nil m
  have := decDigits_lt m
  cases hl : decDigits m with
  | nil => exact absurd hl hne
  | cons a t =>
    rw [hl] at this
    exact this a (by simp)

theorem toExponential15_inj {m m' : Nat} (hm : m < 10 ^ 16) (hm' : m' < 10 ^ 16)
    (h : toExponential15 m = toExponential15 m') : m = m' := by
  have hl := decDigits_length_le16 hm
  have hl' := decDigits_length_le16 hm'
  rw [toExponential15, toExponential15, if_pos hl, if_pos hl'] at h
  injection h with h
  -- peel the leading mantissa digit and the '.'
  injection h with hhead h
  injection h with hdot h
  -- split mantissa (15 chars) from exponent part
  have hlen1 : (((decDigits m).tail ++
      List.replicate (16 - (decDigits m).length) 0).map digitChar).length = 15 := by
    have h1 : 1 ≤ (decDigits m).length := by
      have := decDigits_ne_nil m
      cases hq : decDigits m <;> simp_all
    simp [List.length_map, List.length_append, List.length_tail]
    omega
  have hlen2 : (((decDigits m').tail ++
      List.replicate (16 - (decDigits m').length) 0).map digitChar).length = 15 := by
    have h1 : 1 ≤ (decDigits m').length := by
      have := decDigits_ne_nil m'
      cases hq : decDigits m' <;> simp_all
    simp [List.length_map, List.length_append, List.length_tail]
    omega
  have hsplit := List.append_inj h (by rw [hlen1, hlen2])
  obtain ⟨hmant, hexp⟩ := hsplit
  -- exponent part gives equal digit counts
  injection hexp with h_e hexp
  injection hexp with h_p hexp
  have hexps : decDigits ((decDigits m).length - 1) =
      decDigits ((decDigits m').length - 1) :=
    mapDigitChar_inj (decDigits_lt _) (decDigits_lt _) hexp
  have hlens : (decDigits m).length = (decDigits m').length := by
    have h1 : 1 ≤ (decDigits m).length := by
      have := decDigits_ne_nil m
      cases hq : decDigits m <;> simp_all
    have h2 : 1 ≤ (decDigits m').length := by
      have := decDigits_ne_nil m'
      cases hq : decDigits m' <;> simp_all
    have := decDigits_inj hexps
    omega
  -- mantissa part gives equal digit tails
  have htails0 : (decDigits m).tail ++ List.replicate (16 - (decDigits m).length) 0 =
      (decDigits m').tail ++ List.replicate (16 - (decDigits m').length) 0 :=
    mapDigitChar_inj
      (by
        intro d hd
        rcases List.mem_append.1 hd with hx | hx
        · exact decDigits_lt m d (List.mem_of_mem_tail hx)
        · rw [List.eq_of_mem_replicate hx]; norm_num)
      (by
        intro d hd
        rcases List.mem_append.1 hd with hx | hx
        · exact decDigits_lt m' d (List.mem_of_mem_tail hx)
        · rw [List.eq_of_mem_replicate hx]; norm_num)
      hmant
  have htails := List.append_inj htails0
    (by simp [List.length_tail, hlens])
  have hheads : (decDigits m).headD 0 = (decDigits m').headD 0 :=
    digitChar_inj (decDigits_headD_lt m) (decDigits_headD_lt m') hhead
  have hds : decDigits m = decDigits m' := by
    rw [ne_nil_headD_tail (decDigits_ne_nil m), ne_nil_headD_tail (decDigits_ne_nil m')]
    rw [hheads, htails.1]
  exact decDigits_inj hds

theorem string_length_eq_data (s : String) : s.length = s.data.length := rfl

theorem toExponential15_length_ge {m : Nat} (hm : m < 10 ^ 16) :
    20 ≤ (toExponential15 m).length := by
  rw [toExponential15, if_pos (decDigits_length_le16 hm)]
  rw [string_length_eq_data]
  show 20 ≤ (_ :: '.' :: _ ++ ('e' :: '+' :: _)).length
  simp only [List.length_cons, List.length_append, List.length_map,
    List.length_replicate, List.length_tail]
  have h1 : 1 ≤ (decDigits m).length := by
    have := decDigits_ne_nil m
    cases hq : decDigits m <;> simp_all
  have h2 : 1 ≤ (decDigits ((decDigits m).length - 1)).length := by
    have := decDigits_ne_nil ((decDigits m).length - 1)
    cases hq : decDigits ((decDigits m).length - 1) <;> simp_all
  have h3 := decDigits_length_le16 hm
  omega

theorem serialize_num_length {n : Int} (hn : n.natAbs < 10 ^ 16) :
    22 ≤ (serializeIndexValue (numV n)).length := by
  show 22 ≤ (("\x02" ++ (if 0 ≤ n then "+" else "-")) ++ toExponential15 n.natAbs).length
  rw [string_length_eq_data, String.data_append, List.length_append,
    ← string_length_eq_data, ← string_length_eq_data]
  have := toExponential15_length_ge hn
  split
  · have h2 : ("\x02" ++ "+").length = 2 := rfl
    omega
  · have h2 : ("\x02" ++ "-").length = 2 := rfl
    omega

theorem serialize_headD (v : JSVal) :
    (serializeIndexValue v).data.headD 'Z' = serTag v := by
  cases v <;> try rfl
  case infV p => cases p <;> rfl

theorem serialize_num_inj {n m : Int} (hn : n.natAbs < 10 ^ 16)
    (hm : m.natAbs < 10 ^ 16)
    (h : serializeIndexValue (numV n) = serializeIndexValue (numV m)) : n = m := by
  have hdata := congrArg String.data h
  rw [show serializeIndexValue (numV n) =
      ("\x02" ++ (if 0 ≤ n then "+" else "-")) ++ toExponential15 n.natAbs from rfl,
    show serializeIndexValue (numV m) =
      ("\x02" ++ (if 0 ≤ m then "+" else "-")) ++ toExponential15 m.natAbs from rfl,
    String.data_append, String.data_append, String.data_append, String.data_append]
      at hdata
  by_cases h1 : 0 ≤ n <;> by_cases h2 : 0 ≤ m <;>
    simp only [h1, h2, if_true, if_false] at hdata
  -- four sign combinations
  · simp only [show ("\x02" : String).data = ['\x02'] from rfl,
      show ("+" : String).data = ['+'] from rfl, List.cons_append, List.nil_append,
      List.cons.injEq, true_and] at hdata
    have := toExponential15_inj hn hm (String.ext hdata)
    omega
  · simp only [show ("\x02" : String).data = ['\x02'] from rfl,
      show ("+" : String).data = ['+'] from rfl,
      show ("-" : String).data = ['-'] from rfl, List.cons_append, List.nil_append,
      List.cons.injEq] at hdata
    exact absurd hdata.2.1 (by decide)
  · simp only [show ("\x02" : String).data = ['\x02'] from rfl,
      show ("+" : String).data = ['+'] from rfl,
      show ("-" : String).data = ['-'] from rfl, List.cons_append, List.nil_append,
      List.cons.injEq] at hdata
    exact absurd hdata.2.1 (by decide)
  · simp only [show ("\x02" : String).data = ['\x02'] from rfl,
      show ("-" : String).data = ['-'] from rfl, List.cons_append, List.nil_append,
      List.cons.injEq, true_and] at hdata
    have := toExponential15_inj hn hm (String.ext hdata)
    omega

theorem deepEqual_num (n m : Int) : deepEqual (numV n) (numV m) = (n == m) := by
  simp only [deepEqual, jsStrictEq]
  cases h : (n == m : Bool) <;> simp [h]

theorem deepEqual_str (s t : String) : deepEqual (strV s) (strV t) = (s == t) := by
  simp only [deepEqual, jsStrictEq]
  cases h : (s == t : Bool) <;> simp [h]

theorem serialize_iff_num {n m : Int} (hn : n.natAbs < 10 ^ 16)
    (hm : m.natAbs < 10 ^ 16) :
    (serializeIndexValue (numV n) = serializeIndexValue (numV m)) ↔
      deepEqual (numV n) (numV m) = true := by
  rw [deepEqual_num]
  constructor
  · intro h
    have := serialize_num_inj hn hm h
    simp [this]
  · intro h
    have : n = m := by simpa using h
    rw [this]

theorem serialize_iff_str (s t : String) :
    (serializeIndexValue (strV s) = serializeIndexValue (strV t)) ↔
      deepEqual (strV s) (strV t) = true := by
  rw [deepEqual_str]
  show ("\x03" ++ s = "\x03" ++ t) ↔ (s == t) = true
  constructor
  · intro h
    have hd := congrArg String.data h
    rw [String.data_append, String.data_append] at hd
    have hst : s = t := String.ext (List.append_cancel_left hd)
    simp [hst]
  · intro h
    have hst : s = t := eq_of_beq h
    rw [hst]

theorem serialize_num_inf_ne {n : Int} (p : Bool) (hn : n.natAbs < 10 ^ 16) :
    serializeIndexValue (numV n) ≠ serializeIndexValue (infV p) := by
  intro h
  have hlen := congrArg String.length h
  have h22 := serialize_num_length hn
  have h5 : (serializeIndexValue (infV p)).length = 5 := by cases p <;> rfl
  omega

theorem serialize_iff_deepEqual_scalar (a b : JSVal) (ha : ScalarOk a)
    (hb : ScalarOk b) :
    (serializeIndexValue a = serializeIndexValue b) ↔ deepEqual a b = true := by
  cases a <;> cases b
  all_goals first
    | exact False.elim ha
    | exact False.elim hb
    | decide
    | (rename_i x y; cases x <;> cases y <;> decide)
    | (rename_i n m; exact serialize_iff_num ha hb)
    | (rename_i s t; exact serialize_iff_str s t)
    | (rename_i n p
       constructor
       · intro h
         exact absurd h (serialize_num_inf_ne p ha)
       · intro h
         simp [deepEqual, jsStrictEq] at h)
    | (rename_i p n
       constructor
       · intro h
         exact absurd h.symm (serialize_num_inf_ne p hb)
       · intro h
         simp [deepEqual, jsStrictEq] at h)
    | (constructor
       · intro h
         have hh := congrArg (fun s => s.data.headD 'Z') h
         simp only [serialize_headD, serTag] at hh
         exact absurd hh (by decide)
       · intro h
         simp [deepEqual, jsStrictEq] at h)

/-- C2 (counterexample): the claimed equivalence fails in both directions.
Two plain objects that are `deepEqual` (order-insensitive keys) serialize to
different byte strings because `JSON.stringify` is key-order-sensitive, and
`[NaN]` and `[null]` serialize identically (`JSON.stringify` renders both as
`[null]`) while `deepEqual` rejects them (`NaN !== NaN`). -/
theorem claim_C2_counterexample :
    (deepEqual (objV [("x", numV 1), ("y", numV 2)])
        (objV [("y", numV 2), ("x", numV 1)]) = true ∧
      serializeIndexValue (objV [("x", numV 1), ("y", numV 2)]) ≠
        serializeIndexValue (objV [("y", numV 2), ("x", numV 1)])) ∧
    (serializeIndexValue (arrV [nanV]) = serializeIndexValue (arrV [nullV]) ∧
      deepEqual (arrV [nanV]) (arrV [nullV]) = false) := by
  exact ⟨⟨by decide, by decide⟩, ⟨by decide, by decide⟩⟩

/-- C2 (amended): for scalar values at an indexed path — null, undefined,
booleans, strings, ±Infinity, and numbers other than NaN within 16
significant decimal digits (modelled as integers with `|n| < 10^16`; JS
doubles needing 17 digits can collide under `toExponential(15)`) —
`serializeIndexValue a = serializeIndexValue b` iff `deepEqual a b`.  For
arrays and objects the equivalence fails in both directions (see the
counterexample). -/
theorem claim_C2_amended (a b : JSVal) (ha : ScalarOk a) (hb : ScalarOk b) :
    (serializeIndexValue a = serializeIndexValue b) ↔ deepEqual a b = true :=
  serialize_iff_deepEqual_scalar a b ha hb

theorem claim_C2_amended_witness :
    ScalarOk (strV "a") ∧ ScalarOk (strV "a") ∧
    ((serializeIndexValue (strV "a") = serializeIndexValue (strV "a")) ↔
      deepEqual (strV "a") (strV "a") = true) :=
  ⟨trivial, trivial, claim_C2_amended _ _ trivial trivial⟩

/-! ## Generic lemmas about positional writes and reads -/

theorem writeAt_length (f : List Nat) (off : Nat) (d : List Nat) :
    (writeAt f off d).length = max f.length (off + d.length) := by
  unfold writeAt
  simp only [List.length_append, List.length_take, List.length_drop,
    List.length_replicate]
  omega

theorem slice_writeAt_self (f : List Nat) (off : Nat) (d : List Nat) (n : Nat)
    (hn : n ≤ d.length) :
    slice (writeAt f off d) off n = d.take n := by
  have hA : ((f ++ List.replicate (off + d.length - f.length) 0).take off).length
      = off := by
    simp only [List.length_take, List.length_append, List.length_replicate]
    omega
  unfold writeAt
  calc slice ((f ++ List.replicate (off + d.length - f.length) 0).take off ++ d ++
        (f ++ List.replicate (off + d.length - f.length) 0).drop (off + d.length))
        off n
      = slice ((f ++ List.replicate (off + d.length - f.length) 0).take off ++ d ++
        (f ++ List.replicate (off + d.length - f.length) 0).drop (off + d.length))
        ((f ++ List.replicate (off + d.length - f.length) 0).take off).length n := by
        rw [hA]
    _ = d.take n := slice_at_mid hn

theorem drop_writeAt_above {off1 off2 : Nat} (f d : List Nat)
    (h : off1 + d.length ≤ off2) :
    (writeAt f off1 d).drop off2 = f.drop off2 := by
  rcases Nat.le_total f.length (off1 + d.length) with hf | hf
  · have hlen : (writeAt f off1 d).length = off1 + d.length := by
      rw [writeAt_length]; omega
    rw [List.drop_eq_nil_of_le (by omega), List.drop_eq_nil_of_le (by omega)]
  · rw [writeAt_of_le d hf]
    have hA : (f.take off1 ++ d).length = off1 + d.length := by
      simp only [List.length_append, List.length_take]; omega
    have h2 : ((f.take off1 ++ d) ++ f.drop (off1 + d.length)).drop (off1 + d.length)
        = f.drop (off1 + d.length) := by
      rw [show off1 + d.length = (f.take off1 ++ d).length from hA.symm,
        List.drop_left]
    calc ((f.take off1 ++ d) ++ f.drop (off1 + d.length)).drop off2
        = (((f.take off1 ++ d) ++ f.drop (off1 + d.length)).drop
            (off1 + d.length)).drop (off2 - (off1 + d.length)) := by
          rw [List.drop_drop]; congr 1; omega
      _ = (f.drop (off1 + d.length)).drop (off2 - (off1 + d.length)) := by rw [h2]
      _ = f.drop off2 := by rw [List.drop_drop]; congr 1; omega

theorem slice_writeAt_above {off1 off2 : Nat} (f d : List Nat) (n : Nat)
    (h : off1 + d.length ≤ off2) :
    slice (writeAt f off1 d) off2 n = slice f off2 n := by
  unfold slice
  rw [drop_writeAt_above f d h]

theorem getD_slice (l : List Nat) (off k i : Nat) (hik : i < k) :
    (slice l off k).getD i 0 = l.getD (off + i) 0 := by
  simp only [slice, List.getD_eq_getElem?_getD, List.getElem?_take, hik,
    if_pos, List.getElem?_drop]

theorem readU32_slice (l : List Nat) (off k : Nat) (hk : 4 ≤ k) :
    readU32 (slice l off k) 0 = readU32 l off := by
  unfold readU32
  rw [show (0 : Nat) + 1 = 1 by rfl, show (0 : Nat) + 2 = 2 by rfl,
    show (0 : Nat) + 3 = 3 by rfl,
    getD_slice l off k 0 (by omega), getD_slice l off k 1 (by omega),
    getD_slice l off k 2 (by omega), getD_slice l off k 3 (by omega),
    Nat.add_zero]

theorem readU32_writeAt_self (f : List Nat) (off v : Nat) :
    readU32 (writeAt f off (u32Bytes v)) off = v % 4294967296 := by
  rw [← readU32_slice (writeAt f off (u32Bytes v)) off 4 (le_refl 4),
    slice_writeAt_self f off (u32Bytes v) 4 (by simp),
    List.take_of_length_le (by simp),
    show u32Bytes v = u32Bytes v ++ [] by simp, readU32_u32Bytes]

theorem slotBuffer_length_ge (data : List Nat) (slab : Nat) (blob : Bool) :
    SLOT_HEADER_SIZE + data.length ≤ (slotBuffer data slab blob).length := by
  simp only [slotBuffer, List.length_append, u32Bytes_length,
    List.length_replicate, SLOT_HEADER_SIZE]
  omega

/-- Reading back a slot just written at the same offset returns the payload
(the write zero-extends the file if needed, so no bounds are required). -/
theorem readSlot_writeSlot_self (f : List Nat) (off : Nat) {data : List Nat}
    (slab : Nat) (blob : Bool) (hlen : data.length < 4294967296) :
    readSlot (writeSlot f off data slab blob) off data.length = .ok data := by
  unfold readSlot writeSlot
  rw [slice_writeAt_self f off _ _ (slotBuffer_length_ge data slab blob)]
  exact validateSlot_slotBuffer blob off hlen

theorem readSlot_congr {f1 f2 : List Nat} (off len : Nat)
    (h : slice f1 off (SLOT_HEADER_SIZE + len) = slice f2 off (SLOT_HEADER_SIZE + len)) :
    readSlot f1 off len = readSlot f2 off len := by
  unfold readSlot
  rw [h]

/-! ## Small facts about header flushes and `markSlotFree` -/

theorem headerBytes_length (h : DataFileHeader) : (headerBytes h).length = 64 := by
  simp [headerBytes, u64IntBytes]

@[simp] theorem markMetadataDirty_file (s : StorageState) :
    (markMetadataDirty s).file = s.file := rfl

@[simp] theorem markMetadataDirty_header (s : StorageState) :
    (markMetadataDirty s).header = s.header := rfl

@[simp] theorem markMetadataDirty_freeList (s : StorageState) :
    (markMetadataDirty s).freeList = s.freeList := rfl

@[simp] theorem markMetadataDirty_refMap (s : StorageState) :
    (markMetadataDirty s).refMap = s.refMap := rfl

@[simp] theorem markMetadataDirty_blobFiles (s : StorageState) :
    (markMetadataDirty s).blobFiles = s.blobFiles := rfl

@[simp] theorem markMetadataDirty_blobThreshold (s : StorageState) :
    (markMetadataDirty s).blobThreshold = s.blobThreshold := rfl

@[simp] theorem markMetadataDirty_batchDepth (s : StorageState) :
    (markMetadataDirty s).batchDepth = s.batchDepth := rfl

@[simp] theorem flushIfNotBatching_header (s : StorageState) :
    (flushIfNotBatching s).header = s.header := by
  unfold flushIfNotBatching flushMetadata writeHeader
  split
  · split <;> rfl
  · rfl

@[simp] theorem flushIfNotBatching_freeList (s : StorageState) :
    (flushIfNotBatching s).freeList = s.freeList := by
  unfold flushIfNotBatching flushMetadata writeHeader
  split
  · split <;> rfl
  · rfl

@[simp] theorem flushIfNotBatching_refMap (s : StorageState) :
    (flushIfNotBatching s).refMap = s.refMap := by
  unfold flushIfNotBatching flushMetadata writeHeader
  split
  · split <;> rfl
  · rfl

@[simp] theorem flushIfNotBatching_blobFiles (s : StorageState) :
    (flushIfNotBatching s).blobFiles = s.blobFiles := by
  unfold flushIfNotBatching flushMetadata writeHeader
  split
  · split <;> rfl
  · rfl

@[simp] theorem flushIfNotBatching_blobThreshold (s : StorageState) :
    (flushIfNotBatching s).blobThreshold = s.blobThreshold := by
  unfold flushIfNotBatching flushMetadata writeHeader
  split
  · split <;> rfl
  · rfl

@[simp] theorem flushIfNotBatching_batchDepth (s : StorageState) :
    (flushIfNotBatching s).batchDepth = s.batchDepth := by
  unfold flushIfNotBatching flushMetadata writeHeader
  split
  · split <;> rfl
  · rfl

/-- A header flush only touches the first `DATA_HEADER_SIZE` bytes. -/
theorem flushIfNotBatching_slice (s : StorageState) (off n : Nat)
    (h : DATA_HEADER_SIZE ≤ off) :
    slice (flushIfNotBatching s).file off n = slice s.file off n := by
  unfold flushIfNotBatching flushMetadata writeHeader
  split
  · split
    · exact slice_writeAt_above s.file (headerBytes s.header) n
        (by rw [headerBytes_length]; exact h)
    · rfl
  · rfl

theorem markSlotFree_ok {file : List Nat} {off : Nat}
    (h : off + SLOT_HEADER_SIZE ≤ file.length) :
    markSlotFree file off =
      .ok (writeAt file off (u32Bytes (readU32 file off &&& 4294967294))) := by
  unfold markSlotFree
  rw [if_neg (by omega), readU32_slice file off SLOT_HEADER_SIZE (by norm_num [SLOT_HEADER_SIZE])]

/-- After a successful `markSlotFree` the ACTIVE bit at the offset is clear
on disk. -/
theorem markSlotFree_clears {file f1 : List Nat} {off : Nat}
    (h : markSlotFree file off = .ok f1) :
    readU32 f1 off &&& FLAG_ACTIVE = 0 := by
  unfold markSlotFree at h
  split at h
  · exact absurd h (by simp)
  · have hf1 : f1 = writeAt file off
        (u32Bytes (readU32 (slice file off SLOT_HEADER_SIZE) 0 &&& 4294967294)) := by
      exact (Except.ok.injEq _ _).mp h.symm
    subst hf1
    rw [readU32_writeAt_self,
      Nat.mod_eq_of_lt (lt_of_le_of_lt Nat.and_le_right (by norm_num)),
      FLAG_ACTIVE, Nat.and_assoc]
    norm_num

/-- Claim C10: for an id absent from the primary index, `Collection.delete`
returns `false` and changes nothing at all — primary and secondary indexes,
data file, header, free list and cache are exactly as before (the returned
state is the input state), and in particular no disk write is issued. -/
theorem claim_C10 (c : CollState) (id : String)
    (h : getAssoc c.im.primaryIndex id = none) :
    collDelete c id = (c, .ok false) := by
  unfold collDelete
  rw [h]

theorem claim_C10_witness :
    collDelete (initialColl 1048576 0) "missing" =
      (initialColl 1048576 0, .ok false) :=
  claim_C10 (initialColl 1048576 0) "missing" rfl

/-- A header flush does not affect slot reads past the file header. -/
theorem readSlot_flush (s : StorageState) (off len : Nat)
    (h : DATA_HEADER_SIZE ≤ off) :
    readSlot (flushIfNotBatching s).file off len = readSlot s.file off len :=
  readSlot_congr off len (flushIfNotBatching_slice s off _ h)

theorem takeFirstFit_mem {req : Nat} :
    ∀ {fl : List FreeSlot} {fs : FreeSlot} {rest : List FreeSlot},
      takeFirstFit req fl = some (fs, rest) → fs ∈ fl := by
  intro fl
  induction fl with
  | nil => intro fs rest h; simp [takeFirstFit] at h
  | cons x xs ih =>
    intro fs rest h
    rw [takeFirstFit] at h
    split at h
    · have := (Option.some.injEq _ _).mp h
      rw [show fs = x from (congrArg Prod.fst this.symm)]
      exact List.mem_cons_self x xs
    · rcases Option.map_eq_some'.mp h with ⟨p, hp, hpe⟩
      have : fs = p.1 := (congrArg Prod.fst hpe).symm
      subst this
      exact List.mem_cons_of_mem x (ih hp)

/-- The allocation result is either a reused free-list entry or a fresh slot
at `nextSlotOffset` of exactly the required size. -/
theorem allocateSlot_offset_cases (fl : List FreeSlot) (next len : Nat) :
    (∃ fs ∈ fl, (allocateSlot fl next len).1 = ⟨fs.offset, fs.slabSize, true⟩) ∨
    (allocateSlot fl next len).1 = ⟨next, selectSlabSize len, false⟩ := by
  unfold allocateSlot
  cases h : takeFirstFit (selectSlabSize len) fl with
  | none => right; rfl
  | some p =>
    obtain ⟨fs, rest⟩ := p
    left
    exact ⟨fs, takeFirstFit_mem h, rfl⟩

/-- Claim C5 (inline-to-inline updates, i.e. the old slot is not a blob
reference and the new encoding `B` is within the blob threshold).
If `|B| + SLOT_HEADER_SIZE ≤ old.slabSize` the update is an in-place
rewrite: the returned location keeps the offset and slab size and records
the new length, the free list and the `nextSlotOffset` are untouched, and
the new payload is readable at the old offset.  Otherwise the old slot is
freed — the ACTIVE bit is cleared on disk and the entry goes onto the free
list — and a new first-fit-allocated slot is written and returned.
The bounds hypotheses say that the old slot and all free-list entries sit
inside the file past the header, as the storage invariant guarantees. -/
theorem claim_C5 (s : StorageState) (id : String) (B : List Nat)
    (old : DocumentLocation) (hb : old.isBlob = false)
    (hsize : B.length ≤ s.blobThreshold) (hlen : B.length < 4294967296)
    (hoff : DATA_HEADER_SIZE ≤ old.offset)
    (hin : old.offset + SLOT_HEADER_SIZE ≤ s.file.length)
    (hfree : ∀ fs ∈ s.freeList, DATA_HEADER_SIZE ≤ fs.offset)
    (hnext : DATA_HEADER_SIZE ≤ s.header.nextSlotOffset) :
    (B.length + SLOT_HEADER_SIZE ≤ old.slabSize →
      (updateUnlocked s id B old).2 =
        .ok ⟨old.offset, B.length, old.slabSize, false⟩ ∧
      (updateUnlocked s id B old).1.freeList = s.freeList ∧
      (updateUnlocked s id B old).1.header.nextSlotOffset =
        s.header.nextSlotOffset ∧
      readSlot (updateUnlocked s id B old).1.file old.offset B.length =
        .ok B) ∧
    (old.slabSize < B.length + SLOT_HEADER_SIZE →
      ∃ f1, markSlotFree s.file old.offset = .ok f1 ∧
        readU32 f1 old.offset &&& FLAG_ACTIVE = 0 ∧
        (updateUnlocked s id B old).2 =
          .ok ⟨(allocateSlot (s.freeList ++ [⟨old.offset, old.slabSize⟩])
                  s.header.nextSlotOffset B.length).1.offset, B.length,
               (allocateSlot (s.freeList ++ [⟨old.offset, old.slabSize⟩])
                  s.header.nextSlotOffset B.length).1.slabSize, false⟩ ∧
        (updateUnlocked s id B old).1.freeList =
          (allocateSlot (s.freeList ++ [⟨old.offset, old.slabSize⟩])
            s.header.nextSlotOffset B.length).2 ∧
        readSlot (updateUnlocked s id B old).1.file
          (allocateSlot (s.freeList ++ [⟨old.offset, old.slabSize⟩])
            s.header.nextSlotOffset B.length).1.offset B.length = .ok B) := by
  have hbl : ¬ (B.length > s.blobThreshold) := by omega
  constructor
  · intro hfit
    unfold updateUnlocked
    simp only [hb, Bool.false_eq_true, if_false, if_neg hbl, if_pos hfit]
    and_intros <;>
      first
      | simp
      | (rw [readSlot_flush _ _ _ hoff];
         exact readSlot_writeSlot_self s.file old.offset old.slabSize false hlen)
  · intro hnofit
    have hf1 := markSlotFree_ok hin
    refine ⟨_, hf1, markSlotFree_clears hf1, ?_⟩
    unfold updateUnlocked
    simp only [hb, Bool.false_eq_true, if_false, if_neg hbl,
      if_neg (by omega : ¬ (B.length + SLOT_HEADER_SIZE ≤ old.slabSize)), hf1]
    unfold allocWriteInline
    refine ⟨rfl, ?_, ?_⟩
    · simp
    · have hge : DATA_HEADER_SIZE ≤ (allocateSlot
          (s.freeList ++ [⟨old.offset, old.slabSize⟩])
          s.header.nextSlotOffset B.length).1.offset := by
        rcases allocateSlot_offset_cases
          (s.freeList ++ [⟨old.offset, old.slabSize⟩])
          s.header.nextSlotOffset B.length with ⟨fs, hmem, he⟩ | he
        · rw [he]
          rcases List.mem_append.mp hmem with hm | hm
          · exact hfree fs hm
          · rw [show fs = ⟨old.offset, old.slabSize⟩ by
              simpa using hm]
            exact hoff
        · rw [he]; exact hnext
      rw [readSlot_flush _ _ _ hge]
      exact readSlot_writeSlot_self _ _ _ false hlen

theorem coveredLoop_some_all_indexed
    (sec : List (String × List (String × List String))) :
    ∀ (fl : List (String × JSVal)) (c0 : List String) (cov : Bool),
      (∀ kv ∈ fl, (getAssoc sec kv.1).isSome) →
      coveredLoop sec fl (some c0) cov = none ∨
        ∃ c, coveredLoop sec fl (some c0) cov = some (some c, cov) := by
  intro fl
  induction fl with
  | nil => exact fun c0 cov _ => Or.inr ⟨c0, rfl⟩
  | cons kv rest ih =>
    intro c0 cov h
    obtain ⟨fi, hfi⟩ := Option.isSome_iff_exists.mp
      (h kv (List.mem_cons_self kv rest))
    rw [coveredLoop]
    simp only [hfi]
    cases hm : getAssoc fi (serializeIndexValue kv.2) with
    | none => exact Or.inl rfl
    | some m =>
      exact ih (c0.filter fun id => m.contains id) cov
        (fun kv2 hk2 => h kv2 (List.mem_cons_of_mem kv hk2))

/-- Claim C7 counterexample: the empty filter has all (zero) of its keys
secondary-indexed, yet `findIds({})` reads every document: with one
document in the collection and no secondary indexes it performs one
document read (while `count` with an empty filter short-circuits and
performs none). -/
theorem claim_C7_counterexample :
    (collFindIdsReads ⟨[("a", ⟨64, 2, 1024, false⟩)], []⟩ []
        (fun _ _ => .objV [])).2 = 1 ∧
    (collCountReads ⟨[("a", ⟨64, 2, 1024, false⟩)], []⟩ []
        (fun _ _ => .objV [])).2 = 0 := by
  constructor <;> rfl

/-- Claim C7, amended to non-empty filters: if the filter has at least one
entry and every filter key is a secondary-indexed path, both
`findIds(filter)` and `count(filter)` perform zero document reads — the
`reader` callback (`readWithCache`, i.e. the storage read path) is never
invoked. -/
theorem claim_C7_amended (im : IndexManagerState)
    (filter : List (String × JSVal))
    (reader : String → DocumentLocation → JSVal) (hne : filter ≠ [])
    (hcov : ∀ kv ∈ filter, (getAssoc im.secondaryIndexes kv.1).isSome) :
    (collFindIdsReads im filter reader).2 = 0 ∧
    (collCountReads im filter reader).2 = 0 := by
  obtain ⟨kv0, rest, rfl⟩ : ∃ kv0 rest, filter = kv0 :: rest := by
    cases filter with
    | nil => exact absurd rfl hne
    | cons a b => exact ⟨a, b, rfl⟩
  obtain ⟨fi, hfi⟩ := Option.isSome_iff_exists.mp
    (hcov kv0 (List.mem_cons_self kv0 rest))
  have hrest : ∀ kv ∈ rest, (getAssoc im.secondaryIndexes kv.1).isSome :=
    fun kv hk => hcov kv (List.mem_cons_of_mem kv0 hk)
  constructor
  · unfold collFindIdsReads queryIdsCounted
    rw [coveredLoop]
    simp only [hfi]
    cases hm : getAssoc fi (serializeIndexValue kv0.2) with
    | none => rfl
    | some m =>
      have hred : (match some m with
          | some matching => coveredLoop im.secondaryIndexes rest (some matching) true
          | none => (none : Option (Option (List String) × Bool))) =
            coveredLoop im.secondaryIndexes rest (some m) true := rfl
      rw [hred]
      rcases coveredLoop_some_all_indexed im.secondaryIndexes rest m
          true hrest with hc | ⟨c, hc⟩
      all_goals simp only [hc]
  · unfold collCountReads
    rw [if_neg (by simp)]
    unfold countCounted
    rw [coveredLoop]
    simp only [hfi]
    cases hm : getAssoc fi (serializeIndexValue kv0.2) with
    | none => rfl
    | some m =>
      have hred : (match some m with
          | some matching => coveredLoop im.secondaryIndexes rest (some matching) true
          | none => (none : Option (Option (List String) × Bool))) =
            coveredLoop im.secondaryIndexes rest (some m) true := rfl
      rw [hred]
      rcases coveredLoop_some_all_indexed im.secondaryIndexes rest m
          true hrest with hc | ⟨c, hc⟩
      all_goals simp only [hc]

theorem claim_C7_amended_witness :
    (collFindIdsReads ⟨[("a", ⟨64, 2, 1024, false⟩)], [("f", [])]⟩
        [("f", .nullV)] (fun _ _ => .objV [])).2 = 0 ∧
    (collCountReads ⟨[("a", ⟨64, 2, 1024, false⟩)], [("f", [])]⟩
        [("f", .nullV)] (fun _ _ => .objV [])).2 = 0 :=
  claim_C7_amended _ _ _ (by simp)
    (by
      intro kv hk
      rw [List.mem_singleton.mp hk]
      rfl)

theorem monoStep_refl (s : StorageState) : MonoStep s s :=
  fun h => ⟨h, le_refl _, le_refl _⟩

@[simp] theorem flushMetadata_header (s : StorageState) :
    (flushMetadata s).header = s.header := by
  unfold flushMetadata writeHeader
  split <;> rfl

theorem mono_allocWriteInline (s : StorageState) (B : List Nat) :
    MonoStep s (allocWriteInline s B).1 := by
  intro hs
  simp only [allocWriteInline]
  rcases allocateSlot_offset_cases s.freeList s.header.nextSlotOffset B.length
    with ⟨fs, _, he⟩ | he <;> rw [he] <;> unfold SubInv at * <;>
    refine ⟨?_, ?_, ?_⟩ <;> simp <;> omega

theorem mono_writeBlobReferenceSlot (s : StorageState) (ref : BlobRef) :
    MonoStep s (writeBlobReferenceSlot s ref).1 := by
  intro hs
  simp only [writeBlobReferenceSlot]
  rcases allocateSlot_offset_cases s.freeList s.header.nextSlotOffset
    (renderBlobRef ref).length with ⟨fs, _, he⟩ | he <;> rw [he] <;>
    unfold SubInv at * <;> refine ⟨?_, ?_, ?_⟩ <;> simp <;> omega

theorem mono_writeBlobForInsertUnlocked (s : StorageState) (id : String)
    (B : List Nat) : MonoStep s (writeBlobForInsertUnlocked s id B).1 := by
  intro hs
  simp only [writeBlobForInsertUnlocked, SubInv, flushIfNotBatching_header,
    markMetadataDirty_header]
  exact mono_writeBlobReferenceSlot (writeBlobFile s (id ++ ".blob") B).1
    (writeBlobFile s (id ++ ".blob") B).2 hs

theorem mono_writeUnlocked (s : StorageState) (id : String) (B : List Nat) :
    MonoStep s (writeUnlocked s id B).1 := by
  intro hs
  simp only [writeUnlocked]
  split
  · exact mono_writeBlobForInsertUnlocked s id B hs
  · simp only [SubInv, flushIfNotBatching_header, markMetadataDirty_header]
    exact mono_allocWriteInline s B hs

theorem mono_writeBlobForUpdateUnlocked (s : StorageState) (id : String)
    (B : List Nat) : MonoStep s (writeBlobForUpdateUnlocked s id B).1 := by
  intro hs
  simp only [writeBlobForUpdateUnlocked]
  exact mono_writeBlobReferenceSlot (writeBlobFile s (id ++ ".blob") B).1
    (writeBlobFile s (id ++ ".blob") B).2 hs

theorem mono_updateBlobReferenceUnlocked (s : StorageState) (id : String)
    (B : List Nat) (old : DocumentLocation) :
    MonoStep s (updateBlobReferenceUnlocked s id B old).1 := by
  intro hs
  simp only [updateBlobReferenceUnlocked]
  split
  · exact ⟨hs, le_refl _, le_refl _⟩
  · split
    · exact ⟨hs, le_refl _, le_refl _⟩
    · exact mono_writeBlobReferenceSlot _
        (writeBlobFile s (id ++ ".blob") B).2 hs

theorem mono_updateUnlocked (s : StorageState) (id : String) (B : List Nat)
    (old : DocumentLocation) : MonoStep s (updateUnlocked s id B old).1 := by
  intro hs
  simp only [updateUnlocked]
  split
  · split
    · exact ⟨hs, le_refl _, le_refl _⟩
    · split
      · split
        · exact mono_updateBlobReferenceUnlocked s id B old hs
        · simp only [SubInv, flushIfNotBatching_header, markMetadataDirty_header]
          exact mono_updateBlobReferenceUnlocked s id B old hs
      · split
        · exact ⟨hs, le_refl _, le_refl _⟩
        · simp only [SubInv, flushIfNotBatching_header, markMetadataDirty_header]
          exact mono_allocWriteInline _ B hs
  · split
    · split
      · exact ⟨hs, le_refl _, le_refl _⟩
      · simp only [SubInv, flushIfNotBatching_header, markMetadataDirty_header]
        exact mono_writeBlobForUpdateUnlocked _ id B hs
    · split
      · simp only [SubInv, flushIfNotBatching_header, markMetadataDirty_header]
        exact ⟨hs, le_refl _, le_refl _⟩
      · split
        · exact ⟨hs, le_refl _, le_refl _⟩
        · simp only [SubInv, flushIfNotBatching_header, markMetadataDirty_header]
          exact mono_allocWriteInline _ B hs

theorem mono_finishDelete (s : StorageState) (loc : DocumentLocation) :
    MonoStep s (finishDelete s loc).1 := by
  intro hs
  unfold finishDelete
  split
  · exact ⟨hs, le_refl _, le_refl _⟩
  · simp only [SubInv, flushIfNotBatching_header, markMetadataDirty_header]
    exact ⟨hs, le_refl _, le_refl _⟩

theorem mono_deleteUnlocked (s : StorageState) (loc : DocumentLocation) :
    MonoStep s (deleteUnlocked s loc).1 := by
  intro hs
  simp only [deleteUnlocked]
  split
  · split
    · exact ⟨hs, le_refl _, le_refl _⟩
    · exact mono_finishDelete _ loc hs
  · exact mono_finishDelete _ loc hs

theorem mono_writeManyFallback (items : List (String × List Nat)) :
    ∀ s : StorageState,
      SubInv s →
        SubInv (writeManyFallback s items).1 ∧
          s.header.fileSize ≤ (writeManyFallback s items).1.header.fileSize ∧
          s.header.nextSlotOffset ≤
            (writeManyFallback s items).1.header.nextSlotOffset := by
  induction items with
  | nil => exact fun s hs => ⟨hs, le_refl _, le_refl _⟩
  | cons item rest ih =>
    intro s hs
    simp only [writeManyFallback]
    obtain ⟨h1, h2, h3⟩ := mono_writeUnlocked s item.1 item.2 hs
    obtain ⟨h4, h5, h6⟩ := ih (writeUnlocked s item.1 item.2).1 h1
    exact ⟨h4, le_trans h2 h5, le_trans h3 h6⟩

theorem mono_writeMany (s : StorageState) (items : List (String × List Nat)) :
    MonoStep s (writeMany s items).1 := by
  intro hs
  simp only [writeMany]
  split
  · exact ⟨hs, le_refl _, le_refl _⟩
  · split
    · obtain ⟨h1, h2, h3⟩ := mono_writeManyFallback items
        { s with batchDepth := s.batchDepth + 1 } hs
      split
      · simp only [SubInv, flushMetadata_header]
        exact ⟨h1, h2, h3⟩
      · exact ⟨h1, h2, h3⟩
    · simp only [SubInv, flushIfNotBatching_header, markMetadataDirty_header]
      unfold SubInv at hs
      and_intros <;> first | trivial | omega

theorem mono_insertBody (c : CollState) (id : String) (d : JSVal) :
    MonoStep c.storage (insertBody c id d).storage := by
  intro hs
  simp only [insertBody]
  exact mono_writeUnlocked (recordParse c d).storage id (encodeDoc d) hs

theorem mono_collInsert (c : CollState) (id : String) (d : JSVal) :
    MonoStep c.storage (collInsert c id d).1.storage := by
  intro hs
  unfold collInsert
  split
  · exact ⟨hs, le_refl _, le_refl _⟩
  · exact mono_insertBody c id d hs

theorem mono_updateBody (c : CollState) (id : String) (d : JSVal)
    (oldLoc : DocumentLocation) :
    MonoStep c.storage (updateBody c id d oldLoc).1.storage := by
  intro hs
  simp only [updateBody]
  split
  · exact ⟨hs, le_refl _, le_refl _⟩
  · split
    · exact mono_updateUnlocked (recordParse c d).storage id (encodeDoc d)
        oldLoc hs
    · exact mono_updateUnlocked (recordParse c d).storage id (encodeDoc d)
        oldLoc hs

theorem mono_collUpdate (c : CollState) (id : String) (d : JSVal) :
    MonoStep c.storage (collUpdate c id d).1.storage := by
  intro hs
  unfold collUpdate
  split
  · exact ⟨hs, le_refl _, le_refl _⟩
  · exact mono_updateBody c id d _ hs

theorem mono_collUpsert (c : CollState) (id : String) (d : JSVal) :
    MonoStep c.storage (collUpsert c id d).1.storage := by
  intro hs
  unfold collUpsert
  split
  · exact mono_updateBody c id d _ hs
  · exact mono_insertBody c id d hs

theorem mono_collDelete (c : CollState) (id : String) :
    MonoStep c.storage (collDelete c id).1.storage := by
  intro hs
  unfold collDelete
  split
  · exact ⟨hs, le_refl _, le_refl _⟩
  · next loc heq0 =>
    split
    · exact ⟨hs, le_refl _, le_refl _⟩
    · split
      · next s1 e heq =>
        have h := mono_deleteUnlocked c.storage loc hs
        rw [heq] at h
        exact h
      · next s1 heq =>
        have h := mono_deleteUnlocked c.storage loc hs
        rw [heq] at h
        exact h

theorem insertManyFold_storage
    (l : List ((String × JSVal) × DocumentLocation)) :
    ∀ c0 : CollState,
      (l.foldl (fun acc p =>
        { acc with
            im := addDocument acc.im p.1.1 p.2 p.1.2,
            cache := cacheSet acc.cacheSize acc.cache p.1.1 p.1.2 }) c0).storage
        = c0.storage := by
  induction l with
  | nil => exact fun c0 => rfl
  | cons p rest ih =>
    intro c0
    rw [List.foldl_cons, ih]

theorem recordParseFold_storage (items : List (String × JSVal)) :
    ∀ c : CollState,
      (items.foldl (fun acc it => recordParse acc it.2) c).storage =
        c.storage := by
  induction items with
  | nil => exact fun c => rfl
  | cons it rest ih =>
    intro c
    rw [List.foldl_cons]
    exact ih (recordParse c it.2)

theorem mono_collInsertMany (c : CollState) (items : List (String × JSVal)) :
    MonoStep c.storage (collInsertMany c items).1.storage := by
  intro hs
  unfold collInsertMany
  split
  · exact ⟨hs, le_refl _, le_refl _⟩
  · split
    · exact ⟨hs, le_refl _, le_refl _⟩
    · rw [insertManyFold_storage, recordParseFold_storage]
      exact mono_writeMany c.storage
        (items.map fun it => (it.1, encodeDoc it.2)) hs

theorem mono_applyBatchOp (c : CollState) (op : BatchOp) :
    MonoStep c.storage (applyBatchOp c op).1.storage := by
  intro hs
  cases op with
  | insertB id d => exact mono_collInsert c id d hs
  | updateB id d => exact mono_collUpdate c id d hs
  | upsertB id d => exact mono_collUpsert c id d hs
  | deleteB id =>
    simp only [applyBatchOp]
    split
    · next c1 b heq =>
      have h := mono_collDelete c id hs
      rw [heq] at h
      exact h
    · next c1 e heq =>
      have h := mono_collDelete c id hs
      rw [heq] at h
      exact h

theorem mono_batchRun (ops : List BatchOp) :
    ∀ c : CollState, MonoStep c.storage (batchRun c ops).1.storage := by
  induction ops with
  | nil => exact fun c hs => ⟨hs, le_refl _, le_refl _⟩
  | cons op rest ih =>
    intro c hs
    rw [batchRun]
    split
    · next c1 heq =>
      obtain ⟨h1, h2, h3⟩ := by
        have := mono_applyBatchOp c op hs
        rw [heq] at this
        exact this
      obtain ⟨h4, h5, h6⟩ := ih c1 h1
      exact ⟨h4, le_trans h2 h5, le_trans h3 h6⟩
    · next c1 e heq =>
      have := mono_applyBatchOp c op hs
      rw [heq] at this
      exact this

theorem mono_collBatch (c : CollState) (ops : List BatchOp) :
    MonoStep c.storage (collBatch c ops).1.storage := by
  intro hs
  simp only [collBatch]
  obtain ⟨h1, h2, h3⟩ := mono_batchRun ops
    { c with storage := { c.storage with batchDepth := c.storage.batchDepth + 1 } }
    hs
  split
  · simp only [SubInv, flushMetadata_header]
    exact ⟨h1, h2, h3⟩
  · exact ⟨h1, h2, h3⟩

theorem mono_applyCOp (c : CollState) (op : COp) (hop : WritePathOp op) :
    MonoStep c.storage (applyCOp c op).storage := by
  cases op with
  | insertOp id d => exact mono_collInsert c id d
  | updateOp id d => exact mono_collUpdate c id d
  | deleteOp id => exact mono_collDelete c id
  | insertManyOp items => exact mono_collInsertMany c items
  | batchOp ops => exact mono_collBatch c ops
  | upsertOp id d => exact absurd hop fun h => h
  | getOp id => exact absurd hop fun h => h
  | resetOp => exact absurd hop fun h => h
  | compactOp => exact absurd hop fun h => h

theorem mono_applyOps (l : List COp) :
    ∀ c : CollState, (∀ op ∈ l, WritePathOp op) →
      MonoStep c.storage (applyOps c l).storage := by
  induction l with
  | nil => exact fun c _ hs => ⟨hs, le_refl _, le_refl _⟩
  | cons op rest ih =>
    intro c hall hs
    obtain ⟨h1, h2, h3⟩ := mono_applyCOp c op
      (hall op (List.mem_cons_self op rest)) hs
    obtain ⟨h4, h5, h6⟩ := ih (applyCOp c op)
      (fun op2 h2 => hall op2 (List.mem_cons_of_mem op h2)) h1
    exact ⟨h4, le_trans h2 h5, le_trans h3 h6⟩

/-- Claim C9: along every sequence of public write-path operations (insert,
update, delete, batch, insertMany/writeMany — no compact or reset) starting
from a fresh collection, the header's `fileSize` and `nextSlotOffset` are
monotonically non-decreasing: the state after any prefix has `fileSize` and
`nextSlotOffset` no larger than the state after the full sequence.  In
particular deletes (which clear the ACTIVE bit and push the slot onto the
free list) never shrink the file or move `nextSlotOffset` backwards. -/
theorem claim_C9 (bt cs : Nat) (pre suf : List COp)
    (hall : ∀ op ∈ pre ++ suf, WritePathOp op) :
    (applyOps (initialColl bt cs) pre).storage.header.fileSize ≤
      (applyOps (initialColl bt cs) (pre ++ suf)).storage.header.fileSize ∧
    (applyOps (initialColl bt cs) pre).storage.header.nextSlotOffset ≤
      (applyOps (initialColl bt cs) (pre ++ suf)).storage.header.nextSlotOffset := by
  have happ : applyOps (initialColl bt cs) (pre ++ suf) =
      applyOps (applyOps (initialColl bt cs) pre) suf := by
    unfold applyOps
    exact List.foldl_append _ _ pre suf
  have hpre := mono_applyOps pre (initialColl bt cs)
    (fun op h => hall op (List.mem_append_left suf h)) rfl
  obtain ⟨h4, h5, h6⟩ := mono_applyOps suf (applyOps (initialColl bt cs) pre)
    (fun op h => hall op (List.mem_append_right pre h)) hpre.1
  rw [happ]
  exact ⟨h5, h6⟩

theorem claim_C9_witness :
    (applyOps (initialColl 1048576 0) []).storage.header.fileSize ≤
      (applyOps (initialColl 1048576 0)
        ([] ++ [.insertOp "a" (.objV [])])).storage.header.fileSize ∧
    (applyOps (initialColl 1048576 0) []).storage.header.nextSlotOffset ≤
      (applyOps (initialColl 1048576 0)
        ([] ++ [.insertOp "a" (.objV [])])).storage.header.nextSlotOffset :=
  claim_C9 1048576 0 [] [.insertOp "a" (.objV [])]
    (by
      intro op h
      simp only [List.nil_append, List.mem_singleton] at h
      rw [h]
      trivial)

/-! ### List-level plumbing -/

theorem set_self_getElem (l : List Nat) (i : Nat) (x : Nat)
    (hi : i < l.length) (hx : l.get ⟨i, hi⟩ = x) : l.set i x = l := by
  induction l generalizing i with
  | nil => rfl
  | cons a rest ih =>
    cases i with
    | zero => simp_all [List.set]
    | succ j =>
      simp only [List.set]
      rw [ih j (by simpa using hi) (by simpa using hx)]

theorem slabLens_set (slabs : List (List Nat)) (i : Nat) (b : List Nat)
    (hi : i < slabs.length) (hb : b.length = (slabs.get ⟨i, hi⟩).length) :
    slabLens (slabs.set i b) = slabLens slabs := by
  unfold slabLens
  rw [List.map_set]
  exact set_self_getElem _ i b.length (by simpa using hi) (by simp [hb])

theorem flatten_decomp (slabs : List (List Nat)) (i : Nat)
    (hi : i < slabs.length) :
    slabs.flatten = (slabs.take i).flatten ++ slabs.get ⟨i, hi⟩ ++
      (slabs.drop (i + 1)).flatten := by
  conv_lhs => rw [← List.take_append_drop i slabs]
  rw [List.flatten_append, List.drop_eq_getElem_cons hi, List.flatten_cons]
  simp [List.append_assoc]

theorem flatten_set (slabs : List (List Nat)) (i : Nat) (b : List Nat)
    (hi : i < slabs.length) :
    (slabs.set i b).flatten = (slabs.take i).flatten ++ b ++
      (slabs.drop (i + 1)).flatten := by
  rw [List.set_eq_take_append_cons_drop, if_pos hi, List.flatten_append]
  simp [List.append_assoc]

theorem flatten_take_length (slabs : List (List Nat)) (i : Nat) :
    (slabs.take i).flatten.length = ((slabLens slabs).take i).sum := by
  rw [List.length_flatten]
  unfold slabLens
  rw [List.map_take]

theorem mem_set_cases {b x : List Nat} {slabs : List (List Nat)} {i : Nat}
    (hx : x ∈ slabs.set i b) : x = b ∨ x ∈ slabs := by
  rcases List.mem_or_eq_of_mem_set hx with h | h
  · exact Or.inr h
  · exact Or.inl h

theorem validBoundary_of_lens_eq {slabs slabs' : List (List Nat)}
    (hl : slabLens slabs' = slabLens slabs) {off sz : Nat}
    (h : ValidBoundary slabs off sz) : ValidBoundary slabs' off sz := by
  obtain ⟨i, hi, hoff, hsz⟩ := h
  have hlen : slabs'.length = slabs.length := by
    have := congrArg List.length hl
    simpa [slabLens] using this
  have hi' : i < slabs'.length := by omega
  refine ⟨i, hi', ?_, ?_⟩
  · rw [hoff]
    unfold boundaryAt
    rw [hl]
  · have h2 : (slabLens slabs')[i]? = (slabLens slabs)[i]? := by rw [hl]
    have h1 : some (slabs'[i].length) = some (slabs[i].length) := by
      simpa [slabLens, List.getElem?_map, List.getElem?_eq_getElem, hi, hi']
        using h2
    simp only [List.get_eq_getElem]
    rw [Option.some.inj h1]
    simpa using hsz

theorem validBoundary_append {slabs : List (List Nat)} {l2 : List (List Nat)}
    {off sz : Nat} (h : ValidBoundary slabs off sz) :
    ValidBoundary (slabs ++ l2) off sz := by
  obtain ⟨i, hi, hoff, hsz⟩ := h
  refine ⟨i, by simp; omega, ?_, ?_⟩
  · rw [hoff]
    unfold boundaryAt slabLens
    rw [List.map_append, List.take_append_of_le_length (by simp; omega)]
  · rw [← hsz]
    simp only [List.get_eq_getElem]
    exact congrArg List.length (List.getElem_append_left hi)

theorem validBoundary_append_new {slabs : List (List Nat)} {b : List Nat}
    {sz : Nat} (hb : b.length = sz) :
    ValidBoundary (slabs ++ [b]) (DATA_HEADER_SIZE + (slabLens slabs).sum)
      sz := by
  refine ⟨slabs.length, by simp, ?_, ?_⟩
  · unfold boundaryAt slabLens
    rw [List.map_append, List.take_append_of_le_length (by simp),
      List.take_of_length_le (by simp)]
  · simp only [List.get_eq_getElem]
    rw [List.getElem_append_right (le_refl _)]
    simpa using hb

theorem sum_decomp (l : List Nat) (i : Nat) (hi : i < l.length) :
    l.sum = (l.take i).sum + l[i] + (l.drop (i + 1)).sum := by
  conv_lhs => rw [← List.take_append_drop i l, List.sum_append,
    List.drop_eq_getElem_cons hi, List.sum_cons]
  omega

theorem validBoundary_in_file {slabs : List (List Nat)} {off sz : Nat}
    (h : ValidBoundary slabs off sz) :
    off + sz ≤ DATA_HEADER_SIZE + (slabLens slabs).sum := by
  obtain ⟨i, hi, hoff, hsz⟩ := h
  have hl : i < (slabLens slabs).length := by simpa [slabLens] using hi
  have := sum_decomp (slabLens slabs) i hl
  have hgl : (slabLens slabs)[i] = sz := by
    rw [← hsz]
    simp [slabLens]
  rw [hoff]
  unfold boundaryAt
  omega

theorem goodSlab_pos {slabs : List (List Nat)} (hg : ∀ b ∈ slabs, GoodSlab b)
    {off sz : Nat} (h : ValidBoundary slabs off sz) :
    SLOT_HEADER_SIZE ≤ sz := by
  obtain ⟨i, hi, _, hsz⟩ := h
  rw [← hsz]
  exact (hg _ (List.get_mem slabs i hi)).1

theorem readU32_append_left (A B : List Nat) (k : Nat) (h : k + 4 ≤ A.length) :
    readU32 (A ++ B) k = readU32 A k := by
  unfold readU32
  rw [List.getD_append _ _ _ _ (by omega), List.getD_append _ _ _ _ (by omega),
    List.getD_append _ _ _ _ (by omega), List.getD_append _ _ _ _ (by omega)]

theorem goodSlab_slotBuffer (data : List Nat) (slab : Nat) (blob : Bool)
    (hfit : data.length + SLOT_HEADER_SIZE ≤ slab) :
    GoodSlab (slotBuffer data slab blob) := by
  constructor
  · rw [slotBuffer_length blob hfit]
    omega
  · rw [slotBuffer_length blob hfit, slotBuffer_decomp,
      List.append_assoc,
      readU32_append_left _ _ 8 (by rw [slotHeaderBytes_length]; omega),
      readU32_slotHeaderBytes_8]

theorem goodSlab_markFree (b : List Nat) (v : Nat) (hb : GoodSlab b) :
    GoodSlab (writeAt b 0 (u32Bytes v)) := by
  have hlen : (writeAt b 0 (u32Bytes v)).length = b.length := by
    apply length_writeAt_of_le
    have := hb.1
    unfold SLOT_HEADER_SIZE at this
    simp
    omega
  constructor
  · rw [hlen]; exact hb.1
  · rw [hlen, ← readU32_slice _ 8 4 (le_refl 4),
      slice_writeAt_above b (u32Bytes v) 4 (by simp),
      readU32_slice _ 8 4 (le_refl 4)]
    exact hb.2

/-- Writing `d` at a slab boundary, with `d` no longer than the slab,
replaces the slab's prefix and leaves everything else in place. -/
theorem writeAt_boundary {f h : List Nat} {slabs : List (List Nat)}
    (hfile : f = h ++ slabs.flatten) (hh : h.length = DATA_HEADER_SIZE)
    {i : Nat} (hi : i < slabs.length) (d : List Nat)
    (hd : d.length ≤ (slabs.get ⟨i, hi⟩).length) :
    writeAt f (boundaryAt slabs i) d =
      h ++ (slabs.set i (writeAt (slabs.get ⟨i, hi⟩) 0 d)).flatten := by
  have hA : (h ++ (slabs.take i).flatten).length = boundaryAt slabs i := by
    rw [List.length_append, flatten_take_length, hh]
    rfl
  rw [hfile, flatten_decomp slabs i hi, flatten_set slabs i _ hi,
    show h ++ ((slabs.take i).flatten ++ slabs.get ⟨i, hi⟩ ++
        (slabs.drop (i + 1)).flatten) =
      (h ++ (slabs.take i).flatten) ++ slabs.get ⟨i, hi⟩ ++
        (slabs.drop (i + 1)).flatten by simp [List.append_assoc],
    show boundaryAt slabs i = (h ++ (slabs.take i).flatten).length + 0 by
      omega,
    writeAt_inside (by omega)]
  simp [List.append_assoc]

theorem length_file_of_tiling {f h : List Nat} {slabs : List (List Nat)}
    (hfile : f = h ++ slabs.flatten) (hh : h.length = DATA_HEADER_SIZE) :
    f.length = DATA_HEADER_SIZE + (slabLens slabs).sum := by
  rw [hfile, List.length_append, hh, List.length_flatten]
  rfl

theorem writeAt_end_of_tiling {f h : List Nat} {slabs : List (List Nat)}
    (hfile : f = h ++ slabs.flatten) (hh : h.length = DATA_HEADER_SIZE)
    (d : List Nat) :
    writeAt f (DATA_HEADER_SIZE + (slabLens slabs).sum) d =
      h ++ (slabs ++ [d]).flatten := by
  rw [show DATA_HEADER_SIZE + (slabLens slabs).sum = f.length from
      (length_file_of_tiling hfile hh).symm,
    writeAt_append, hfile, List.flatten_append]
  simp

/-- `markSlotFree` at a valid boundary: succeeds, preserves the tiling
shape, the slab lengths and slab goodness. -/
theorem markSlotFree_at_boundary {f h : List Nat} {slabs : List (List Nat)}
    (hfile : f = h ++ slabs.flatten) (hh : h.length = DATA_HEADER_SIZE)
    {off sz : Nat} (hvb : ValidBoundary slabs off sz)
    (hg : ∀ b ∈ slabs, GoodSlab b) :
    ∃ slabs', markSlotFree f off = .ok (h ++ slabs'.flatten) ∧
      slabLens slabs' = slabLens slabs ∧ (∀ b ∈ slabs', GoodSlab b) := by
  obtain ⟨i, hi, hoff, hsz⟩ := hvb
  have hszgood := (hg _ (List.get_mem slabs i hi)).1
  have he16 : SLOT_HEADER_SIZE = 16 := rfl
  have hin : off + SLOT_HEADER_SIZE ≤ f.length := by
    have h1 := validBoundary_in_file ⟨i, hi, hoff, hsz⟩
    have h2 := length_file_of_tiling hfile hh
    omega
  refine ⟨slabs.set i (writeAt (slabs.get ⟨i, hi⟩) 0
      (u32Bytes (readU32 f off &&& 4294967294))), ?_, ?_, ?_⟩
  · rw [markSlotFree_ok hin, hoff,
      writeAt_boundary hfile hh hi _
        (by simp only [u32Bytes_length]; omega)]
  · apply slabLens_set slabs i _ hi
    apply length_writeAt_of_le
    simp only [u32Bytes_length, Nat.zero_add]
    omega
  · intro b hb
    rcases mem_set_cases hb with hb | hb
    · rw [hb]
      exact goodSlab_markFree _ _ (hg _ (List.get_mem slabs i hi))
    · exact hg _ hb

theorem takeFirstFit_spec {req : Nat} :
    ∀ {fl : List FreeSlot} {fs : FreeSlot} {rest : List FreeSlot},
      takeFirstFit req fl = some (fs, rest) →
        fs ∈ fl ∧ req ≤ fs.slabSize ∧ rest.Sublist fl := by
  intro fl
  induction fl with
  | nil => intro fs rest h; simp [takeFirstFit] at h
  | cons x xs ih =>
    intro fs rest h
    rw [takeFirstFit] at h
    split at h
    · have he := (Option.some.injEq _ _).mp h
      have hfs : fs = x := congrArg Prod.fst he.symm
      have hrest : rest = xs := congrArg Prod.snd he.symm
      subst hfs; subst hrest
      exact ⟨List.mem_cons_self _ _, by assumption,
        List.sublist_cons_self _ _⟩
    · rcases Option.map_eq_some'.mp h with ⟨p, hp, hpe⟩
      have hfs : fs = p.1 := (congrArg Prod.fst hpe).symm
      have hrest : rest = x :: p.2 := (congrArg Prod.snd hpe).symm
      subst hfs; subst hrest
      obtain ⟨h1, h2, h3⟩ := ih hp
      exact ⟨List.mem_cons_of_mem _ h1, h2, List.Sublist.cons₂ _ h3⟩

theorem allocateSlot_spec (fl : List FreeSlot) (next len : Nat) :
    ((allocateSlot fl next len).1.isReused = true →
      ∃ fs ∈ fl, (allocateSlot fl next len).1 = ⟨fs.offset, fs.slabSize, true⟩ ∧
        selectSlabSize len ≤ fs.slabSize ∧
        (allocateSlot fl next len).2.Sublist fl) ∧
    ((allocateSlot fl next len).1.isReused = false →
      (allocateSlot fl next len).1 = ⟨next, selectSlabSize len, false⟩ ∧
      (allocateSlot fl next len).2 = fl) := by
  unfold allocateSlot
  cases h : takeFirstFit (selectSlabSize len) fl with
  | none => exact ⟨fun hc => by simp at hc, fun _ => ⟨rfl, rfl⟩⟩
  | some p =>
    obtain ⟨fs, rest⟩ := p
    obtain ⟨h1, h2, h3⟩ := takeFirstFit_spec h
    refine ⟨fun _ => ⟨fs, h1, rfl, h2, h3⟩, fun hc => by simp at hc⟩

theorem writeAt_zero_full {Y d : List Nat} (h : d.length = Y.length) :
    writeAt Y 0 d = d := by
  rw [writeAt_of_le d (by omega), List.take_zero, List.nil_append,
    Nat.zero_add, List.drop_eq_nil_of_le (by omega), List.append_nil]

/-- The combined effect of `allocateSlot` followed by `writeSlot` on a
tiled file: the new slot either replaces a free slab in place or extends
the tiling by one slab; boundaries of the original tiling survive, the
remaining free list is still boundary-valid, the written slot sits at a
valid boundary with the payload fitting, and the end of the tiling is
`nextSlotOffset` (reuse) or `offset + slabSize` (fresh). -/
theorem allocWrite_spec (fl : List FreeSlot) (next : Nat) (f h : List Nat)
    (slabs : List (List Nat)) (data : List Nat) (blob : Bool)
    (hfile : f = h ++ slabs.flatten) (hh : h.length = DATA_HEADER_SIZE)
    (hnext : next = DATA_HEADER_SIZE + (slabLens slabs).sum)
    (hgood : ∀ b ∈ slabs, GoodSlab b)
    (hfree : ∀ fs ∈ fl, ValidBoundary slabs fs.offset fs.slabSize) :
    ∃ slabs',
      writeSlot f (allocateSlot fl next data.length).1.offset data
          (allocateSlot fl next data.length).1.slabSize blob =
        h ++ slabs'.flatten ∧
      (∀ b ∈ slabs', GoodSlab b) ∧
      (∀ off sz, ValidBoundary slabs off sz → ValidBoundary slabs' off sz) ∧
      (∀ fs ∈ (allocateSlot fl next data.length).2,
        ValidBoundary slabs' fs.offset fs.slabSize) ∧
      ValidBoundary slabs' (allocateSlot fl next data.length).1.offset
        (allocateSlot fl next data.length).1.slabSize ∧
      data.length + SLOT_HEADER_SIZE ≤
        (allocateSlot fl next data.length).1.slabSize ∧
      DATA_HEADER_SIZE + (slabLens slabs').sum =
        (if (allocateSlot fl next data.length).1.isReused = true then next
         else (allocateSlot fl next data.length).1.offset +
           (allocateSlot fl next data.length).1.slabSize) := by
  have hsel := selectSlabSize_ge data.length
  cases hr : (allocateSlot fl next data.length).1.isReused
  · -- fresh slot at the end of the file
    obtain ⟨ha, hfl⟩ := (allocateSlot_spec fl next data.length).2 hr
    have hfit : data.length + SLOT_HEADER_SIZE ≤
        (allocateSlot fl next data.length).1.slabSize := by
      rw [ha]
      exact hsel
    have hbuf := @slotBuffer_length data
      (allocateSlot fl next data.length).1.slabSize blob hfit
    refine ⟨slabs ++ [slotBuffer data
      (allocateSlot fl next data.length).1.slabSize blob], ?_, ?_, ?_, ?_, ?_,
      hfit, ?_⟩
    · unfold writeSlot
      rw [show (allocateSlot fl next data.length).1.offset =
          DATA_HEADER_SIZE + (slabLens slabs).sum by rw [ha]; exact hnext,
        writeAt_end_of_tiling hfile hh]
    · intro b hb
      rcases List.mem_append.mp hb with hb | hb
      · exact hgood b hb
      · rw [List.mem_singleton.mp hb]
        exact goodSlab_slotBuffer _ _ blob hfit
    · exact fun off sz hv => validBoundary_append hv
    · intro fs hmem
      rw [hfl] at hmem
      exact validBoundary_append (hfree fs hmem)
    · rw [show (allocateSlot fl next data.length).1.offset =
          DATA_HEADER_SIZE + (slabLens slabs).sum by rw [ha]; exact hnext]
      exact validBoundary_append_new hbuf
    · have hoffe : (allocateSlot fl next data.length).1.offset = next := by
        simp [ha]
      simp only [Bool.false_eq_true, if_false]
      unfold slabLens
      rw [List.map_append, List.sum_append]
      simp only [List.map_cons, List.map_nil, List.sum_cons, List.sum_nil,
        Nat.add_zero]
      rw [hbuf, hoffe]
      unfold slabLens at hnext
      omega
  · -- reused free-list entry
    obtain ⟨fs0, hfs0mem, hfs0eq, hreq, hsub⟩ :=
      (allocateSlot_spec fl next data.length).1 hr
    obtain ⟨i, hi, hoff, hsz⟩ := hfree fs0 hfs0mem
    have hofe : (allocateSlot fl next data.length).1.offset = fs0.offset := by
      simp [hfs0eq]
    have hsze : (allocateSlot fl next data.length).1.slabSize =
        fs0.slabSize := by simp [hfs0eq]
    have hfit : data.length + SLOT_HEADER_SIZE ≤
        (allocateSlot fl next data.length).1.slabSize := by
      rw [hsze]
      have h1 := selectSlabSize_ge data.length
      omega
    have hbuf := @slotBuffer_length data
      (allocateSlot fl next data.length).1.slabSize blob hfit
    have hlenpres : (slotBuffer data
        (allocateSlot fl next data.length).1.slabSize blob).length =
        (slabs.get ⟨i, hi⟩).length := by
      rw [hbuf, hsze, hsz]
    have hlens : slabLens (slabs.set i (slotBuffer data
        (allocateSlot fl next data.length).1.slabSize blob)) =
        slabLens slabs := slabLens_set slabs i _ hi hlenpres
    refine ⟨slabs.set i (slotBuffer data
      (allocateSlot fl next data.length).1.slabSize blob), ?_, ?_, ?_, ?_, ?_,
      hfit, ?_⟩
    · unfold writeSlot
      rw [hofe, hoff, writeAt_boundary hfile hh hi _ (by rw [hbuf, hsze, hsz])]
      rw [writeAt_zero_full (by rw [hbuf, hsze, hsz])]
    · intro b hb
      rcases mem_set_cases hb with hb | hb
      · rw [hb]
        exact goodSlab_slotBuffer _ _ blob hfit
      · exact hgood b hb
    · exact fun off sz hv => validBoundary_of_lens_eq hlens hv
    · intro fs hmem
      exact validBoundary_of_lens_eq hlens
        (hfree fs (hsub.mem hmem))
    · refine ⟨i, by simpa using hi, ?_, ?_⟩
      · rw [hofe, hoff]
        unfold boundaryAt
        rw [hlens]
      · simp only [List.get_eq_getElem]
        rw [List.getElem_set_self]
        exact hbuf
    · simp only [if_pos]
      rw [hlens]
      exact hnext.symm

theorem flush_file_tiling {s : StorageState} {h : List Nat}
    {slabs : List (List Nat)} (hfile : s.file = h ++ slabs.flatten)
    (hh : h.length = DATA_HEADER_SIZE) :
    ∃ h2, (flushIfNotBatching s).file = h2 ++ slabs.flatten ∧
      h2.length = DATA_HEADER_SIZE := by
  unfold flushIfNotBatching flushMetadata writeHeader
  split
  · split
    · refine ⟨headerBytes s.header, ?_, by simp [headerBytes_length, DATA_HEADER_SIZE]⟩
      simp only
      rw [hfile, writeAt_of_le _ (by
        simp only [List.length_append, headerBytes_length]
        unfold DATA_HEADER_SIZE at hh
        omega),
        List.take_zero, List.nil_append, Nat.zero_add,
        show (headerBytes s.header).length = h.length by
          simp [headerBytes_length, hh, DATA_HEADER_SIZE],
        List.drop_left]
    · exact ⟨h, hfile, hh⟩
  · exact ⟨h, hfile, hh⟩

theorem tiling_flush {s : StorageState} {slabs : List (List Nat)}
    (ht : Tiling s slabs) : Tiling (flushIfNotBatching s) slabs := by
  obtain ⟨⟨h, hfile, hh⟩, hgood, hnext, hfs⟩ := ht
  refine ⟨flush_file_tiling hfile hh, hgood, ?_, ?_⟩
  · rw [flushIfNotBatching_header]
    exact hnext
  · rw [flushIfNotBatching_header]
    exact hfs

/-- `allocWriteInline` establishes the tiling for an extended/updated slab
list; old boundaries survive, the remaining free list is boundary-valid and
the returned location is a valid, fitting slot. -/
theorem stinv_allocWriteInline (s : StorageState) (B : List Nat)
    (slabs : List (List Nat)) (ht : Tiling s slabs) (hf : FreeOK s slabs) :
    ∃ slabs', Tiling (allocWriteInline s B).1 slabs' ∧
      FreeOK (allocWriteInline s B).1 slabs' ∧
      (∀ off sz, ValidBoundary slabs off sz → ValidBoundary slabs' off sz) ∧
      ValidBoundary slabs' (allocWriteInline s B).2.offset
        (allocWriteInline s B).2.slabSize ∧
      (allocWriteInline s B).2.length + SLOT_HEADER_SIZE ≤
        (allocWriteInline s B).2.slabSize := by
  obtain ⟨⟨h, hfile, hh⟩, hgood, hnext, hfs⟩ := ht
  obtain ⟨slabs', hfile', hgood', hmono, hfree', hvb, hfit, hsum⟩ :=
    allocWrite_spec s.freeList s.header.nextSlotOffset s.file h slabs B false
      hfile hh hnext hgood hf
  simp only [allocWriteInline]
  refine ⟨slabs', ⟨⟨h, hfile', hh⟩, hgood', ?_, ?_⟩, hfree', hmono, hvb, hfit⟩
  · cases hr : (allocateSlot s.freeList s.header.nextSlotOffset
        B.length).1.isReused
    · rw [hr] at hsum
      simp only [Bool.false_eq_true, if_false] at hsum
      exact hsum.symm
    · rw [hr] at hsum
      simp only [eq_self_iff_true, if_true] at hsum
      exact hsum.symm
  · cases hr : (allocateSlot s.freeList s.header.nextSlotOffset
        B.length).1.isReused
    · rfl
    · exact hfs

/-- Same effect for `writeBlobReferenceSlot` (the `refMap` update does not
affect the tiling). -/
theorem stinv_writeBlobReferenceSlot (s : StorageState) (ref : BlobRef)
    (slabs : List (List Nat)) (ht : Tiling s slabs) (hf : FreeOK s slabs) :
    ∃ slabs', Tiling (writeBlobReferenceSlot s ref).1 slabs' ∧
      FreeOK (writeBlobReferenceSlot s ref).1 slabs' ∧
      (∀ off sz, ValidBoundary slabs off sz → ValidBoundary slabs' off sz) ∧
      ValidBoundary slabs' (writeBlobReferenceSlot s ref).2.offset
        (writeBlobReferenceSlot s ref).2.slabSize ∧
      (writeBlobReferenceSlot s ref).2.length + SLOT_HEADER_SIZE ≤
        (writeBlobReferenceSlot s ref).2.slabSize := by
  obtain ⟨⟨h, hfile, hh⟩, hgood, hnext, hfs⟩ := ht
  obtain ⟨slabs', hfile', hgood', hmono, hfree', hvb, hfit, hsum⟩ :=
    allocWrite_spec s.freeList s.header.nextSlotOffset s.file h slabs
      (renderBlobRef ref) true hfile hh hnext hgood hf
  simp only [writeBlobReferenceSlot]
  refine ⟨slabs', ⟨⟨h, hfile', hh⟩, hgood', ?_, ?_⟩, hfree', hmono, hvb, hfit⟩
  · cases hr : (allocateSlot s.freeList s.header.nextSlotOffset
        (renderBlobRef ref).length).1.isReused
    · rw [hr] at hsum
      simp only [Bool.false_eq_true, if_false] at hsum
      exact hsum.symm
    · rw [hr] at hsum
      simp only [eq_self_iff_true, if_true] at hsum
      exact hsum.symm
  · cases hr : (allocateSlot s.freeList s.header.nextSlotOffset
        (renderBlobRef ref).length).1.isReused
    · rfl
    · exact hfs

/-- An in-place `writeSlot` over an existing valid slot keeps the tiling
and all boundaries. -/
theorem stinv_writeSlot_at (s : StorageState) (slabs : List (List Nat))
    (off sz : Nat) (data : List Nat) (blob : Bool) (ht : Tiling s slabs)
    (hvb : ValidBoundary slabs off sz)
    (hfit : data.length + SLOT_HEADER_SIZE ≤ sz) :
    ∃ slabs', Tiling { s with file := writeSlot s.file off data sz blob }
        slabs' ∧ slabLens slabs' = slabLens slabs := by
  obtain ⟨⟨h, hfile, hh⟩, hgood, hnext, hfs⟩ := ht
  obtain ⟨i, hi, hoff, hsz⟩ := hvb
  have hbuf := @slotBuffer_length data sz blob hfit
  have hlens : slabLens (slabs.set i (slotBuffer data sz blob)) =
      slabLens slabs :=
    slabLens_set slabs i _ hi (by rw [hbuf, hsz])
  refine ⟨slabs.set i (slotBuffer data sz blob), ⟨⟨h, ?_, hh⟩, ?_, ?_, hfs⟩,
    hlens⟩
  · simp only
    unfold writeSlot
    rw [hoff, writeAt_boundary hfile hh hi _ (by rw [hbuf, hsz]),
      writeAt_zero_full (by rw [hbuf, hsz])]
  · intro b hb
    rcases mem_set_cases hb with hb | hb
    · rw [hb]
      exact goodSlab_slotBuffer _ _ blob hfit
    · exact hgood b hb
  · rw [show ({ s with file := writeSlot s.file off data sz blob } :
        StorageState).header = s.header from rfl, hnext]
    unfold slabLens at *
    rw [List.map_set]
    rw [show (slotBuffer data sz blob).length = slabs[i].length by
      rw [hbuf]; simp only [List.get_eq_getElem] at hsz; omega]
    rw [set_self_getElem _ i _ (by simpa using hi) (by simp)]

/-- `markSlotFree` at a valid boundary, state-level version. -/
theorem stinv_markSlotFree (s : StorageState) (slabs : List (List Nat))
    {off sz : Nat} (ht : Tiling s slabs) (hvb : ValidBoundary slabs off sz) :
    ∃ f1 slabs', markSlotFree s.file off = .ok f1 ∧
      Tiling { s with file := f1 } slabs' ∧ slabLens slabs' = slabLens slabs := by
  obtain ⟨⟨h, hfile, hh⟩, hgood, hnext, hfs⟩ := ht
  obtain ⟨slabs', hok, hlens, hgood'⟩ :=
    markSlotFree_at_boundary hfile hh hvb hgood
  refine ⟨h ++ slabs'.flatten, slabs', hok, ⟨⟨h, rfl, hh⟩, hgood', ?_, hfs⟩,
    hlens⟩
  rw [show ({ s with file := h ++ slabs'.flatten } : StorageState).header =
    s.header from rfl, hnext, hlens]

theorem locOK_mono {slabs slabs' : List (List Nat)} {loc : DocumentLocation}
    (hm : ∀ off sz, ValidBoundary slabs off sz → ValidBoundary slabs' off sz)
    (h : LocOK slabs loc) : LocOK slabs' loc :=
  ⟨hm _ _ h.1, h.2⟩

theorem tiling_of_eqs {s t : StorageState} {slabs : List (List Nat)}
    (ht : Tiling s slabs) (hfile : t.file = s.file)
    (hn : t.header.nextSlotOffset = s.header.nextSlotOffset)
    (hfs : t.header.fileSize = s.header.fileSize) : Tiling t slabs := by
  obtain ⟨⟨h, hf, hh⟩, hg, h3, h4⟩ := ht
  exact ⟨⟨h, by rw [hfile, hf], hh⟩, hg, by rw [hn]; exact h3,
    by rw [hfs, hn]; exact h4⟩

theorem freeOK_of_eq {s t : StorageState} {slabs : List (List Nat)}
    (hf : FreeOK s slabs) (hfl : t.freeList = s.freeList) : FreeOK t slabs :=
  fun fs hfs => hf fs (by rw [hfl] at hfs; exact hfs)

theorem tileStep_refl {s : StorageState} {slabs : List (List Nat)}
    (ht : Tiling s slabs) (hf : FreeOK s slabs) : TileStep slabs s slabs :=
  ⟨ht, hf, fun _ _ h => h⟩

theorem tileStep_of_eqs {t u : StorageState} {slabs slabs' : List (List Nat)}
    (h : TileStep slabs t slabs') (hfile : u.file = t.file)
    (hn : u.header.nextSlotOffset = t.header.nextSlotOffset)
    (hfs : u.header.fileSize = t.header.fileSize)
    (hfl : u.freeList = t.freeList) : TileStep slabs u slabs' :=
  ⟨tiling_of_eqs h.1 hfile hn hfs, freeOK_of_eq h.2.1 hfl, h.2.2⟩

theorem tileStep_trans {slabs1 slabs2 slabs3 : List (List Nat)}
    {t u : StorageState} (h1 : TileStep slabs1 t slabs2)
    (h2 : TileStep slabs2 u slabs3) : TileStep slabs1 u slabs3 :=
  ⟨h2.1, h2.2.1, fun o z hx => h2.2.2 o z (h1.2.2 o z hx)⟩

theorem flushMeta_file_tiling {s : StorageState} {h : List Nat}
    {slabs : List (List Nat)} (hfile : s.file = h ++ slabs.flatten)
    (hh : h.length = DATA_HEADER_SIZE) :
    ∃ h2, (flushMetadata s).file = h2 ++ slabs.flatten ∧
      h2.length = DATA_HEADER_SIZE := by
  unfold flushMetadata writeHeader
  split
  · refine ⟨headerBytes s.header, ?_,
      by simp [headerBytes_length, DATA_HEADER_SIZE]⟩
    simp only
    rw [hfile, writeAt_of_le _ (by
      simp only [List.length_append, headerBytes_length]
      unfold DATA_HEADER_SIZE at hh
      omega),
      List.take_zero, List.nil_append, Nat.zero_add,
      show (headerBytes s.header).length = h.length by
        simp [headerBytes_length, hh, DATA_HEADER_SIZE],
      List.drop_left]
  · exact ⟨h, hfile, hh⟩

theorem tiling_flushMeta {s : StorageState} {slabs : List (List Nat)}
    (ht : Tiling s slabs) : Tiling (flushMetadata s) slabs := by
  obtain ⟨⟨h, hfile, hh⟩, hgood, hnext, hfs⟩ := ht
  refine ⟨flushMeta_file_tiling hfile hh, hgood, ?_, ?_⟩
  · rw [flushMetadata_header]
    exact hnext
  · rw [flushMetadata_header]
    exact hfs

theorem flushMetadata_freeList (s : StorageState) :
    (flushMetadata s).freeList = s.freeList := by
  unfold flushMetadata writeHeader
  split <;> rfl

theorem tileStep_flushMeta {t : StorageState} {slabs slabs' : List (List Nat)}
    (h : TileStep slabs t slabs') : TileStep slabs (flushMetadata t) slabs' :=
  ⟨tiling_flushMeta h.1, freeOK_of_eq h.2.1 (flushMetadata_freeList t), h.2.2⟩

theorem tileStep_flushNB {t : StorageState} {slabs slabs' : List (List Nat)}
    (h : TileStep slabs t slabs') :
    TileStep slabs (flushIfNotBatching t) slabs' := by
  unfold flushIfNotBatching
  split
  · exact tileStep_flushMeta h
  · exact h

theorem tileStep_flush_mmd {t : StorageState} {slabs slabs' : List (List Nat)}
    (h : TileStep slabs t slabs') :
    TileStep slabs (flushIfNotBatching (markMetadataDirty t)) slabs' :=
  tileStep_flushNB (tileStep_of_eqs h rfl rfl rfl rfl)

/-! ### Bundled wrappers for the slot-writing primitives -/

theorem tile_allocWriteInline (s : StorageState) (B : List Nat)
    {slabs : List (List Nat)} (ht : Tiling s slabs) (hf : FreeOK s slabs) :
    ∃ slabs', TileStep slabs (allocWriteInline s B).1 slabs' ∧
      LocOK slabs' (allocWriteInline s B).2 := by
  obtain ⟨slabs', h1, h2, h3, h4, h5⟩ := stinv_allocWriteInline s B slabs ht hf
  exact ⟨slabs', ⟨h1, h2, h3⟩, h4, h5⟩

theorem tile_writeBlobReferenceSlot (s : StorageState) (ref : BlobRef)
    {slabs : List (List Nat)} (ht : Tiling s slabs) (hf : FreeOK s slabs) :
    ∃ slabs', TileStep slabs (writeBlobReferenceSlot s ref).1 slabs' ∧
      LocOK slabs' (writeBlobReferenceSlot s ref).2 := by
  obtain ⟨slabs', h1, h2, h3, h4, h5⟩ :=
    stinv_writeBlobReferenceSlot s ref slabs ht hf
  exact ⟨slabs', ⟨h1, h2, h3⟩, h4, h5⟩

theorem tile_writeSlot_at {s : StorageState} {slabs : List (List Nat)}
    {off sz : Nat} (data : List Nat) (blob : Bool) (ht : Tiling s slabs)
    (hf : FreeOK s slabs) (hvb : ValidBoundary slabs off sz)
    (hfit : data.length + SLOT_HEADER_SIZE ≤ sz) :
    ∃ slabs',
      TileStep slabs { s with file := writeSlot s.file off data sz blob }
        slabs' ∧
      ValidBoundary slabs' off sz := by
  obtain ⟨slabs', ht', hlens⟩ :=
    stinv_writeSlot_at s slabs off sz data blob ht hvb hfit
  refine ⟨slabs', ⟨ht', ?_, ?_⟩, validBoundary_of_lens_eq hlens hvb⟩
  · intro fs hfs
    exact validBoundary_of_lens_eq hlens (hf fs hfs)
  · intro o z h
    exact validBoundary_of_lens_eq hlens h

theorem tile_markSlotFree {s : StorageState} {slabs : List (List Nat)}
    {off sz : Nat} (ht : Tiling s slabs) (hf : FreeOK s slabs)
    (hvb : ValidBoundary slabs off sz) :
    ∃ f1 slabs', markSlotFree s.file off = .ok f1 ∧
      TileStep slabs
        { s with file := f1, freeList := s.freeList ++ [⟨off, sz⟩] } slabs' ∧
      slabLens slabs' = slabLens slabs := by
  obtain ⟨f1, slabs', hok, ht', hlens⟩ := stinv_markSlotFree s slabs ht hvb
  refine ⟨f1, slabs', hok,
    ⟨tiling_of_eqs ht' rfl rfl rfl, ?_,
     fun o z hx => validBoundary_of_lens_eq hlens hx⟩, hlens⟩
  intro fs hfs
  rcases List.mem_append.mp hfs with hl | hr
  · exact validBoundary_of_lens_eq hlens (hf fs hl)
  · rw [List.mem_singleton] at hr
    rw [hr]
    exact validBoundary_of_lens_eq hlens hvb

/-! ### Tiling preservation along the unlocked write paths -/

theorem tile_writeBlobForInsertUnlocked (s : StorageState) (id : String)
    (B : List Nat) {slabs : List (List Nat)} (ht : Tiling s slabs)
    (hf : FreeOK s slabs) :
    ∃ slabs', TileStep slabs (writeBlobForInsertUnlocked s id B).1 slabs' ∧
      LocOK slabs' (writeBlobForInsertUnlocked s id B).2 := by
  obtain ⟨slabs', hstep, hloc⟩ := tile_writeBlobReferenceSlot
    (writeBlobFile s (id ++ ".blob") B).1 (writeBlobFile s (id ++ ".blob") B).2
    (tiling_of_eqs ht rfl rfl rfl) (freeOK_of_eq hf rfl)
  exact ⟨slabs', tileStep_flush_mmd (tileStep_of_eqs hstep rfl rfl rfl rfl),
    hloc⟩

theorem tile_writeBlobForUpdateUnlocked (s : StorageState) (id : String)
    (B : List Nat) {slabs : List (List Nat)} (ht : Tiling s slabs)
    (hf : FreeOK s slabs) :
    ∃ slabs', TileStep slabs (writeBlobForUpdateUnlocked s id B).1 slabs' ∧
      LocOK slabs' (writeBlobForUpdateUnlocked s id B).2 := by
  obtain ⟨slabs', hstep, hloc⟩ := tile_writeBlobReferenceSlot
    (writeBlobFile s (id ++ ".blob") B).1 (writeBlobFile s (id ++ ".blob") B).2
    (tiling_of_eqs ht rfl rfl rfl) (freeOK_of_eq hf rfl)
  exact ⟨slabs', hstep, hloc⟩

theorem tile_writeUnlocked (s : StorageState) (id : String) (B : List Nat)
    {slabs : List (List Nat)} (ht : Tiling s slabs) (hf : FreeOK s slabs) :
    ∃ slabs', TileStep slabs (writeUnlocked s id B).1 slabs' ∧
      LocOK slabs' (writeUnlocked s id B).2 := by
  simp only [writeUnlocked]
  split
  · exact tile_writeBlobForInsertUnlocked s id B ht hf
  · obtain ⟨slabs', hstep, hloc⟩ := tile_allocWriteInline s B ht hf
    exact ⟨slabs', tileStep_flush_mmd (tileStep_of_eqs hstep rfl rfl rfl rfl),
      hloc⟩

theorem tile_updateBlobReferenceUnlocked (s : StorageState) (id : String)
    (B : List Nat) (old : DocumentLocation) {slabs : List (List Nat)}
    (ht : Tiling s slabs) (hf : FreeOK s slabs)
    (hvb : ValidBoundary slabs old.offset old.slabSize) :
    ∃ slabs', TileStep slabs (updateBlobReferenceUnlocked s id B old).1
        slabs' ∧
      ∀ loc, (updateBlobReferenceUnlocked s id B old).2 = .ok loc →
        LocOK slabs' loc := by
  simp only [updateBlobReferenceUnlocked]
  split
  · next hfits =>
    obtain ⟨slabs', hstep, hvb'⟩ := tile_writeSlot_at
      (s := (writeBlobFile s (id ++ ".blob") B).1)
      (renderBlobRef (writeBlobFile s (id ++ ".blob") B).2) true
      (tiling_of_eqs ht rfl rfl rfl) (freeOK_of_eq hf rfl) hvb hfits
    refine ⟨slabs', tileStep_of_eqs hstep rfl rfl rfl rfl, ?_⟩
    intro loc hloc
    rw [Except.ok.injEq] at hloc
    rw [← hloc]
    exact ⟨hvb', hfits⟩
  · split
    · next e heq =>
      exact ⟨slabs, tileStep_of_eqs (tileStep_refl ht hf) rfl rfl rfl rfl,
        fun loc hloc => by simp at hloc⟩
    · next f1 heq =>
      obtain ⟨f1', slabs1, hok, hstep1, hlens⟩ := tile_markSlotFree
        (s := (writeBlobFile s (id ++ ".blob") B).1)
        (tiling_of_eqs ht rfl rfl rfl) (freeOK_of_eq hf rfl) hvb
      have hff : f1 = f1' := Except.ok.inj (heq.symm.trans hok)
      obtain ⟨slabs2, hstep2, hloc2⟩ := tile_writeBlobReferenceSlot
        _ (writeBlobFile s (id ++ ".blob") B).2 hstep1.1 hstep1.2.1
      rw [← hff] at hstep2 hloc2
      refine ⟨slabs2, tileStep_trans hstep1 hstep2, ?_⟩
      intro loc hloc
      rw [Except.ok.injEq] at hloc
      rw [← hloc]
      exact hloc2

theorem tile_updateUnlocked (s : StorageState) (id : String) (B : List Nat)
    (old : DocumentLocation) {slabs : List (List Nat)}
    (ht : Tiling s slabs) (hf : FreeOK s slabs)
    (hvb : ValidBoundary slabs old.offset old.slabSize) :
    ∃ slabs', TileStep slabs (updateUnlocked s id B old).1 slabs' ∧
      ∀ loc, (updateUnlocked s id B old).2 = .ok loc → LocOK slabs' loc := by
  simp only [updateUnlocked]
  split
  · -- old location is a blob-reference slot
    split
    · next e heq =>
      exact ⟨slabs, tileStep_refl ht hf, fun loc hloc => by simp at hloc⟩
    · next oldRef heqr =>
      split
      · -- blob -> blob
        obtain ⟨slabs', hstep, hloc⟩ :=
          tile_updateBlobReferenceUnlocked s id B old ht hf hvb
        split
        · next e heq =>
          exact ⟨slabs', hstep, fun loc hloc2 => by simp at hloc2⟩
        · next newLoc heq =>
          refine ⟨slabs',
            tileStep_flush_mmd (tileStep_of_eqs hstep rfl rfl rfl rfl), ?_⟩
          intro loc hloc2
          rw [Except.ok.injEq] at hloc2
          rw [← hloc2]
          exact hloc newLoc heq
      · -- blob -> inline
        split
        · next e heq =>
          exact ⟨slabs, tileStep_of_eqs (tileStep_refl ht hf) rfl rfl rfl rfl,
            fun loc hloc => by simp at hloc⟩
        · next f1 heq =>
          obtain ⟨f1', slabs1, hok, hstep1, hlens⟩ := tile_markSlotFree
            (s := deleteBlob s oldRef.path)
            (tiling_of_eqs ht rfl rfl rfl) (freeOK_of_eq hf rfl) hvb
          have hff : f1 = f1' := Except.ok.inj (heq.symm.trans hok)
          obtain ⟨slabs2, hstep2, hloc2⟩ :=
            tile_allocWriteInline _ B hstep1.1 hstep1.2.1
          rw [← hff] at hstep2 hloc2
          refine ⟨slabs2,
            tileStep_flush_mmd (tileStep_of_eqs
              (tileStep_trans hstep1 hstep2) rfl rfl rfl rfl), ?_⟩
          intro loc hloc
          rw [Except.ok.injEq] at hloc
          rw [← hloc]
          exact hloc2
  · -- old location is inline
    split
    · -- inline -> blob
      split
      · next e heq =>
        exact ⟨slabs, tileStep_refl ht hf, fun loc hloc => by simp at hloc⟩
      · next f1 heq =>
        obtain ⟨f1', slabs1, hok, hstep1, hlens⟩ := tile_markSlotFree
          (s := s) ht hf hvb
        have hff : f1 = f1' := Except.ok.inj (heq.symm.trans hok)
        obtain ⟨slabs2, hstep2, hloc2⟩ :=
          tile_writeBlobForUpdateUnlocked _ id B hstep1.1 hstep1.2.1
        rw [← hff] at hstep2 hloc2
        refine ⟨slabs2,
          tileStep_flush_mmd (tileStep_of_eqs
            (tileStep_trans hstep1 hstep2) rfl rfl rfl rfl), ?_⟩
        intro loc hloc
        rw [Except.ok.injEq] at hloc
        rw [← hloc]
        exact hloc2
    · split
      · -- inline -> inline, fits: in-place rewrite
        next hfits =>
        obtain ⟨slabs', hstep, hvb'⟩ :=
          tile_writeSlot_at B false ht hf hvb hfits
        refine ⟨slabs',
          tileStep_flush_mmd (tileStep_of_eqs hstep rfl rfl rfl rfl), ?_⟩
        intro loc hloc
        rw [Except.ok.injEq] at hloc
        rw [← hloc]
        exact ⟨hvb', hfits⟩
      · -- inline -> inline, relocate
        split
        · next e heq =>
          exact ⟨slabs, tileStep_refl ht hf, fun loc hloc => by simp at hloc⟩
        · next f1 heq =>
          obtain ⟨f1', slabs1, hok, hstep1, hlens⟩ := tile_markSlotFree
            (s := s) ht hf hvb
          have hff : f1 = f1' := Except.ok.inj (heq.symm.trans hok)
          obtain ⟨slabs2, hstep2, hloc2⟩ :=
            tile_allocWriteInline _ B hstep1.1 hstep1.2.1
          rw [← hff] at hstep2 hloc2
          refine ⟨slabs2,
            tileStep_flush_mmd (tileStep_of_eqs
              (tileStep_trans hstep1 hstep2) rfl rfl rfl rfl), ?_⟩
          intro loc hloc
          rw [Except.ok.injEq] at hloc
          rw [← hloc]
          exact hloc2

theorem tile_finishDelete (s : StorageState) (loc : DocumentLocation)
    {slabs : List (List Nat)} (ht : Tiling s slabs) (hf : FreeOK s slabs)
    (hvb : ValidBoundary slabs loc.offset loc.slabSize) :
    ∃ slabs', TileStep slabs (finishDelete s loc).1 slabs' := by
  unfold finishDelete
  split
  · next e heq => exact ⟨slabs, tileStep_refl ht hf⟩
  · next f1 heq =>
    obtain ⟨f1', slabs', hok, hstep, hlens⟩ := tile_markSlotFree
      (s := s) ht hf hvb
    have hff : f1 = f1' := Except.ok.inj (heq.symm.trans hok)
    rw [← hff] at hstep
    exact ⟨slabs', tileStep_flush_mmd (tileStep_of_eqs hstep rfl rfl rfl rfl)⟩

theorem tile_deleteUnlocked (s : StorageState) (loc : DocumentLocation)
    {slabs : List (List Nat)} (ht : Tiling s slabs) (hf : FreeOK s slabs)
    (hvb : ValidBoundary slabs loc.offset loc.slabSize) :
    ∃ slabs', TileStep slabs (deleteUnlocked s loc).1 slabs' := by
  simp only [deleteUnlocked]
  split
  · split
    · exact ⟨slabs, tileStep_refl ht hf⟩
    · exact tile_finishDelete _ loc (tiling_of_eqs ht rfl rfl rfl)
        (freeOK_of_eq hf rfl) hvb
  · exact tile_finishDelete _ loc (tiling_of_eqs ht rfl rfl rfl)
      (freeOK_of_eq hf rfl) hvb

theorem tile_writeManyFallback (items : List (String × List Nat)) :
    ∀ (s : StorageState) (slabs : List (List Nat)),
      Tiling s slabs → FreeOK s slabs →
      ∃ slabs', TileStep slabs (writeManyFallback s items).1 slabs' ∧
        ∀ loc ∈ (writeManyFallback s items).2, LocOK slabs' loc := by
  induction items with
  | nil =>
    intro s slabs ht hf
    exact ⟨slabs, tileStep_refl ht hf,
      fun loc hloc => by simp [writeManyFallback] at hloc⟩
  | cons item rest ih =>
    intro s slabs ht hf
    simp only [writeManyFallback]
    obtain ⟨slabs1, hstep1, hloc1⟩ := tile_writeUnlocked s item.1 item.2 ht hf
    obtain ⟨slabs2, hstep2, hloc2⟩ :=
      ih (writeUnlocked s item.1 item.2).1 slabs1 hstep1.1 hstep1.2.1
    refine ⟨slabs2, tileStep_trans hstep1 hstep2, ?_⟩
    intro loc hloc
    rcases List.mem_cons.mp hloc with h | h
    · rw [h]
      exact locOK_mono hstep2.2.2 hloc1
    · exact hloc2 loc h

theorem writeManyBuild_spec (items : List (String × List Nat)) :
    ∀ next : Nat,
      (∀ buf ∈ (writeManyBuild next items).bufs, GoodSlab buf) ∧
      (slabLens (writeManyBuild next items).bufs).sum =
        (writeManyBuild next items).totalBytes ∧
      ∀ slabs : List (List Nat),
        next = DATA_HEADER_SIZE + (slabLens slabs).sum →
        ∀ loc ∈ (writeManyBuild next items).locs,
          ValidBoundary (slabs ++ (writeManyBuild next items).bufs)
            loc.offset loc.slabSize ∧
          loc.length + SLOT_HEADER_SIZE ≤ loc.slabSize := by
  induction items with
  | nil =>
    intro next
    refine ⟨fun buf hb => by simp [writeManyBuild] at hb,
      by simp [writeManyBuild, slabLens], ?_⟩
    intro slabs hnext loc hloc
    simp [writeManyBuild] at hloc
  | cons item rest ih =>
    intro next
    simp only [writeManyBuild]
    have hfit : item.2.length + SLOT_HEADER_SIZE ≤
        selectSlabSize item.2.length := selectSlabSize_ge item.2.length
    obtain ⟨hg, hsum, hlocs⟩ := ih (next + selectSlabSize item.2.length)
    refine ⟨?_, ?_, ?_⟩
    · intro buf hb
      rcases List.mem_cons.mp hb with h | h
      · rw [h]
        exact goodSlab_slotBuffer _ _ false hfit
      · exact hg buf h
    · simp only [slabLens, List.map_cons, List.sum_cons]
      rw [slotBuffer_length false hfit]
      unfold slabLens at hsum
      omega
    · intro slabs hnext loc hloc
      rcases List.mem_cons.mp hloc with h | h
      · rw [h]
        refine ⟨?_, hfit⟩
        have hvb1 : ValidBoundary
            (slabs ++ [slotBuffer item.2 (selectSlabSize item.2.length) false])
            next (selectSlabSize item.2.length) := by
          rw [hnext]
          exact validBoundary_append_new (slotBuffer_length false hfit)
        have h2 := @validBoundary_append _
          (writeManyBuild (next + selectSlabSize item.2.length)
            rest).bufs _ _ hvb1
        rw [List.append_assoc] at h2
        simpa using h2
      · have hnext2 : next + selectSlabSize item.2.length =
            DATA_HEADER_SIZE + (slabLens (slabs ++
              [slotBuffer item.2 (selectSlabSize item.2.length) false])).sum := by
          unfold slabLens at hnext ⊢
          rw [List.map_append, List.sum_append, hnext]
          simp [slotBuffer_length false hfit]
          omega
        have h3 := hlocs (slabs ++
          [slotBuffer item.2 (selectSlabSize item.2.length) false]) hnext2 loc h
        rw [List.append_assoc] at h3
        simpa using h3

theorem tile_writeMany (s : StorageState) (items : List (String × List Nat))
    {slabs : List (List Nat)} (ht : Tiling s slabs) (hf : FreeOK s slabs) :
    ∃ slabs', TileStep slabs (writeMany s items).1 slabs' ∧
      ∀ loc ∈ (writeMany s items).2, LocOK slabs' loc := by
  simp only [writeMany]
  split
  · exact ⟨slabs, tileStep_refl ht hf, fun loc hloc => by simp at hloc⟩
  · split
    · -- fallback path inside a batch scope
      obtain ⟨slabs', hstep, hlocs⟩ := tile_writeManyFallback items
        { s with batchDepth := s.batchDepth + 1 } slabs
        (tiling_of_eqs ht rfl rfl rfl) (freeOK_of_eq hf rfl)
      refine ⟨slabs', ?_, hlocs⟩
      split
      · exact tileStep_flushMeta (tileStep_of_eqs hstep rfl rfl rfl rfl)
      · exact tileStep_of_eqs hstep rfl rfl rfl rfl
    · -- fast path: a single contiguous append at the end of the file
      obtain ⟨hg, hsum, hlocs⟩ := writeManyBuild_spec items
        s.header.nextSlotOffset
      obtain ⟨⟨h, hfile, hh⟩, hgood, hnext, hfs⟩ := ht
      refine ⟨slabs ++ (writeManyBuild s.header.nextSlotOffset items).bufs,
        ?_, ?_⟩
      · apply tileStep_flush_mmd
        refine ⟨⟨⟨h, ?_, hh⟩, ?_, ?_, ?_⟩, ?_, ?_⟩
        · simp only
          rw [hnext, writeAt_end_of_tiling hfile hh]
          simp [List.flatten_append]
        · intro b hb
          rcases List.mem_append.mp hb with hb | hb
          · exact hgood b hb
          · exact hg b hb
        · simp only
          unfold slabLens
          rw [List.map_append, List.sum_append]
          unfold slabLens at hnext hsum
          omega
        · rfl
        · intro fs hfs2
          exact validBoundary_append (hf fs hfs2)
        · intro o z hx
          exact validBoundary_append hx
      · intro loc hloc
        exact hlocs slabs hnext loc hloc

/-! ### Assoc-list membership plumbing -/

theorem mem_setAssoc {α β : Type} [DecidableEq α] (k : α) (v : β)
    (l : List (α × β)) : ∀ p ∈ setAssoc l k v, p.2 = v ∨ p ∈ l := by
  induction l with
  | nil =>
    intro p hp
    rw [setAssoc, List.mem_singleton] at hp
    exact Or.inl (by rw [hp])
  | cons kv rest ih =>
    intro p hp
    rw [setAssoc] at hp
    split at hp
    · rcases List.mem_cons.mp hp with h | h
      · exact Or.inl (by rw [h])
      · exact Or.inr (List.mem_cons_of_mem _ h)
    · rcases List.mem_cons.mp hp with h | h
      · exact Or.inr (by rw [h]; exact List.mem_cons_self _ _)
      · rcases ih p h with h2 | h2
        · exact Or.inl h2
        · exact Or.inr (List.mem_cons_of_mem _ h2)

theorem mem_delAssoc {α β : Type} [DecidableEq α] (k : α)
    (l : List (α × β)) : ∀ p ∈ delAssoc l k, p ∈ l := by
  induction l with
  | nil =>
    intro p hp
    rw [delAssoc] at hp
    exact hp
  | cons kv rest ih =>
    intro p hp
    rw [delAssoc] at hp
    split at hp
    · exact List.mem_cons_of_mem _ hp
    · rcases List.mem_cons.mp hp with h | h
      · rw [h]
        exact List.mem_cons_self _ _
      · exact List.mem_cons_of_mem _ (ih p h)

theorem getAssoc_mem {α β : Type} [DecidableEq α] {l : List (α × β)} {k : α}
    {v : β} (h : getAssoc l k = some v) : (k, v) ∈ l := by
  induction l with
  | nil => simp [getAssoc] at h
  | cons kv rest ih =>
    rw [getAssoc] at h
    split at h
    · next heq =>
      rw [Option.some.injEq] at h
      exact List.mem_cons.mpr (Or.inl (by rw [← heq, ← h]))
    · exact List.mem_cons_of_mem _ (ih h)

theorem stinv_insertBody (c : CollState) (id : String) (d : JSVal)
    (h : StInv c) : StInv (insertBody c id d) := by
  obtain ⟨slabs, ht, hf, hp⟩ := h
  obtain ⟨slabs', hstep, hloc⟩ :=
    tile_writeUnlocked c.storage id (encodeDoc d) ht hf
  refine ⟨slabs', hstep.1, hstep.2.1, ?_⟩
  intro p hp2
  rcases mem_setAssoc id _ c.im.primaryIndex p hp2 with h2 | h2
  · rw [h2]
    exact hloc
  · exact locOK_mono hstep.2.2 (hp p h2)

theorem stinv_collInsert (c : CollState) (id : String) (d : JSVal)
    (h : StInv c) : StInv (collInsert c id d).1 := by
  unfold collInsert
  split
  · exact h
  · exact stinv_insertBody c id d h

theorem stinv_updateBody (c : CollState) (id : String) (d : JSVal)
    (oldLoc : DocumentLocation) {slabs : List (List Nat)}
    (ht : Tiling c.storage slabs) (hf : FreeOK c.storage slabs)
    (hp : PrimOK slabs c.im.primaryIndex)
    (hvb : ValidBoundary slabs oldLoc.offset oldLoc.slabSize) :
    StInv (updateBody c id d oldLoc).1 := by
  simp only [updateBody]
  split
  · exact ⟨slabs, ht, hf, hp⟩
  · obtain ⟨slabs', hstep, hloc⟩ :=
      tile_updateUnlocked c.storage id (encodeDoc d) oldLoc ht hf hvb
    split
    · next e heq =>
      exact ⟨slabs', hstep.1, hstep.2.1,
        fun p hp2 => locOK_mono hstep.2.2 (hp p hp2)⟩
    · next newLoc heq =>
      refine ⟨slabs', hstep.1, hstep.2.1, ?_⟩
      intro p hp2
      rcases mem_setAssoc id _ c.im.primaryIndex p hp2 with h2 | h2
      · rw [h2]
        exact hloc newLoc heq
      · exact locOK_mono hstep.2.2 (hp p h2)

theorem stinv_collUpdate (c : CollState) (id : String) (d : JSVal)
    (h : StInv c) : StInv (collUpdate c id d).1 := by
  obtain ⟨slabs, ht, hf, hp⟩ := h
  unfold collUpdate
  split
  · exact ⟨slabs, ht, hf, hp⟩
  · next oldLoc heq =>
    exact stinv_updateBody c id d oldLoc ht hf hp
      (hp _ (getAssoc_mem heq)).1

theorem stinv_collUpsert (c : CollState) (id : String) (d : JSVal)
    (h : StInv c) : StInv (collUpsert c id d).1 := by
  obtain ⟨slabs, ht, hf, hp⟩ := h
  unfold collUpsert
  split
  · next oldLoc heq =>
    exact stinv_updateBody c id d oldLoc ht hf hp
      (hp _ (getAssoc_mem heq)).1
  · exact stinv_insertBody c id d ⟨slabs, ht, hf, hp⟩

theorem stinv_collDelete (c : CollState) (id : String) (h : StInv c) :
    StInv (collDelete c id).1 := by
  obtain ⟨slabs, ht, hf, hp⟩ := h
  unfold collDelete
  split
  · exact ⟨slabs, ht, hf, hp⟩
  · next loc heq0 =>
    split
    · exact ⟨slabs, ht, hf, hp⟩
    · obtain ⟨slabs', hstep⟩ := tile_deleteUnlocked c.storage loc ht hf
        (hp _ (getAssoc_mem heq0)).1
      split
      · next s1 e heq =>
        rw [heq] at hstep
        exact ⟨slabs', hstep.1, hstep.2.1,
          fun p hp2 => locOK_mono hstep.2.2 (hp p hp2)⟩
      · next s1 heq =>
        rw [heq] at hstep
        refine ⟨slabs', hstep.1, hstep.2.1, ?_⟩
        intro p hp2
        exact locOK_mono hstep.2.2 (hp p (mem_delAssoc id _ p hp2))

theorem recordParseFold_im (items : List (String × JSVal)) :
    ∀ c : CollState,
      (items.foldl (fun acc it => recordParse acc it.2) c).im = c.im := by
  induction items with
  | nil => exact fun c => rfl
  | cons it rest ih =>
    intro c
    rw [List.foldl_cons]
    exact ih (recordParse c it.2)

theorem primOK_insertManyFold (slabs' : List (List Nat))
    (l : List ((String × JSVal) × DocumentLocation)) :
    ∀ c0 : CollState,
      PrimOK slabs' c0.im.primaryIndex →
      (∀ p ∈ l, LocOK slabs' p.2) →
      PrimOK slabs' ((l.foldl (fun acc p =>
        { acc with
            im := addDocument acc.im p.1.1 p.2 p.1.2,
            cache := cacheSet acc.cacheSize acc.cache p.1.1 p.1.2 })
        c0).im.primaryIndex) := by
  induction l with
  | nil =>
    intro c0 h1 _
    exact h1
  | cons p rest ih =>
    intro c0 h1 h2
    rw [List.foldl_cons]
    apply ih
    · intro q hq
      rcases mem_setAssoc p.1.1 _ c0.im.primaryIndex q hq with hx | hx
      · rw [hx]
        exact h2 p (List.mem_cons_self _ _)
      · exact h1 q hx
    · exact fun q hq => h2 q (List.mem_cons_of_mem _ hq)

theorem stinv_collInsertMany (c : CollState) (items : List (String × JSVal))
    (h : StInv c) : StInv (collInsertMany c items).1 := by
  obtain ⟨slabs, ht, hf, hp⟩ := h
  unfold collInsertMany
  split
  · exact ⟨slabs, ht, hf, hp⟩
  · split
    · exact ⟨slabs, ht, hf, hp⟩
    · have ht0 : Tiling (items.foldl (fun acc it => recordParse acc it.2)
          c).storage slabs := by
        rw [recordParseFold_storage]
        exact ht
      have hf0 : FreeOK (items.foldl (fun acc it => recordParse acc it.2)
          c).storage slabs := by
        rw [recordParseFold_storage]
        exact hf
      obtain ⟨slabs', hstep, hlocs⟩ := tile_writeMany
        (items.foldl (fun acc it => recordParse acc it.2) c).storage
        (items.map (fun it => (it.1, encodeDoc it.2))) ht0 hf0
      refine ⟨slabs', ?_, ?_, ?_⟩
      · rw [insertManyFold_storage]
        exact hstep.1
      · rw [insertManyFold_storage]
        exact hstep.2.1
      · apply primOK_insertManyFold
        · simp only [recordParseFold_im]
          intro q hq
          exact locOK_mono hstep.2.2 (hp q hq)
        · intro p hpz
          exact hlocs p.2 (List.of_mem_zip hpz).2

theorem stinv_applyBatchOp (c : CollState) (op : BatchOp) (h : StInv c) :
    StInv (applyBatchOp c op).1 := by
  cases op with
  | insertB id d => exact stinv_collInsert c id d h
  | updateB id d => exact stinv_collUpdate c id d h
  | upsertB id d => exact stinv_collUpsert c id d h
  | deleteB id =>
    simp only [applyBatchOp]
    split
    · next c1 b heq =>
      have h2 := stinv_collDelete c id h
      rw [heq] at h2
      exact h2
    · next c1 e heq =>
      have h2 := stinv_collDelete c id h
      rw [heq] at h2
      exact h2

theorem stinv_batchRun (ops : List BatchOp) :
    ∀ c : CollState, StInv c → StInv (batchRun c ops).1 := by
  induction ops with
  | nil => exact fun c h => h
  | cons op rest ih =>
    intro c h
    rw [batchRun]
    split
    · next c1 heq =>
      have h2 := stinv_applyBatchOp c op h
      rw [heq] at h2
      exact ih c1 h2
    · next c1 e heq =>
      have h2 := stinv_applyBatchOp c op h
      rw [heq] at h2
      exact h2

theorem stinv_collBatch (c : CollState) (ops : List BatchOp) (h : StInv c) :
    StInv (collBatch c ops).1 := by
  obtain ⟨slabs, ht, hf, hp⟩ := h
  simp only [collBatch]
  obtain ⟨slabs', ht', hf', hp'⟩ := stinv_batchRun ops
    { c with storage :=
        { c.storage with batchDepth := c.storage.batchDepth + 1 } }
    ⟨slabs, tiling_of_eqs ht rfl rfl rfl, freeOK_of_eq hf rfl, hp⟩
  refine ⟨slabs', ?_, ?_, hp'⟩
  · split
    · exact tiling_flushMeta (tiling_of_eqs ht' rfl rfl rfl)
    · exact tiling_of_eqs ht' rfl rfl rfl
  · split
    · exact freeOK_of_eq hf'
        ((flushMetadata_freeList _).trans rfl)
    · exact freeOK_of_eq hf' rfl

theorem stinv_applyCOp (c : CollState) (op : COp) (hop : WritePathOp op)
    (h : StInv c) : StInv (applyCOp c op) := by
  cases op with
  | insertOp id d => exact stinv_collInsert c id d h
  | updateOp id d => exact stinv_collUpdate c id d h
  | deleteOp id => exact stinv_collDelete c id h
  | insertManyOp items => exact stinv_collInsertMany c items h
  | batchOp ops => exact stinv_collBatch c ops h
  | upsertOp id d => exact absurd hop fun hx => hx
  | getOp id => exact absurd hop fun hx => hx
  | resetOp => exact absurd hop fun hx => hx
  | compactOp => exact absurd hop fun hx => hx

theorem stinv_applyOps (l : List COp) :
    ∀ c : CollState, (∀ op ∈ l, WritePathOp op) → StInv c →
      StInv (applyOps c l) := by
  induction l with
  | nil => exact fun c _ h => h
  | cons op rest ih =>
    intro c hall h
    exact ih (applyCOp c op) (fun o ho => hall o (List.mem_cons_of_mem _ ho))
      (stinv_applyCOp c op (hall op (List.mem_cons_self _ _)) h)

theorem stinv_initial (bt cs : Nat) : StInv (initialColl bt cs) := by
  refine ⟨[], ⟨⟨headerBytes initialHeader, ?_, ?_⟩, ?_, ?_, ?_⟩, ?_, ?_⟩
  · simp [initialColl, writeAt]
  · simp [headerBytes_length, DATA_HEADER_SIZE]
  · intro b hb
    exact absurd hb (List.not_mem_nil b)
  · rfl
  · rfl
  · intro fs hfs
    exact absurd hfs (List.not_mem_nil fs)
  · intro p hp
    exact absurd hp (List.not_mem_nil p)

/-- Claim C4: after every sequence of public write-path operations (insert,
update, delete, batch, insertMany/writeMany) starting from a fresh
collection, the slot records tile the data file without gaps: the file is
the 64-byte header region followed by the slot records laid end to end,
each record at least a slot header long and advertising its own length in
its `slabSize` field (so a scan from `DATA_HEADER_SIZE` advancing by
`slabSize` strides visits exactly the record boundaries), `nextSlotOffset`
is the end of the last record, and the in-memory header satisfies
`fileSize = nextSlotOffset`. -/
theorem claim_C4 (bt cs : Nat) (ops : List COp)
    (hops : ∀ op ∈ ops, WritePathOp op) :
    ∃ slabs, Tiling (applyOps (initialColl bt cs) ops).storage slabs := by
  obtain ⟨slabs, ht, _, _⟩ := stinv_applyOps ops (initialColl bt cs) hops
    (stinv_initial bt cs)
  exact ⟨slabs, ht⟩

theorem claim_C4_witness :
    ∃ slabs, Tiling (applyOps (initialColl 1048576 0)
      [.insertOp "k" (.strV "v"), .deleteOp "k"]).storage slabs :=
  claim_C4 1048576 0 [.insertOp "k" (.strV "v"), .deleteOp "k"]
    (by
      intro op h
      rcases List.mem_cons.mp h with h1 | h1
      · rw [h1]; trivial
      · rw [List.mem_singleton] at h1
        rw [h1]; trivial)

/-! ### Assoc-list lookup lemmas (claim C8) -/

theorem getAssoc_setAssoc_self {α β : Type} [DecidableEq α]
    (l : List (α × β)) (k : α) (v : β) :
    getAssoc (setAssoc l k v) k = some v := by
  induction l with
  | nil => simp [setAssoc, getAssoc]
  | cons kv rest ih =>
    rw [setAssoc]
    split
    · next h => simp [getAssoc, h]
    · next h => simp only [getAssoc, if_neg h]; exact ih

theorem getAssoc_eq_none {α β : Type} [DecidableEq α] {l : List (α × β)}
    {k : α} : getAssoc l k = none ↔ ∀ p ∈ l, p.1 ≠ k := by
  induction l with
  | nil => simp [getAssoc]
  | cons kv rest ih =>
    rw [getAssoc]
    split
    · next h => simp [h]
    · next h =>
      simp only [List.mem_cons]
      constructor
      · intro h2 p hp
        rcases hp with hp | hp
        · rw [hp]; exact h
        · exact ih.mp h2 p hp
      · intro h2
        exact ih.mpr fun p hp => h2 p (Or.inr hp)

theorem getAssoc_append_of_none {α β : Type} [DecidableEq α]
    {l : List (α × β)} {k : α} (l2 : List (α × β))
    (h : getAssoc l k = none) :
    getAssoc (l ++ l2) k = getAssoc l2 k := by
  induction l with
  | nil => rfl
  | cons kv rest ih =>
    rw [getAssoc] at h
    rw [List.cons_append, getAssoc]
    split at h
    · exact absurd h (by simp)
    · next hne => rw [if_neg hne]; exact ih h

theorem getAssoc_delAssoc_none {α β : Type} [DecidableEq α]
    {l : List (α × β)} (k : α) (hnd : (l.map Prod.fst).Nodup) :
    getAssoc (delAssoc l k) k = none := by
  induction l with
  | nil => rfl
  | cons kv rest ih =>
    rw [delAssoc]
    rw [List.map_cons, List.nodup_cons] at hnd
    split
    · next h =>
      rw [getAssoc_eq_none]
      intro p hp hpk
      exact hnd.1 (by rw [h, ← hpk]; exact List.mem_map_of_mem Prod.fst hp)
    · next h =>
      rw [getAssoc, if_neg h]
      exact ih hnd.2

/-- With `Nodup` cache keys and a positive capacity, the entry just written
by `cacheSet` is found by the next lookup. -/
theorem getAssoc_cacheSet_self (cacheSize : Nat)
    (cache : List (String × JSVal)) (id : String) (d : JSVal)
    (hcs : cacheSize ≠ 0) (hnd : (cache.map Prod.fst).Nodup) :
    getAssoc (cacheSet cacheSize cache id d) id = some d := by
  have hdel : getAssoc (delAssoc cache id) id = none :=
    getAssoc_delAssoc_none id hnd
  unfold cacheSet
  rw [if_neg hcs]
  split
  · next hover =>
    cases hd : delAssoc cache id with
    | nil =>
      rw [hd] at hover
      simp at hover
      omega
    | cons x xs =>
      rw [hd] at hdel
      rw [List.cons_append, List.drop_one, List.tail_cons,
        getAssoc_append_of_none _ (by
          rw [getAssoc] at hdel
          split at hdel
          · exact absurd hdel (by simp)
          · exact hdel)]
      simp [getAssoc]
  · rw [getAssoc_append_of_none _ hdel]
    simp [getAssoc]

theorem readBlobReference_ioerr (s : StorageState) (off len : Nat)
    (e : DBErr) (he : readBlobReference s off len = .error e) : IsIoErr e := by
  unfold readBlobReference at he
  split at he
  · injection he with h
    subst h
    trivial
  · split at he
    · simp at he
    · injection he with h
      subst h
      trivial

theorem storageRead_ioerr (s : StorageState) (pm : List (List Nat × JSVal))
    (loc : DocumentLocation) (e : DBErr)
    (he : storageRead s pm loc = .error e) : IsIoErr e := by
  unfold storageRead at he
  split at he
  · split at he
    · next e2 heq =>
      injection he with h
      subst h
      exact readBlobReference_ioerr _ _ _ _ heq
    · split at he
      · injection he with h
        subst h
        trivial
      · split at he
        · injection he with h
          subst h
          trivial
        · split at he
          · simp at he
          · injection he with h
            subst h
            trivial
  · split at he
    · injection he with h
      subst h
      trivial
    · split at he
      · simp at he
      · injection he with h
        subst h
        trivial

theorem updateBlobReferenceUnlocked_ioerr (s : StorageState) (id : String)
    (B : List Nat) (old : DocumentLocation) (e : DBErr)
    (he : (updateBlobReferenceUnlocked s id B old).2 = .error e) :
    IsIoErr e := by
  simp only [updateBlobReferenceUnlocked] at he
  split at he
  · simp at he
  · split at he
    · injection he with h
      subst h
      trivial
    · simp at he

theorem updateUnlocked_ioerr (s : StorageState) (id : String) (B : List Nat)
    (old : DocumentLocation) (e : DBErr)
    (he : (updateUnlocked s id B old).2 = .error e) : IsIoErr e := by
  simp only [updateUnlocked] at he
  split at he
  · split at he
    · next e2 heq =>
      injection he with h
      subst h
      exact readBlobReference_ioerr _ _ _ _ heq
    · split at he
      · split at he
        · next e2 heq =>
          injection he with h
          subst h
          exact updateBlobReferenceUnlocked_ioerr _ _ _ _ _ heq
        · simp at he
      · split at he
        · injection he with h
          subst h
          trivial
        · simp at he
  · split at he
    · split at he
      · injection he with h
        subst h
        trivial
      · simp at he
    · split at he
      · simp at he
      · split at he
        · injection he with h
          subst h
          trivial
        · simp at he

/-! ### Read-after-write: the location returned by a write path reads back
to the written document -/

theorem allocateSlot_ge (fl : List FreeSlot) (next len : Nat)
    (hfree : ∀ fs ∈ fl, DATA_HEADER_SIZE ≤ fs.offset)
    (hnext : DATA_HEADER_SIZE ≤ next) :
    DATA_HEADER_SIZE ≤ (allocateSlot fl next len).1.offset := by
  rcases allocateSlot_offset_cases fl next len with ⟨fs, hm, he⟩ | he
  · rw [he]
    exact hfree fs hm
  · rw [he]
    exact hnext

theorem storageRead_inline_ok {s : StorageState}
    {pm : List (List Nat × JSVal)} {loc : DocumentLocation} {B : List Nat}
    {v : JSVal} (hblob : loc.isBlob = false)
    (hread : readSlot s.file loc.offset loc.length = .ok B)
    (hpm : parseDoc pm B = some v) :
    storageRead s pm loc = .ok v := by
  unfold storageRead
  simp only [hblob, Bool.false_eq_true, if_false, hread, hpm]

theorem storageRead_blob_ok {s : StorageState}
    {pm : List (List Nat × JSVal)} {loc : DocumentLocation} {ref : BlobRef}
    {B : List Nat} {v : JSVal} (hblob : loc.isBlob = true)
    (hread : ∃ bytes, readSlot s.file loc.offset loc.length = .ok bytes)
    (href : getAssoc s.refMap loc.offset = some ref)
    (hbf : getAssoc s.blobFiles ref.path = some B)
    (hcrc : crc32 B = ref.checksum)
    (hpm : parseDoc pm B = some v) :
    storageRead s pm loc = .ok v := by
  obtain ⟨bytes, hread⟩ := hread
  unfold storageRead readBlobReference
  simp only [hblob, if_true, hread, href, hbf]
  rw [if_neg (by rw [hcrc]; simp)]
  simp only [hpm]

theorem read_allocWriteInline (s : StorageState) (B : List Nat)
    (hlen : B.length < 4294967296)
    (hfree : ∀ fs ∈ s.freeList, DATA_HEADER_SIZE ≤ fs.offset)
    (hnext : DATA_HEADER_SIZE ≤ s.header.nextSlotOffset) :
    DATA_HEADER_SIZE ≤ (allocWriteInline s B).2.offset ∧
    readSlot (allocWriteInline s B).1.file (allocWriteInline s B).2.offset
      (allocWriteInline s B).2.length = .ok B := by
  simp only [allocWriteInline]
  exact ⟨allocateSlot_ge _ _ _ hfree hnext,
    readSlot_writeSlot_self _ _ _ _ hlen⟩

theorem read_writeBlobReferenceSlot (s : StorageState) (ref : BlobRef)
    (hrlen : (renderBlobRef ref).length < 4294967296)
    (hfree : ∀ fs ∈ s.freeList, DATA_HEADER_SIZE ≤ fs.offset)
    (hnext : DATA_HEADER_SIZE ≤ s.header.nextSlotOffset) :
    DATA_HEADER_SIZE ≤ (writeBlobReferenceSlot s ref).2.offset ∧
    readSlot (writeBlobReferenceSlot s ref).1.file
      (writeBlobReferenceSlot s ref).2.offset
      (writeBlobReferenceSlot s ref).2.length = .ok (renderBlobRef ref) ∧
    getAssoc (writeBlobReferenceSlot s ref).1.refMap
      (writeBlobReferenceSlot s ref).2.offset = some ref := by
  simp only [writeBlobReferenceSlot]
  exact ⟨allocateSlot_ge _ _ _ hfree hnext,
    readSlot_writeSlot_self _ _ _ _ hrlen,
    getAssoc_setAssoc_self _ _ _⟩

theorem read_writeUnlocked (s : StorageState) (id : String) (B : List Nat)
    (hlen : B.length < 4294967296)
    (hrlen : (renderBlobRef ⟨id ++ ".blob", B.length, crc32 B⟩).length <
      4294967296)
    (hfree : ∀ fs ∈ s.freeList, DATA_HEADER_SIZE ≤ fs.offset)
    (hnext : DATA_HEADER_SIZE ≤ s.header.nextSlotOffset)
    (pm : List (List Nat × JSVal)) (v : JSVal)
    (hpm : parseDoc pm B = some v) :
    storageRead (writeUnlocked s id B).1 pm (writeUnlocked s id B).2 =
      .ok v := by
  simp only [writeUnlocked]
  split
  · simp only [writeBlobForInsertUnlocked]
    obtain ⟨hoff, hread, href⟩ := read_writeBlobReferenceSlot
      (writeBlobFile s (id ++ ".blob") B).1
      (writeBlobFile s (id ++ ".blob") B).2 hrlen hfree hnext
    apply @storageRead_blob_ok _ _ _ (writeBlobFile s (id ++ ".blob") B).2
      B _ rfl
    · rw [readSlot_flush _ _ _ hoff]
      exact ⟨_, hread⟩
    · rw [flushIfNotBatching_refMap]
      exact href
    · rw [flushIfNotBatching_blobFiles]
      exact getAssoc_setAssoc_self _ _ _
    · rfl
    · exact hpm
  · obtain ⟨hoff, hread⟩ := read_allocWriteInline s B hlen hfree hnext
    apply storageRead_inline_ok rfl
    · rw [readSlot_flush _ _ _ hoff]
      exact hread
    · exact hpm

theorem read_updateBlobReferenceUnlocked (s : StorageState) (id : String)
    (B : List Nat) (old : DocumentLocation)
    (hrlen : (renderBlobRef ⟨id ++ ".blob", B.length, crc32 B⟩).length <
      4294967296)
    (hfree : ∀ fs ∈ s.freeList, DATA_HEADER_SIZE ≤ fs.offset)
    (hnext : DATA_HEADER_SIZE ≤ s.header.nextSlotOffset)
    (hold : DATA_HEADER_SIZE ≤ old.offset) :
    ∀ newLoc, (updateBlobReferenceUnlocked s id B old).2 = .ok newLoc →
      DATA_HEADER_SIZE ≤ newLoc.offset ∧ newLoc.isBlob = true ∧
      readSlot (updateBlobReferenceUnlocked s id B old).1.file newLoc.offset
        newLoc.length =
        .ok (renderBlobRef ⟨id ++ ".blob", B.length, crc32 B⟩) ∧
      getAssoc (updateBlobReferenceUnlocked s id B old).1.refMap
        newLoc.offset = some ⟨id ++ ".blob", B.length, crc32 B⟩ ∧
      getAssoc (updateBlobReferenceUnlocked s id B old).1.blobFiles
        (id ++ ".blob") = some B := by
  simp only [updateBlobReferenceUnlocked]
  split
  · intro newLoc hloc
    rw [Except.ok.injEq] at hloc
    rw [← hloc]
    refine ⟨hold, rfl, ?_, ?_, ?_⟩
    · exact readSlot_writeSlot_self _ _ _ _ hrlen
    · exact getAssoc_setAssoc_self _ _ _
    · exact getAssoc_setAssoc_self _ _ _
  · split
    · intro newLoc hloc
      simp at hloc
    · next f1 heq =>
      intro newLoc hloc
      rw [Except.ok.injEq] at hloc
      obtain ⟨hoff, hread, href⟩ := read_writeBlobReferenceSlot
        { (writeBlobFile s (id ++ ".blob") B).1 with
            file := f1,
            freeList := (writeBlobFile s (id ++ ".blob") B).1.freeList ++
              [⟨old.offset, old.slabSize⟩] }
        (writeBlobFile s (id ++ ".blob") B).2 hrlen
        (by
          intro fs hfs
          rcases List.mem_append.mp hfs with hl | hr
          · exact hfree fs hl
          · rw [List.mem_singleton] at hr
            rw [hr]
            exact hold)
        hnext
      rw [← hloc]
      exact ⟨hoff, rfl, hread, href, getAssoc_setAssoc_self _ _ _⟩

theorem read_updateUnlocked (s : StorageState) (id : String) (B : List Nat)
    (old : DocumentLocation) (hlen : B.length < 4294967296)
    (hrlen : (renderBlobRef ⟨id ++ ".blob", B.length, crc32 B⟩).length <
      4294967296)
    (hfree : ∀ fs ∈ s.freeList, DATA_HEADER_SIZE ≤ fs.offset)
    (hnext : DATA_HEADER_SIZE ≤ s.header.nextSlotOffset)
    (hold : DATA_HEADER_SIZE ≤ old.offset)
    (pm : List (List Nat × JSVal)) (v : JSVal)
    (hpm : parseDoc pm B = some v) :
    ∀ newLoc, (updateUnlocked s id B old).2 = .ok newLoc →
      storageRead (updateUnlocked s id B old).1 pm newLoc = .ok v := by
  simp only [updateUnlocked]
  split
  · -- old is a blob-reference slot
    split
    · intro newLoc hloc
      simp at hloc
    · next oldRef heqr =>
      split
      · -- blob -> blob
        split
        · intro newLoc hloc
          simp at hloc
        · next nl2 heq =>
          intro newLoc hloc
          rw [Except.ok.injEq] at hloc
          obtain ⟨hoff, hblob2, hread, href, hbf⟩ :=
            read_updateBlobReferenceUnlocked s id B old hrlen hfree hnext
              hold nl2 heq
          rw [← hloc]
          apply @storageRead_blob_ok _ _ _
            (⟨id ++ ".blob", B.length, crc32 B⟩ : BlobRef) B _ hblob2
          · rw [readSlot_flush _ _ _ hoff]
            exact ⟨_, hread⟩
          · rw [flushIfNotBatching_refMap]
            exact href
          · rw [flushIfNotBatching_blobFiles]
            exact hbf
          · rfl
          · exact hpm
      · -- blob -> inline
        split
        · intro newLoc hloc
          simp at hloc
        · next f1 heq =>
          intro newLoc hloc
          rw [Except.ok.injEq] at hloc
          obtain ⟨hoff, hread⟩ := read_allocWriteInline
            { deleteBlob s oldRef.path with
                file := f1,
                freeList := (deleteBlob s oldRef.path).freeList ++
                  [⟨old.offset, old.slabSize⟩] } B hlen
            (by
              intro fs hfs
              rcases List.mem_append.mp hfs with hl | hr
              · exact hfree fs hl
              · rw [List.mem_singleton] at hr
                rw [hr]
                exact hold)
            hnext
          rw [← hloc]
          apply storageRead_inline_ok rfl
          · rw [readSlot_flush _ _ _ hoff]
            exact hread
          · exact hpm
  · -- old is inline
    split
    · -- inline -> blob
      split
      · intro newLoc hloc
        simp at hloc
      · next f1 heq =>
        intro newLoc hloc
        rw [Except.ok.injEq] at hloc
        obtain ⟨hoff, hread, href⟩ := read_writeBlobReferenceSlot
          (writeBlobFile
            { s with
                file := f1,
                freeList := s.freeList ++ [⟨old.offset, old.slabSize⟩] }
            (id ++ ".blob") B).1
          (writeBlobFile
            { s with
                file := f1,
                freeList := s.freeList ++ [⟨old.offset, old.slabSize⟩] }
            (id ++ ".blob") B).2 hrlen
          (by
            intro fs hfs
            rcases List.mem_append.mp hfs with hl | hr
            · exact hfree fs hl
            · rw [List.mem_singleton] at hr
              rw [hr]
              exact hold)
          hnext
        rw [← hloc]
        simp only [writeBlobForUpdateUnlocked]
        apply @storageRead_blob_ok _ _ _
          (⟨id ++ ".blob", B.length, crc32 B⟩ : BlobRef) B _ rfl
        · rw [readSlot_flush _ _ _ hoff]
          exact ⟨_, hread⟩
        · rw [flushIfNotBatching_refMap]
          exact href
        · rw [flushIfNotBatching_blobFiles]
          exact getAssoc_setAssoc_self _ _ _
        · rfl
        · exact hpm
    · split
      · -- inline -> inline, in place
        next hfits =>
        intro newLoc hloc
        rw [Except.ok.injEq] at hloc
        rw [← hloc]
        apply storageRead_inline_ok rfl
        · rw [readSlot_flush _ _ _ hold]
          exact readSlot_writeSlot_self _ _ _ _ hlen
        · exact hpm
      · -- inline -> inline, relocate
        split
        · intro newLoc hloc
          simp at hloc
        · next f1 heq =>
          intro newLoc hloc
          rw [Except.ok.injEq] at hloc
          obtain ⟨hoff, hread⟩ := read_allocWriteInline
            { s with
                file := f1,
                freeList := s.freeList ++ [⟨old.offset, old.slabSize⟩] }
            B hlen
            (by
              intro fs hfs
              rcases List.mem_append.mp hfs with hl | hr
              · exact hfree fs hl
              · rw [List.mem_singleton] at hr
                rw [hr]
                exact hold)
            hnext
          rw [← hloc]
          apply storageRead_inline_ok rfl
          · rw [readSlot_flush _ _ _ hoff]
            exact hread
          · exact hpm

/-! ### Collection-level glue for claim C8 -/

theorem collGet_cache_hit {c : CollState} {id : String} {d : JSVal}
    (h : getAssoc c.cache id = some d) :
    (collGet c id).2 = .ok (some d) := by
  unfold collGet cacheGetR
  rw [h]

theorem collGet_cache_miss_hit_prim {c : CollState} {id : String}
    {loc : DocumentLocation} {v : JSVal}
    (hmiss : getAssoc c.cache id = none)
    (hprim : getAssoc c.im.primaryIndex id = some loc)
    (hread : storageRead c.storage c.parseMap loc = .ok v) :
    (collGet c id).2 = .ok (some v) := by
  unfold collGet cacheGetR
  simp only [hmiss, hprim, hread]

theorem get_after_insertBody (c : CollState) (id : String) (d : JSVal)
    (hfree : ∀ fs ∈ c.storage.freeList, DATA_HEADER_SIZE ≤ fs.offset)
    (hnext : DATA_HEADER_SIZE ≤ c.storage.header.nextSlotOffset)
    (hnd : (c.cache.map Prod.fst).Nodup)
    (hc0 : c.cacheSize = 0 → c.cache = [])
    (hlen : (encodeDoc d).length < 4294967296)
    (hrlen : (renderBlobRef ⟨id ++ ".blob", (encodeDoc d).length,
      crc32 (encodeDoc d)⟩).length < 4294967296) :
    (collGet (insertBody c id d) id).2 = .ok (some d) := by
  by_cases hcs : c.cacheSize = 0
  · apply @collGet_cache_miss_hit_prim _ _
      ((writeUnlocked c.storage id (encodeDoc d)).2) _
    · show getAssoc (cacheSet c.cacheSize c.cache id d) id = none
      have he : cacheSet c.cacheSize c.cache id d = c.cache := by
        unfold cacheSet
        rw [if_pos hcs]
      rw [he, hc0 hcs]
      rfl
    · show getAssoc (setAssoc c.im.primaryIndex id
        (writeUnlocked c.storage id (encodeDoc d)).2) id = some _
      exact getAssoc_setAssoc_self _ _ _
    · exact read_writeUnlocked c.storage id (encodeDoc d) hlen hrlen hfree
        hnext _ d (getAssoc_setAssoc_self _ _ _)
  · apply collGet_cache_hit
    show getAssoc (cacheSet c.cacheSize c.cache id d) id = some d
    exact getAssoc_cacheSet_self _ _ _ _ hcs hnd

theorem get_after_updateBody (c : CollState) (id : String) (d : JSVal)
    (oldLoc : DocumentLocation)
    (hfree : ∀ fs ∈ c.storage.freeList, DATA_HEADER_SIZE ≤ fs.offset)
    (hnext : DATA_HEADER_SIZE ≤ c.storage.header.nextSlotOffset)
    (hold : DATA_HEADER_SIZE ≤ oldLoc.offset)
    (hnd : (c.cache.map Prod.fst).Nodup)
    (hc0 : c.cacheSize = 0 → c.cache = [])
    (hlen : (encodeDoc d).length < 4294967296)
    (hrlen : (renderBlobRef ⟨id ++ ".blob", (encodeDoc d).length,
      crc32 (encodeDoc d)⟩).length < 4294967296)
    (hsucc : (updateBody c id d oldLoc).2 = none) :
    (collGet (updateBody c id d oldLoc).1 id).2 = .ok (some d) := by
  simp only [updateBody] at hsucc ⊢
  split at hsucc
  · simp at hsucc
  · next oldData heq =>
    split at hsucc
    · simp at hsucc
    · next newLoc heq2 =>
      by_cases hcs : c.cacheSize = 0
      · apply @collGet_cache_miss_hit_prim _ _ newLoc _
        · show getAssoc (cacheSet c.cacheSize c.cache id d) id = none
          have he : cacheSet c.cacheSize c.cache id d = c.cache := by
            unfold cacheSet
            rw [if_pos hcs]
          rw [he, hc0 hcs]
          rfl
        · show getAssoc (setAssoc c.im.primaryIndex id newLoc) id =
            some newLoc
          exact getAssoc_setAssoc_self _ _ _
        · exact read_updateUnlocked c.storage id (encodeDoc d) oldLoc hlen
            hrlen hfree hnext hold _ d (getAssoc_setAssoc_self _ _ _)
            newLoc heq2
      · apply collGet_cache_hit
        show getAssoc (cacheSet c.cacheSize c.cache id d) id = some d
        exact getAssoc_cacheSet_self _ _ _ _ hcs hnd

/-- Claim C8: `upsert(id, d)` runs exactly `update(id, d)` when `id` is in
the primary index and exactly `insert(id, d)` when it is not; any error it
reports is an I/O-side error, never `DuplicateId` or `DocumentNotFound`;
and after a successful upsert, `get(id)` returns `d` (from the LRU cache
when caching is enabled, else by reading the stored document back).  The
hypotheses are the reachable-state side conditions: free-list entries and
primary locations sit past the file header, cache keys are distinct (empty
when caching is disabled), and the encoded document and its blob reference
fit the 32-bit length fields. -/
theorem claim_C8 (c : CollState) (id : String) (d : JSVal)
    (hfree : ∀ fs ∈ c.storage.freeList, DATA_HEADER_SIZE ≤ fs.offset)
    (hnext : DATA_HEADER_SIZE ≤ c.storage.header.nextSlotOffset)
    (hprim : ∀ p ∈ c.im.primaryIndex, DATA_HEADER_SIZE ≤ p.2.offset)
    (hnd : (c.cache.map Prod.fst).Nodup)
    (hc0 : c.cacheSize = 0 → c.cache = [])
    (hlen : (encodeDoc d).length < 4294967296)
    (hrlen : (renderBlobRef ⟨id ++ ".blob", (encodeDoc d).length,
      crc32 (encodeDoc d)⟩).length < 4294967296) :
    ((getAssoc c.im.primaryIndex id).isSome →
      collUpsert c id d = collUpdate c id d) ∧
    (getAssoc c.im.primaryIndex id = none →
      collUpsert c id d = collInsert c id d) ∧
    (∀ e, (collUpsert c id d).2 = some e → IsIoErr e) ∧
    ((collUpsert c id d).2 = none →
      (collGet (collUpsert c id d).1 id).2 = .ok (some d)) := by
  refine ⟨?_, ?_, ?_, ?_⟩
  · intro hsome
    unfold collUpsert collUpdate
    cases h : getAssoc c.im.primaryIndex id with
    | none =>
      rw [h] at hsome
      simp at hsome
    | some oldLoc => rfl
  · intro hnone
    unfold collUpsert collInsert
    simp [hnone]
  · intro e he
    unfold collUpsert at he
    cases h : getAssoc c.im.primaryIndex id with
    | none =>
      rw [h] at he
      simp at he
    | some oldLoc =>
      rw [h] at he
      simp only [updateBody] at he
      split at he
      · next e2 heq =>
        exact (Option.some.inj he) ▸ storageRead_ioerr _ _ _ e2 heq
      · split at he
        · next e2 heq2 =>
          exact (Option.some.inj he) ▸ updateUnlocked_ioerr _ _ _ _ e2 heq2
        · simp at he
  · intro hsucc
    unfold collUpsert at hsucc ⊢
    cases h : getAssoc c.im.primaryIndex id with
    | none =>
      exact get_after_insertBody c id d hfree hnext hnd hc0 hlen hrlen
    | some oldLoc =>
      rw [h] at hsucc
      exact get_after_updateBody c id d oldLoc hfree hnext
        (hprim _ (getAssoc_mem h)) hnd hc0 hlen hrlen hsucc

theorem claim_C8_witness :
    ((getAssoc (initialColl 1048576 4).im.primaryIndex "w").isSome →
      collUpsert (initialColl 1048576 4) "w" .nullV =
        collUpdate (initialColl 1048576 4) "w" .nullV) ∧
    (getAssoc (initialColl 1048576 4).im.primaryIndex "w" = none →
      collUpsert (initialColl 1048576 4) "w" .nullV =
        collInsert (initialColl 1048576 4) "w" .nullV) ∧
    (∀ e, (collUpsert (initialColl 1048576 4) "w" .nullV).2 = some e →
      IsIoErr e) ∧
    ((collUpsert (initialColl 1048576 4) "w" .nullV).2 = none →
      (collGet (collUpsert (initialColl 1048576 4) "w" .nullV).1 "w").2 =
        .ok (some .nullV)) :=
  claim_C8 (initialColl 1048576 4) "w" .nullV
    (by simp [initialColl])
    (by decide)
    (by simp [initialColl])
    (by simp [initialColl])
    (by simp [initialColl])
    (by decide)
    (by decide)

/-! ### Double compaction (claim C3) -/

theorem readSlot_ok_length {f : List Nat} {off len : Nat} {data : List Nat}
    (h : readSlot f off len = .ok data) : data.length = len := by
  unfold readSlot validateSlot at h
  split at h
  · simp at h
  · next hge =>
    split at h
    · simp at h
    · split at h
      · simp at h
      · split at h
        · simp at h
        · rw [Except.ok.injEq] at h
          rw [← h]
          unfold slice
          simp only [List.length_take, List.length_drop]
          unfold slice at hge
          simp only [List.length_take, List.length_drop, not_lt] at hge
          omega

theorem compactBuild_keys (st : StorageState) :
    ∀ (index : List (String × DocumentLocation)) (off : Nat)
      (b : CompactBuild), compactBuild st off index = .ok b →
      b.locs.map Prod.fst = index.map Prod.fst := by
  intro index
  induction index with
  | nil =>
    intro off b hb
    rw [compactBuild] at hb
    rw [Except.ok.injEq] at hb
    rw [← hb]
  | cons entry rest ih =>
    intro off b hb
    simp only [compactBuild] at hb
    split at hb
    · simp at hb
    · split at hb
      · simp at hb
      · split at hb
        · simp at hb
        · next r hr =>
          rw [Except.ok.injEq] at hb
          rw [← hb]
          simp only [List.map_cons]
          rw [ih _ r hr]

theorem selectSlabSize_pos (n : Nat) : 0 < selectSlabSize n := by
  have := selectSlabSize_ge n
  unfold SLOT_HEADER_SIZE at this
  omega

theorem compactBuild_refs_spec (st : StorageState) :
    ∀ (index : List (String × DocumentLocation)) (off : Nat)
      (b : CompactBuild), compactBuild st off index = .ok b →
      (∀ p ∈ b.refs, off ≤ p.1) ∧
      List.Pairwise (fun p q : Nat × BlobRef => p.1 < q.1) b.refs := by
  intro index
  induction index with
  | nil =>
    intro off b hb
    rw [compactBuild] at hb
    rw [Except.ok.injEq] at hb
    rw [← hb]
    exact ⟨fun p hp => absurd hp (List.not_mem_nil p), List.Pairwise.nil⟩
  | cons entry rest ih =>
    intro off b hb
    simp only [compactBuild] at hb
    split at hb
    · simp at hb
    · next data hread =>
      split at hb
      · simp at hb
      · next lv hlv =>
        split at hb
        · simp at hb
        · next r hr =>
          rw [Except.ok.injEq] at hb
          obtain ⟨hlb, hpw⟩ := ih _ r hr
          have hslab : 0 < selectSlabSize data.length :=
            selectSlabSize_pos data.length
          have hlv2 : (∀ q ∈ lv.2, q.1 = off) ∧
              List.Pairwise (fun p q : Nat × BlobRef => p.1 < q.1) lv.2 := by
            split at hlv
            · split at hlv
              · rw [Except.ok.injEq] at hlv
                rw [← hlv]
                refine ⟨fun q hq => ?_, List.pairwise_singleton _ _⟩
                rw [List.mem_singleton] at hq
                rw [hq]
              · simp at hlv
            · rw [Except.ok.injEq] at hlv
              rw [← hlv]
              exact ⟨fun q hq => absurd hq (List.not_mem_nil q),
                List.Pairwise.nil⟩
          rw [← hb]
          constructor
          · intro p hp
            rcases List.mem_append.mp hp with hp | hp
            · rw [hlv2.1 p hp]
            · exact le_trans (by omega) (hlb p hp)
          · rw [List.pairwise_append]
            refine ⟨hlv2.2, hpw, ?_⟩
            intro p hp q hq
            rw [hlv2.1 p hp]
            exact lt_of_lt_of_le (by omega) (hlb q hq)

theorem getAssoc_mem_self {α β : Type} [DecidableEq α]
    {l : List (α × β)} (hnd : (l.map Prod.fst).Nodup) :
    ∀ p ∈ l, getAssoc l p.1 = some p.2 := by
  induction l with
  | nil => intro p hp; exact absurd hp (List.not_mem_nil p)
  | cons kv rest ih =>
    rw [List.map_cons, List.nodup_cons] at hnd
    intro p hp
    rcases List.mem_cons.mp hp with hp | hp
    · rw [hp, getAssoc, if_pos rfl]
    · have hne : kv.1 ≠ p.1 := fun he =>
        hnd.1 (by rw [he]; exact List.mem_map_of_mem Prod.fst hp)
      rw [getAssoc, if_neg hne]
      exact ih hnd.2 p hp

theorem pairwise_lt_keys_nodup {β : Type} {l : List (Nat × β)}
    (h : List.Pairwise (fun p q : Nat × β => p.1 < q.1) l) :
    (l.map Prod.fst).Nodup := by
  rw [List.Nodup, List.pairwise_map]
  exact h.imp fun hlt => Nat.ne_of_lt hlt

theorem setAssoc_append_left {α β : Type} [DecidableEq α]
    (pre l : List (α × β)) (k : α) (v : β)
    (hk : ∀ p ∈ pre, p.1 ≠ k) :
    setAssoc (pre ++ l) k v = pre ++ setAssoc l k v := by
  induction pre with
  | nil => rfl
  | cons kv rest ih =>
    rw [List.cons_append, setAssoc,
      if_neg (hk kv (List.mem_cons_self _ _)), List.cons_append,
      ih fun p hp => hk p (List.mem_cons_of_mem _ hp)]

theorem foldl_setAssoc_pref {α β : Type} [DecidableEq α] :
    ∀ (locs pre prim : List (α × β)),
      prim.map Prod.fst = locs.map Prod.fst →
      ((pre ++ prim).map Prod.fst).Nodup →
      locs.foldl (fun acc e => setAssoc acc e.1 e.2) (pre ++ prim) =
        pre ++ locs := by
  intro locs
  induction locs with
  | nil =>
    intro pre prim hkeys _
    have hp : prim = [] := by simpa using hkeys
    rw [hp]
    rfl
  | cons e rest ih =>
    intro pre prim hkeys hnd
    cases prim with
    | nil => simp at hkeys
    | cons p prest =>
      simp only [List.map_cons, List.cons.injEq] at hkeys
      rw [List.foldl_cons]
      have hpre : ∀ q ∈ pre, q.1 ≠ e.1 := by
        intro q hq he
        rw [List.map_append, List.nodup_append] at hnd
        exact hnd.2.2 (List.mem_map_of_mem Prod.fst hq)
          (by
            rw [List.map_cons]
            rw [he, ← hkeys.1]
            exact List.mem_cons_self _ _)
      rw [setAssoc_append_left pre _ e.1 e.2 hpre, setAssoc,
        if_pos hkeys.1, hkeys.1, Prod.mk.eta,
        show pre ++ e :: prest = (pre ++ [e]) ++ prest by simp,
        show pre ++ e :: rest = (pre ++ [e]) ++ rest by simp]
      apply ih (pre ++ [e]) prest hkeys.2
      have hnd2 : ((pre ++ e :: prest).map Prod.fst).Nodup := by
        simp only [List.map_append, List.map_cons] at hnd ⊢
        rw [← hkeys.1]
        exact hnd
      simpa using hnd2

/-- Specialization: replaying all own entries of an assoc list with fresh
values rebuilds exactly the replayed list. -/
theorem foldl_setAssoc_self {α β : Type} [DecidableEq α]
    (locs prim : List (α × β))
    (hkeys : prim.map Prod.fst = locs.map Prod.fst)
    (hnd : (prim.map Prod.fst).Nodup) :
    locs.foldl (fun acc e => setAssoc acc e.1 e.2) prim = locs := by
  have := foldl_setAssoc_pref locs [] prim hkeys (by simpa using hnd)
  simpa using this

theorem foldl_updateLocation_im (locs : List (String × DocumentLocation)) :
    ∀ im : IndexManagerState,
      locs.foldl (fun im e => updateLocation im e.1 e.2) im =
        ⟨locs.foldl (fun acc e => setAssoc acc e.1 e.2) im.primaryIndex,
         im.secondaryIndexes⟩ := by
  induction locs with
  | nil => intro im; rfl
  | cons e rest ih =>
    intro im
    rw [List.foldl_cons, List.foldl_cons]
    exact ih (updateLocation im e.1 e.2)

/-- Re-running `compactBuild` over the locations it produced, on the packed
file it described, reads every slot back verbatim and reproduces the same
buffers, locations, totals and blob references. -/
theorem compactBuild_rerun (st st2 : StorageState) :
    ∀ (index : List (String × DocumentLocation)) (off : Nat)
      (b : CompactBuild), compactBuild st off index = .ok b →
      (∀ p ∈ index, p.2.length < 4294967296) →
      ∀ A : List Nat, A.length = off →
      st2.file = A ++ b.bufs.flatten →
      (∀ p ∈ b.refs, getAssoc st2.refMap p.1 = some p.2) →
      compactBuild st2 off b.locs =
        .ok ⟨b.bufs, b.locs, b.totalBytes, b.totalLive, b.refs⟩ := by
  intro index
  induction index with
  | nil =>
    intro off b hb hlen A hA hfile hrefs
    rw [compactBuild] at hb
    rw [Except.ok.injEq] at hb
    rw [← hb]
    rfl
  | cons entry rest ih =>
    intro off b hb hlen A hA hfile hrefs
    simp only [compactBuild] at hb
    split at hb
    · simp at hb
    · next data hread =>
      split at hb
      · simp at hb
      · next lv hlv =>
        split at hb
        · simp at hb
        · next r hr =>
          rw [Except.ok.injEq] at hb
          subst hb
          have hdlen := readSlot_ok_length hread
          have hd32 : data.length < 4294967296 := by
            rw [hdlen]
            exact hlen entry (List.mem_cons_self _ _)
          have hfit := selectSlabSize_ge data.length
          have hread2 : readSlot st2.file off data.length = .ok data := by
            rw [hfile, List.flatten_cons, ← List.append_assoc, ← hA]
            exact readSlot_at entry.2.isBlob hfit hd32
          cases hblob : entry.2.isBlob with
          | false =>
            rw [hblob] at hlv hfile hrefs
            simp only [Bool.false_eq_true, if_false, Except.ok.injEq] at hlv
            subst hlv
            have hih := ih (off + selectSlabSize data.length) r hr
              (fun p hp => hlen p (List.mem_cons_of_mem _ hp))
              (A ++ slotBuffer data (selectSlabSize data.length) false)
              (by rw [List.length_append, slotBuffer_length false hfit, hA])
              (by rw [hfile, List.flatten_cons, List.append_assoc])
              (fun p hp => hrefs p (List.mem_append_right _ hp))
            simp only [compactBuild, hread2, Bool.false_eq_true, if_false,
              hih]
          | true =>
            rw [hblob] at hlv hfile hrefs
            simp only [if_true] at hlv
            split at hlv
            · next ref heqref =>
              rw [Except.ok.injEq] at hlv
              subst hlv
              have href2 : getAssoc st2.refMap off = some ref :=
                hrefs (off, ref)
                  (List.mem_append_left _ (List.mem_singleton.mpr rfl))
              have hih := ih (off + selectSlabSize data.length) r hr
                (fun p hp => hlen p (List.mem_cons_of_mem _ hp))
                (A ++ slotBuffer data (selectSlabSize data.length) true)
                (by rw [List.length_append, slotBuffer_length true hfit, hA])
                (by rw [hfile, List.flatten_cons, List.append_assoc])
                (fun p hp => hrefs p (List.mem_append_right _ hp))
              simp only [compactBuild, hread2, if_true, href2, hih]
            · simp at hlv

theorem compactS_rerun (st : StorageState)
    (index : List (String × DocumentLocation))
    (hlen : ∀ p ∈ index, p.2.length < 4294967296) :
    ∀ st1 n1 locs1, compactS st index = .ok (st1, n1, locs1) →
      compactS st1 locs1 = .ok (st1, 0, locs1) := by
  intro st1 n1 locs1 h
  simp only [compactS] at h
  split at h
  · simp at h
  · next b hb =>
    simp only [Except.ok.injEq, Prod.ext_iff] at h
    obtain ⟨hst, hn, hlocs⟩ := h
    subst hst
    subst hlocs
    have hkeys := compactBuild_keys st index DATA_HEADER_SIZE b hb
    have hloclen : b.locs.length = index.length := by
      have h2 := congrArg List.length hkeys
      simpa using h2
    have hndrefs : (b.refs.map Prod.fst).Nodup :=
      pairwise_lt_keys_nodup
        (compactBuild_refs_spec st index DATA_HEADER_SIZE b hb).2
    have hrerun := compactBuild_rerun st
      ({ st with
          file := headerBytes ⟨DATA_FILE_MAGIC, FORMAT_VERSION,
            DATA_HEADER_SIZE + b.totalBytes, (b.totalLive : Int),
            (index.length : Int), DATA_HEADER_SIZE + b.totalBytes⟩ ++
            b.bufs.flatten,
          header := ⟨DATA_FILE_MAGIC, FORMAT_VERSION,
            DATA_HEADER_SIZE + b.totalBytes, (b.totalLive : Int),
            (index.length : Int), DATA_HEADER_SIZE + b.totalBytes⟩,
          freeList := [],
          refMap := b.refs })
      index DATA_HEADER_SIZE b hb hlen
      (headerBytes ⟨DATA_FILE_MAGIC, FORMAT_VERSION,
        DATA_HEADER_SIZE + b.totalBytes, (b.totalLive : Int),
        (index.length : Int), DATA_HEADER_SIZE + b.totalBytes⟩)
      (by simp [headerBytes_length, DATA_HEADER_SIZE]) rfl
      (fun p hp => getAssoc_mem_self hndrefs p hp)
    simp only [compactS, hrerun]
    rw [hloclen]
    simp [sub_self]

/-- Claim C3: compacting twice is idempotent.  Under the reachable-state
side conditions that the primary-index keys are distinct and every indexed
length fits the 32-bit dataLength field, if `compact` succeeds then running
`compact` again returns the state unchanged and frees zero bytes — in
particular the data file after the second compaction is bytewise equal to
the file after the first. -/
theorem claim_C3 (c : CollState)
    (hnd : (c.im.primaryIndex.map Prod.fst).Nodup)
    (hlen : ∀ p ∈ c.im.primaryIndex, p.2.length < 4294967296) :
    ∀ c1 n1, collCompact c = .ok (c1, n1) →
      collCompact c1 = .ok (c1, 0) := by
  intro c1 n1 h1
  unfold collCompact at h1
  split at h1
  · simp at h1
  · next r hr =>
    obtain ⟨r1, rn, rlocs⟩ := r
    have horig := hr
    simp only [Except.ok.injEq, Prod.ext_iff] at h1
    obtain ⟨hc1, hn1⟩ := h1
    simp only [compactS] at hr
    split at hr
    · simp at hr
    · next b hb =>
      simp only [Except.ok.injEq, Prod.ext_iff] at hr
      obtain ⟨hst, hn, hlocs⟩ := hr
      subst hst
      subst hlocs
      subst hn
      have hkeys := compactBuild_keys c.storage c.im.primaryIndex
        DATA_HEADER_SIZE b hb
      have hndlocs : (b.locs.map Prod.fst).Nodup := by
        rw [hkeys]
        exact hnd
      have him : b.locs.foldl (fun im e => updateLocation im e.1 e.2) c.im =
          ⟨b.locs, c.im.secondaryIndexes⟩ := by
        rw [foldl_updateLocation_im,
          foldl_setAssoc_self b.locs c.im.primaryIndex hkeys.symm hnd]
      rw [him] at hc1
      subst hc1
      have hrr := compactS_rerun c.storage c.im.primaryIndex hlen _ _ _ horig
      simp only [collCompact, hrr]
      rw [foldl_updateLocation_im,
        foldl_setAssoc_self b.locs b.locs rfl hndlocs]

theorem claim_C3_witness :
    collCompact
      { storage :=
          { file := headerBytes
              ⟨DATA_FILE_MAGIC, FORMAT_VERSION, 64, 0, 0, 64⟩ ++ [],
            header := ⟨DATA_FILE_MAGIC, FORMAT_VERSION, 64, 0, 0, 64⟩,
            freeList := [],
            blobFiles := [],
            refMap := [],
            blobThreshold := 1048576,
            batchDepth := 0,
            headerDirty := false },
        im := ⟨[], []⟩,
        cache := [],
        cacheSize := 0,
        parseMap := [] } =
      .ok
        ({ storage :=
            { file := headerBytes
                ⟨DATA_FILE_MAGIC, FORMAT_VERSION, 64, 0, 0, 64⟩ ++ [],
              header := ⟨DATA_FILE_MAGIC, FORMAT_VERSION, 64, 0, 0, 64⟩,
              freeList := [],
              blobFiles := [],
              refMap := [],
              blobThreshold := 1048576,
              batchDepth := 0,
              headerDirty := false },
           im := ⟨[], []⟩,
           cache := [],
           cacheSize := 0,
           parseMap := [] }, 0) :=
  claim_C3 (initialColl 1048576 0) (by simp [initialColl])
    (by simp [initialColl]) _ 0 (by rfl)

theorem claim_C5_witness :
    (updateUnlocked
        { file := headerBytes initialHeader ++ slotBuffer [7] 32 false,
          header := ⟨DATA_FILE_MAGIC, FORMAT_VERSION, 96, 1, 1, 96⟩,
          freeList := [], blobFiles := [], refMap := [],
          blobThreshold := 1048576, batchDepth := 0, headerDirty := false }
        "k" [7, 8] ⟨64, 1, 32, false⟩).2 = .ok ⟨64, 2, 32, false⟩ ∧
    (updateUnlocked
        { file := headerBytes initialHeader ++ slotBuffer [7] 32 false,
          header := ⟨DATA_FILE_MAGIC, FORMAT_VERSION, 96, 1, 1, 96⟩,
          freeList := [], blobFiles := [], refMap := [],
          blobThreshold := 1048576, batchDepth := 0, headerDirty := false }
        "k" [7, 8] ⟨64, 1, 32, false⟩).1.freeList = [] ∧
    (updateUnlocked
        { file := headerBytes initialHeader ++ slotBuffer [7] 32 false,
          header := ⟨DATA_FILE_MAGIC, FORMAT_VERSION, 96, 1, 1, 96⟩,
          freeList := [], blobFiles := [], refMap := [],
          blobThreshold := 1048576, batchDepth := 0, headerDirty := false }
        "k" [7, 8] ⟨64, 1, 32, false⟩).1.header.nextSlotOffset = 96 ∧
    readSlot
      (updateUnlocked
        { file := headerBytes initialHeader ++ slotBuffer [7] 32 false,
          header := ⟨DATA_FILE_MAGIC, FORMAT_VERSION, 96, 1, 1, 96⟩,
          freeList := [], blobFiles := [], refMap := [],
          blobThreshold := 1048576, batchDepth := 0, headerDirty := false }
        "k" [7, 8] ⟨64, 1, 32, false⟩).1.file 64 2 = .ok [7, 8] :=
  (claim_C5
    { file := headerBytes initialHeader ++ slotBuffer [7] 32 false,
      header := ⟨DATA_FILE_MAGIC, FORMAT_VERSION, 96, 1, 1, 96⟩,
      freeList := [], blobFiles := [], refMap := [],
      blobThreshold := 1048576, batchDepth := 0, headerDirty := false }
    "k" [7, 8] ⟨64, 1, 32, false⟩ rfl (by decide) (by decide) (by decide)
    (by decide) (by simp) (by decide)).1 (by decide)

end SmolDB
